import Mathlib

/-! # GauXC: shell-batched driver, EK screening and integrator entry points

A shallow embedding of the parts of GauXC that the specification's claims are
about, followed by the theorems that settle them.

Conventions of the embedding

* `std::vector<int32_t>` is a `List Int`; an iterator into a vector is either a
  suffix of the list (inside the intersection routines) or a position counted
  from the start of the range (inside the partitioner).
* Unsigned 32-bit counters wrap explicitly (`% 2 ^ 32`); 64-bit sizes wrap with
  `% 2 ^ 64`.
* Loops whose progress is not structural carry a fuel argument and return
  `none` when the fuel runs out; the theorems show that the fuel supplied by the
  callers is always enough.
-/

namespace GauXC

namespace integrator.cuda

/-! ## Standard-library algorithms used by the driver -/

/-- The iterator returned by `std::lower_bound(first, last, v)` on a range that
is sorted increasingly: the suffix that starts at the first element that is not
less than `v`. -/
def lower_bound (l : List Int) (v : Int) : List Int :=
  l.dropWhile (fun x => decide (x < v))

/-- The function `std::binary_search(first, last, v)`, as the standard library
writes it: `it = lower_bound(first, last, v); return it != last && !(v < *it)`. -/
def binary_search (l : List Int) (v : Int) : Bool :=
  match lower_bound l v with
  | [] => false
  | x :: _ => !decide (v < x)

/-! ## `integral_list_intersect` (threshold overload)

`cuda_driver_replicated_density_shellbatched.cxx`, lines 111-177. -/

/-- The range-for loops of lines 134-138 and 144-148: `vals` is what is left of
the list being iterated, `other` the list that is searched, `cnt` the running
`overlap_count` (a `uint32_t`). -/
def intersect_search_loop (other : List Int) (thr : Nat) : List Int → Nat → Bool
  | [], _ => false
  | v :: rest, cnt =>
    let cnt1 := (cnt + (if binary_search other v then 1 else 0)) % 2 ^ 32
    if cnt1 = thr then true else intersect_search_loop other thr rest cnt1

/-- The `while( B_it != B_end and A_it != A_end )` loop of lines 155-172.  `A`
and `B` are the ranges `[A_it, A_end)` and `[B_it, B_end)`; the result is
`none` when `fuel` iterations were not enough. -/
def intersect_merge_loop (thr : Nat) : Nat → List Int → List Int → Nat → Option Bool
  | 0, _, _, _ => none
  | _ + 1, [], _, _ => some false
  | _ + 1, _ :: _, [], _ => some false
  | fuel + 1, a :: as, b :: bs, cnt =>
    if b < a then
      intersect_merge_loop thr fuel (a :: as) (lower_bound (b :: bs) a) cnt
    else if a < b then
      intersect_merge_loop thr fuel (lower_bound (a :: as) b) (b :: bs) cnt
    else
      let cnt1 := (cnt + 1) % 2 ^ 32
      if cnt1 = thr then some true
      else intersect_merge_loop thr fuel as bs cnt1

/-- The effective threshold of lines 116-118:
`min( uint32_t(min(A.size(), B.size())), overlap_threshold_spec )`. -/
def overlap_threshold (A B : List Int) (overlap_threshold_spec : Nat) : Nat :=
  min (min A.length B.length % 2 ^ 32) overlap_threshold_spec

/-- The threshold overload of `integral_list_intersect`.  `sz_ratio` is 100 and
the products `A_sz * sz_ratio`, `B_sz * sz_ratio` are `size_t` products.  The
merge loop runs on fuel `|A| + |B| + 1`. -/
def integral_list_intersect (A B : List Int) (overlap_threshold_spec : Nat) : Option Bool :=
  let thr := overlap_threshold A B overlap_threshold_spec
  if A.length * 100 % 2 ^ 64 < B.length then
    some (intersect_search_loop B thr A 0)
  else if B.length * 100 % 2 ^ 64 < A.length then
    some (intersect_search_loop A thr B 0)
  else
    intersect_merge_loop thr (A.length + B.length + 1) A B 0

/-- The number of elements of `A` that occur in `B`. -/
def common (A B : List Int) : Nat := (A.filter (fun x => decide (x ∈ B))).length

/-! ## Host tasks and the shell-list rewrite of `device_execute_shellbatched`

`cuda_driver_replicated_density_shellbatched.cxx`, lines 371-382 and 422-428. -/

/-- The fields of a host task that the shell-batched driver reads and writes:
`nbe` and `shell_list`. -/
structure XCTask where
  nbe : Int
  shell_list : List Int
  deriving DecidableEq, Repr

/-- The inner `while( union_shell_list[union_list_idx] != cur_shell_list[j] )
union_list_idx++;` of the rewrite.  `us` is the union list from position
`union_list_idx` on; the result is the position of the first entry equal to `c`
together with the list from there on.  Reading past the end of the union list,
or incrementing the `int` index beyond `2^31 - 1`, is undefined and gives
`none`. -/
def advance_union_idx (c : Int) : List Int → Nat → Option (List Int × Nat)
  | [], _ => none
  | u :: rest, union_list_idx =>
    if u ≠ c then
      if union_list_idx + 1 < 2 ^ 31 then advance_union_idx c rest (union_list_idx + 1)
      else none
    else some (u :: rest, union_list_idx)

/-- The loop over `j` of the rewrite (lines 376-380) for one task: every entry of
`cur_shell_list` is replaced by its position in the union list.  The index
`union_list_idx` is not reset between entries. -/
def recalc_loop : List Int → Nat → List Int → Option (List Int)
  | _, _, [] => some []
  | us, union_list_idx, c :: cs =>
    match advance_union_idx c us union_list_idx with
    | none => none
    | some (us1, idx1) =>
      match recalc_loop us1 idx1 cs with
      | none => none
      | some rest => some ((idx1 : Int) :: rest)

/-- The rewrite of one task's shell list (`union_list_idx` starts at `0`). -/
def recalc_shell_list (union_shell_list cur_shell_list : List Int) : Option (List Int) :=
  recalc_loop union_shell_list 0 cur_shell_list

/-- The restoring loop for one task (lines 425-427):
`shell_list[j] = union_shell_list[shell_list[j]]`; an index outside the union
list is undefined and gives `none`. -/
def reset_shell_list (union_shell_list : List Int) : List Int → Option (List Int)
  | [] => some []
  | k :: ks =>
    if 0 ≤ k then
      match union_shell_list[k.toNat]?, reset_shell_list union_shell_list ks with
      | some s, some rest => some (s :: rest)
      | _, _ => none
    else none

/-- The loop over the tasks of a batch around a per-task rewrite `f`. -/
def map_shell_lists (f : List Int → Option (List Int)) : List XCTask → Option (List XCTask)
  | [] => some []
  | t :: ts =>
    match f t.shell_list, map_shell_lists f ts with
    | some l, some rest => some ({ t with shell_list := l } :: rest)
    | _, _ => none

/-- The `RecalcShellList` step over the tasks `[task_begin, task_end)`. -/
def recalc_tasks (union_shell_list : List Int) (tasks : List XCTask) : Option (List XCTask) :=
  map_shell_lists (recalc_shell_list union_shell_list) tasks

/-- The `ResetShellList` step over the tasks `[task_begin, task_end)`. -/
def reset_tasks (union_shell_list : List Int) (tasks : List XCTask) : Option (List XCTask) :=
  map_shell_lists (reset_shell_list union_shell_list) tasks

/-! ## `generate_dev_batch`

`cuda_driver_replicated_density_shellbatched.cxx`, lines 181-331.  The range
`[task_begin, local_work_end)` is a list of tasks and an iterator into it is a
position counted from `task_begin`. -/

/-- The record `dev_ex_task`; the two iterators are positions in the host task
vector. -/
structure dev_ex_task where
  task_begin : Nat
  task_end : Nat
  shell_list : List Int
  deriving DecidableEq, Repr

/-- The loop of `std::max_element` with `nbe_comparator`: `best` is the largest
task so far and is replaced only by a task with strictly larger `nbe`. -/
def max_element_loop : XCTask → List XCTask → XCTask
  | best, [] => best
  | best, t :: ts => if best.nbe < t.nbe then max_element_loop t ts else max_element_loop best ts

/-- Insertion of one value into a `std::set<int32_t>`, kept as its increasing
list of elements. -/
def set_insert : List Int → Int → List Int
  | [], x => [x]
  | y :: ys, x => if x < y then x :: y :: ys else if y < x then y :: set_insert ys x else y :: ys

/-- The range insertion `set.insert( first, last )`. -/
def set_insert_range (s : List Int) (l : List Int) : List Int :=
  l.foldl set_insert s

/-- The loop of lines 275-278: the shell lists of the given tasks are inserted
into the set one task after the other. -/
def insert_shell_lists (s : List Int) (ts : List XCTask) : List Int :=
  ts.foldl (fun acc t => set_insert_range acc t.shell_list) s

/-- The function `std::includes( A.begin(), A.end(), B.begin(), B.end() )` as the
standard library writes it; `list_subset( A, B )` of lines 44-47 is this call. -/
def list_subset : List Int → List Int → Bool
  | _, [] => true
  | [], _ :: _ => false
  | a :: as, b :: bs =>
    if b < a then false
    else if a < b then list_subset as (b :: bs)
    else list_subset as bs

/-- The function `std::partition` on a bidirectional range, as libstdc++, libc++
and the MSVC library all write it: `first` skips the leading elements that
satisfy `p`, `last` skips the trailing elements that do not, the two elements
they stop at are swapped, and the scan goes on between them.  The result is the
rearranged range and the position of the first element of the second group.
`fuel` bounds the number of swaps; the length of the range is enough. -/
def std_partition {α : Type} (p : α → Bool) : Nat → List α → List α × Nat
  | 0, l => (l, 0)
  | fuel + 1, l =>
    let front := l.takeWhile p
    match l.dropWhile p with
    | [] => (l, l.length)
    | f :: rest =>
      let back := (rest.reverse.takeWhile (fun x => !p x)).reverse
      match rest.reverse.dropWhile (fun x => !p x) with
      | [] => (l, front.length)
      | t :: midRev =>
        let r := std_partition p fuel midRev.reverse
        (front ++ t :: (r.1 ++ f :: back), front.length + 1 + r.2)

/-- The call `std::partition( first, last, p )` on the sub-range `[st, en)` of
`l`: the elements outside the sub-range stay where they are. -/
def partition_range {α : Type} (p : α → Bool) (l : List α) (st en : Nat) : List α × Nat :=
  let mid := (l.take en).drop st
  let r := std_partition p mid.length mid
  (l.take st ++ r.1 ++ l.drop en, st + r.2)

/-- What the predicate handed to `std::partition_point` reads and writes besides
its argument: the task range (which it rearranges), `cached_task_ends` and
`cur_partition_pthresh_idx` (`none` for the initial `-1`). -/
structure SearchState where
  tasks : List XCTask
  cached_task_ends : Nat → Option (Nat × List Int)
  cur_partition_pthresh_idx : Option Nat

/-- The test of lines 266-267 on one task. -/
def overlaps (max_shell_list : List Int) (overlap_threshold : Nat) (t : XCTask) : Bool :=
  integral_list_intersect max_shell_list t.shell_list overlap_threshold == some true

/-- The lambda of lines 230-296, called on `idx`.  `overlap_threshold_of idx` is
the value of `uint32_t overlap_threshold = std::max(1., max_shell_list.size() *
overlap_pthresh[idx])`, a `double` computation that is taken as a parameter;
`nbf_subset` is `basis.nbf_subset`.  The result is `none` if
`cached_task_ends.at` throws. -/
def probe_threshold (nbf_threshold : Nat) (overlap_threshold_of : Nat → Nat)
    (nbf_subset : List Int → Nat) (max_shell_list union_shell_set : List Int)
    (idx : Nat) (s : SearchState) : Option (Bool × SearchState) :=
  let overlap_threshold := overlap_threshold_of idx
  let local_work_end := s.tasks.length
  let search : Option (Nat × Nat × List Int) :=
    match s.cur_partition_pthresh_idx with
    | some cur =>
      match s.cached_task_ends cur with
      | none => none
      | some last_pthresh =>
        if cur > idx then some (last_pthresh.1, local_work_end, last_pthresh.2)
        else some (0, last_pthresh.1, union_shell_set)
    | none => some (0, local_work_end, union_shell_set)
  match search with
  | none => none
  | some (search_st, search_en, local_union_shell_set) =>
    let r := partition_range (overlaps max_shell_list overlap_threshold) s.tasks
      search_st search_en
    let task_end := r.2
    let local_union := insert_shell_lists local_union_shell_set
      ((r.1.take task_end).drop search_st)
    let cur_nbe := nbf_subset local_union
    some (decide (cur_nbe < nbf_threshold),
      { tasks := r.1
        cached_task_ends := fun k => if k = idx then some (task_end, local_union)
                                     else s.cached_task_ends k
        cur_partition_pthresh_idx := some idx })

/-- The loop of `std::partition_point` over a range of `len` elements starting
at position `first`, for a predicate with side effects: the element in the
middle is tested and the search goes on to its right if the test succeeds and
to its left otherwise.  `elem m` is the element at position `m`. -/
def partition_point_loop (pred : Nat → SearchState → Option (Bool × SearchState))
    (elem : Nat → Nat) : Nat → Nat → Nat → SearchState → Option (Nat × SearchState)
  | 0, first, _, s => some (first, s)
  | fuel + 1, first, len, s =>
    if len = 0 then some (first, s)
    else
      let half := len / 2
      let middle := first + half
      match pred (elem middle) s with
      | none => none
      | some (true, s1) => partition_point_loop pred elem fuel (middle + 1) (len - half - 1) s1
      | some (false, s1) => partition_point_loop pred elem fuel first half s1

/-- The function `generate_dev_batch` on the task vector `tasks`, for the range
that starts at position `task_begin` and ends at the end of the vector.  The
result is the batch and the rearranged task vector; it is `none` when the
range is empty (`std::max_element` then returns `local_work_end`, which is
dereferenced) or when `cached_task_ends.at` throws.  `n_overlap_pthresh` is 20,
so that `overlap_pthresh_idx` is `0, ..., 18` and the element at position `m` of
its reverse is `18 - m`. -/
def generate_dev_batch (nbf_threshold : Nat) (overlap_threshold_of : Nat → Nat → Nat)
    (nbf_subset : List Int → Nat) (tasks : List XCTask) (task_begin : Nat) :
    Option (dev_ex_task × List XCTask) :=
  match tasks.drop task_begin with
  | [] => none
  | t0 :: rest =>
    let max_task := max_element_loop t0 rest
    let max_shell_list := max_task.shell_list
    let union_shell_set := set_insert_range [] max_shell_list
    let init : SearchState :=
      { tasks := t0 :: rest, cached_task_ends := fun _ => none,
        cur_partition_pthresh_idx := none }
    match partition_point_loop
        (probe_threshold nbf_threshold (overlap_threshold_of max_shell_list.length) nbf_subset
          max_shell_list union_shell_set)
        (fun m => 18 - m) 19 0 19 init with
    | none => none
    | some (it, s) =>
      let idx_partition := if it = 19 then 0 else 18 - it
      match s.cached_task_ends idx_partition with
      | none => none
      | some (task_end, union_shell_list) =>
        let r := partition_range (fun t => list_subset union_shell_list t.shell_list)
          s.tasks task_end s.tasks.length
        some ({ task_begin := task_begin, task_end := task_begin + r.2,
                shell_list := union_shell_list },
              tasks.take task_begin ++ r.1)

/-- The value of `uint32_t overlap_threshold = std::max(1., n * overlap_pthresh[idx])`
of lines 232-233, with `overlap_pthresh[idx] = (idx + 1) * (1. / 20)` (lines
214-218), computed in exact arithmetic: `max(1, n * (idx + 1) / 20)`, rounded
down. -/
def overlap_threshold_exact (n idx : Nat) : Nat :=
  max 1 (n * (idx + 1) / 20)

/-- The shell lists the driver is meant for: increasing and short enough for
the `uint32_t` size arithmetic. -/
def GoodList (l : List Int) : Prop := l.Sorted (· < ·) ∧ l.length < 2 ^ 32

/-- What a cache entry `cached_task_ends[c] = (te, U)` means for the current
arrangement of the tasks: the first `te` tasks are exactly those that pass the
overlap test at threshold index `c`, and `U` is the increasing list of the
shells of `max_shell_list` and of those tasks. -/
def CacheEntry (overlap_threshold_of : Nat → Nat) (max_shell_list : List Int)
    (s : SearchState) (c : Nat) : Prop :=
  ∃ te U A B, s.cached_task_ends c = some (te, U) ∧ s.tasks = A ++ B ∧ A.length = te ∧
    (∀ t ∈ A, overlaps max_shell_list (overlap_threshold_of c) t = true) ∧
    (∀ t ∈ B, overlaps max_shell_list (overlap_threshold_of c) t = false) ∧
    U.Sorted (· < ·) ∧
    (∀ x, x ∈ U ↔ (x ∈ max_shell_list ∨ ∃ t ∈ A, x ∈ t.shell_list))

/-- The invariant of the binary search of `generate_dev_batch` when `len`
positions starting at `first` are left: the tasks are a rearrangement of the
original range, the entry of the index probed last is valid, and so is the
entry of the index just right of the window (the last probe that failed). -/
def SearchInv (overlap_threshold_of : Nat → Nat) (max_shell_list : List Int)
    (tasks0 : List XCTask) (first len : Nat) (s : SearchState) : Prop :=
  first + len ≤ 19 ∧ s.tasks.Perm tasks0 ∧
  (match s.cur_partition_pthresh_idx with
   | none => first = 0 ∧ len = 19
   | some c => (c + first = 19 ∨ c + first + len = 18) ∧
       CacheEntry overlap_threshold_of max_shell_list s c) ∧
  (first + len < 19 → CacheEntry overlap_threshold_of max_shell_list s (18 - first - len))

/-- The union the search builds at threshold index `idx`, described without the
cache: the set of the shells of `max_shell_list` and of every task of the range
that passes the overlap test at that index. -/
def union_at (overlap_threshold_of : Nat → Nat) (max_shell_list : List Int)
    (tasks : List XCTask) (idx : Nat) : List Int :=
  insert_shell_lists (set_insert_range [] max_shell_list)
    (tasks.filter (overlaps max_shell_list (overlap_threshold_of idx)))

/-- The state a probe leaves behind and the answer it gives, once the search
range `[st, en)` and the initial union are known. -/
def probe_result (nbf_threshold : Nat) (overlap_threshold_of : Nat → Nat)
    (nbf_subset : List Int → Nat) (max_shell_list : List Int) (idx : Nat) (s : SearchState)
    (st en : Nat) (Uinit : List Int) : Bool × SearchState :=
  let r := partition_range (overlaps max_shell_list (overlap_threshold_of idx)) s.tasks st en
  let local_union := insert_shell_lists Uinit ((r.1.take r.2).drop st)
  (decide (nbf_subset local_union < nbf_threshold),
    { tasks := r.1
      cached_task_ends := fun k => if k = idx then some (r.2, local_union)
                                   else s.cached_task_ends k
      cur_partition_pthresh_idx := some idx })

/-! ## The producer/worker pipeline

`process_batches_cuda_replicated_density_shellbatched_p`,
`cuda_driver_replicated_density_shellbatched.cxx`, lines 436-548.  The master
thread and the one worker are interleaved at the granularity of queue
operations, which are taken to be atomic.  What the timing decides is left to
two oracles: `ready i` is the answer of `wait_for(5 ms)` in iteration `i`, and
`early i` tells whether a worker that has been launched and has not yet taken
its batch does so before the master reads `dev_tasks.back()` in iteration `i`.
A worker that has not taken its batch by then takes it at the latest when the
master finds it ready or waits for it; since only a worker removes elements
while the master appends, it takes the same batch whenever it runs. -/

/-- The state of `dev_future`: default-constructed or consumed (`invalid`), a
worker launched that has not yet taken its batch (`pending`), or a worker that
has run `execute_device_task`, with or without an exception (`done ok`). -/
inductive Future
  | invalid
  | pending
  | done (ok : Bool)
  deriving DecidableEq, Repr

/-- The variables of the driver: the host tasks, `task_begin`, the queue
`dev_tasks` (front first), `dev_future`, and two records kept for the
statements: the batches executed so far and the batches emplaced so far, both
in order; `iter` counts the iterations of the producer loop. -/
structure PipelineState where
  tasks : List XCTask
  task_begin : Nat
  dev_tasks : List dev_ex_task
  dev_future : Future
  executed : List dev_ex_task
  produced : List dev_ex_task
  iter : Nat
  deriving DecidableEq, Repr

/-- How a call of the driver ends: normal return, an exception that reaches the
caller, undefined behaviour (`back()` on an empty queue, or a failed
`generate_dev_batch`), or the model running out of fuel. -/
inductive Outcome
  | returned (s : PipelineState)
  | threw (s : PipelineState)
  | undefined_behaviour (s : PipelineState)
  | out_of_fuel
  deriving DecidableEq, Repr

/-- The lambda `execute_device_task` of lines 496-513, run by the worker: it
returns at once on an empty queue, otherwise it takes the front batch and
executes it; `device_ok b` tells whether `device_execute_shellbatched` completes
on `b` without an exception. -/
def worker_run (device_ok : dev_ex_task → Bool) (s : PipelineState) : PipelineState :=
  match s.dev_tasks with
  | [] => { s with dev_future := Future.done true }
  | b :: q =>
    { s with dev_tasks := q, executed := s.executed ++ [b],
             dev_future := Future.done (device_ok b) }

/-- The worker has finished by now: if it had not taken its batch yet, it does. -/
def worker_finish (device_ok : dev_ex_task → Bool) (s : PipelineState) : PipelineState :=
  if s.dev_future = Future.pending then worker_run device_ok s else s

/-- The loop of lines 539-542 on the master thread: the remaining batches are
executed one after the other; an exception leaves the function. -/
def drain_queue (device_ok : dev_ex_task → Bool) : List dev_ex_task → PipelineState → Outcome
  | [], s => Outcome.returned s
  | b :: q, s =>
    let s1 := { s with dev_tasks := q, executed := s.executed ++ [b] }
    if device_ok b then drain_queue device_ok q s1 else Outcome.threw s1

/-- Lines 537-542: `if( dev_future.valid() ) dev_future.wait();` followed by the
drain loop.  `wait()` does not rethrow what the worker raised. -/
def finish_pipeline (device_ok : dev_ex_task → Bool) (s : PipelineState) : Outcome :=
  let s1 := if s.dev_future = Future.invalid then s else worker_finish device_ok s
  drain_queue device_ok s1.dev_tasks s1

/-- Line 519: `dev_tasks.emplace( generate_dev_batch( ... ) )`, which also leaves
the task range rearranged. -/
def emplace_batch (s : PipelineState) (batch : dev_ex_task) (tasks1 : List XCTask) :
    PipelineState :=
  { s with tasks := tasks1, dev_tasks := s.dev_tasks ++ [batch],
           produced := s.produced ++ [batch] }

/-- Lines 522-530: launch a worker if no future is held; otherwise poll the
future for 5 ms and, if it is ready, `get()` it (which rethrows what the worker
raised) and launch the next worker.  An error result is the state in which the
exception leaves the function. -/
def launch_or_poll (device_ok : dev_ex_task → Bool) (ready : Nat → Bool)
    (s : PipelineState) : Except PipelineState PipelineState :=
  if s.dev_future = Future.invalid then
    Except.ok { s with dev_future := Future.pending }
  else if ready s.iter then
    let s1 := worker_finish device_ok s
    if s1.dev_future = Future.done false then Except.error s1
    else Except.ok { s1 with dev_future := Future.pending }
  else Except.ok s

/-- The worker may take its batch before the master goes on to line 533. -/
def worker_may_run (device_ok : dev_ex_task → Bool) (early : Nat → Bool)
    (s : PipelineState) : PipelineState :=
  if early s.iter then worker_finish device_ok s else s

/-- Line 533: `task_begin = dev_tasks.back().task_end`; `back()` on an empty
queue is undefined. -/
def advance_task_begin (s : PipelineState) : Option PipelineState :=
  match s.dev_tasks.getLast? with
  | none => none
  | some last => some { s with task_begin := last.task_end, iter := s.iter + 1 }

/-- The producer loop of lines 516-535, followed by lines 537-542.
`nbf_threshold` is 8000. -/
def producer_loop (overlap_threshold_of : Nat → Nat → Nat) (nbf_subset : List Int → Nat)
    (device_ok : dev_ex_task → Bool) (ready early : Nat → Bool) :
    Nat → PipelineState → Outcome
  | 0, _ => Outcome.out_of_fuel
  | fuel + 1, s =>
    if s.task_begin = s.tasks.length then finish_pipeline device_ok s
    else
      match generate_dev_batch 8000 overlap_threshold_of nbf_subset s.tasks s.task_begin with
      | none => Outcome.undefined_behaviour s
      | some (batch, tasks1) =>
        match launch_or_poll device_ok ready (emplace_batch s batch tasks1) with
        | Except.error se => Outcome.threw se
        | Except.ok s1 =>
          match advance_task_begin (worker_may_run device_ok early s1) with
          | none => Outcome.undefined_behaviour (worker_may_run device_ok early s1)
          | some s2 =>
            producer_loop overlap_threshold_of nbf_subset device_ok ready early fuel s2

/-- The function `process_batches_cuda_replicated_density_shellbatched_p` on the
task range `tasks` (`local_work_begin` is position 0, `local_work_end` the
length of the list). -/
def process_batches_cuda_replicated_density_shellbatched_p
    (overlap_threshold_of : Nat → Nat → Nat) (nbf_subset : List Int → Nat)
    (device_ok : dev_ex_task → Bool) (ready early : Nat → Bool) (fuel : Nat)
    (tasks : List XCTask) : Outcome :=
  producer_loop overlap_threshold_of nbf_subset device_ok ready early fuel
    { tasks := tasks, task_begin := 0, dev_tasks := [], dev_future := Future.invalid,
      executed := [], produced := [], iter := 0 }

end integrator.cuda

/-! ## EK screening: per-task shell and shell-pair selection

`exx_screening.cxx`, lines 170-232 (the enabled branch of the `#if 0`).  The
values are `double`s; the selection only multiplies, takes absolute values and
compares them, so the embedding is written over an arbitrary carrier `R` with
these operations and every theorem holds for whatever the hardware computes. -/

/-- The `double` operations the selection loop uses. -/
structure DoubleOps (R : Type) where
  zero : R
  mul : R → R → R
  abs : R → R
  lt : R → R → Bool

/-- The function `std::max(a, b)`: `(a < b) ? b : a`. -/
def DoubleOps.max {R : Type} (ops : DoubleOps R) (a b : R) : R :=
  if ops.lt a b then b else a

/-- The record `task.cou_screening`. -/
structure CouScreening where
  shell_list : List Int
  shell_pair_list : List (Nat × Nat)
  nbe : Nat
  deriving DecidableEq, Repr

/-- Modelled from the spec: `util::div_ceil` of `gauxc/util/div_ceil.hpp`, which
is not among the sources; the bitmap holds 32 shells per word, so that
`div_ceil(nshells, 32)` words hold them all. -/
def div_ceil (a b : Nat) : Nat := (a + b - 1) / b

/-- Modelled from the spec: `BasisSet::nbf_subset`, which is not among the
sources; `nbe` is the sum of the sizes of the listed shells. -/
def nbf_subset (shell_size : Nat → Nat) (shells : List Nat) : Nat :=
  (shells.map shell_size).sum

/-- The inner loop of lines 181-184: the largest `|max_F_approx_bfn[ibf + i]|`
over the `sh_sz` functions of one shell, starting from `0.`. -/
def collapse_shell {R : Type} (ops : DoubleOps R) (max_F_approx_bfn : Nat → R)
    (ibf sh_sz : Nat) : R :=
  (List.range sh_sz).foldl (fun tmp i => ops.max tmp (ops.abs (max_F_approx_bfn (ibf + i))))
    ops.zero

/-- The loop of lines 179-187 from shell `ish` on, `n` shells to go: the entries
`max_F_shells[ish], max_F_shells[ish + 1], ...`. -/
def collapse_loop {R : Type} (ops : DoubleOps R) (shell_size : Nat → Nat)
    (max_F_approx_bfn : Nat → R) : Nat → Nat → Nat → List R
  | 0, _, _ => []
  | n + 1, ish, ibf =>
    collapse_shell ops max_F_approx_bfn ibf (shell_size ish)
      :: collapse_loop ops shell_size max_F_approx_bfn n (ish + 1) (ibf + shell_size ish)

/-- The vector `max_F_shells` of one task. -/
def max_F_shells {R : Type} (ops : DoubleOps R) (shell_size : Nat → Nat) (nshells : Nat)
    (max_F_approx_bfn : Nat → R) : List R :=
  collapse_loop ops shell_size max_F_approx_bfn nshells 0 0

/-- The test of line 200 on the pair `(i, j)`:
`eps_K_compare > eps_K or eps_E_compare > eps_E` with
`eps_E_compare = F_i * F_j * V_ij` and
`eps_K_compare = std::max(F_i, F_j) * V_ij * max_bf_sum`. -/
def significant {R : Type} (ops : DoubleOps R) (F : Nat → R) (V_shell_max : Nat → R)
    (ldv : Nat) (eps_E eps_K max_bf_sum : R) (i j : Nat) : Bool :=
  let V_ij := V_shell_max (i + j * ldv)
  let F_i := F i
  let F_j := F j
  let eps_E_compare := ops.mul (ops.mul F_i F_j) V_ij
  let eps_K_compare := ops.mul (ops.mul (ops.max F_i F_j) V_ij) max_bf_sum
  ops.lt eps_K eps_K_compare || ops.lt eps_E eps_E_compare

/-- The statement `task_ek_shells[k / 32] |= (1u << (k % 32))`. -/
def set_shell_bit (task_ek_shells : List Nat) (k : Nat) : List Nat :=
  task_ek_shells.set (k / 32) ((task_ek_shells.getD (k / 32) 0 ||| (1 <<< (k % 32))) % 2 ^ 32)

/-- The body of the pair loop, lines 194-209, on the state
`(task_ek_shells, shell_pair_list)`. -/
def ek_pair_step (sig : Nat → Nat → Bool)
    (st : List Nat × List (Nat × Nat)) (i j : Nat) : List Nat × List (Nat × Nat) :=
  if sig i j then (set_shell_bit (set_shell_bit st.1 i) j, st.2 ++ [(i, j)]) else st

/-- The loop `for( j = 0; j <= i; ++j )` of line 193. -/
def ek_inner_loop (sig : Nat → Nat → Bool) (i : Nat)
    (st : List Nat × List (Nat × Nat)) : List Nat × List (Nat × Nat) :=
  (List.range (i + 1)).foldl (fun st j => ek_pair_step sig st i j) st

/-- The loop `for( i = 0; i < nshells; ++i )` of line 192. -/
def ek_pair_loop (sig : Nat → Nat → Bool) (nshells : Nat)
    (st : List Nat × List (Nat × Nat)) : List Nat × List (Nat × Nat) :=
  (List.range nshells).foldl (fun st i => ek_inner_loop sig i st) st

/-- The conversion of a `uint32_t` to `int32_t` (two's complement). -/
def to_int32 (x : Nat) : Int :=
  if x % 2 ^ 32 < 2 ^ 31 then ((x % 2 ^ 32 : Nat) : Int) else ((x % 2 ^ 32 : Nat) : Int) - 2 ^ 32

/-- The expansion of the bitmap into `ek_shells`, lines 216-221: block by block,
bit by bit, the set bits in increasing order. -/
def expand_ek_shells (task_ek_shells : List Nat) (nshells : Nat) : List Nat :=
  (List.range (div_ceil nshells 32)).flatMap fun i_block =>
    ((List.range 32).filter fun i_local =>
      (task_ek_shells.getD i_block 0 &&& (1 <<< i_local)) ≠ 0).map
        fun i_local => i_local + i_block * 32

/-- The body of the task loop of lines 172-232 for one task: `max_F_approx_bfn`
is the task's column of `task_approx_f`, `max_bf_sum` its entry of
`task_max_bf_sum` (both come from the collocation pass and the GEMM of lines
36-117, which call the host work driver and BLAS).  Pairs are appended to the
task's `shell_pair_list`; `shell_list` and `nbe` are overwritten. -/
def ek_select_task {R : Type} (ops : DoubleOps R) (shell_size : Nat → Nat) (nshells : Nat)
    (V_shell_max : Nat → R) (ldv : Nat) (eps_E eps_K : R)
    (max_F_approx_bfn : Nat → R) (max_bf_sum : R) (cou : CouScreening) : CouScreening :=
  let F_sh := max_F_shells ops shell_size nshells max_F_approx_bfn
  let F := fun i => F_sh.getD i ops.zero
  let sig := significant ops F V_shell_max ldv eps_E eps_K max_bf_sum
  let st := ek_pair_loop sig nshells
    (List.replicate (div_ceil nshells 32) 0, cou.shell_pair_list)
  let ek_shells := expand_ek_shells st.1 nshells
  { shell_list := ek_shells.map to_int32
    shell_pair_list := st.2
    nbe := nbf_subset shell_size ek_shells }

/-- The task loop of lines 172-232 over the tasks `[task_begin, task_end)`, given
as the list of their `cou_screening` records; task `i_task` reads the column
`task_approx_f + i_task * nbf` and `task_max_bf_sum[i_task]`.  The iterations
touch disjoint tasks, so the order in which the OpenMP threads run them does
not matter. -/
def exx_ek_select {R : Type} (ops : DoubleOps R) (shell_size : Nat → Nat) (nbf nshells : Nat)
    (V_shell_max : Nat → R) (ldv : Nat) (eps_E eps_K : R)
    (task_approx_f : Nat → R) (task_max_bf_sum : Nat → R)
    (tasks : List CouScreening) : List CouScreening :=
  tasks.enum.map fun it =>
    ek_select_task ops shell_size nshells V_shell_max ldv eps_E eps_K
      (fun k => task_approx_f (it.1 * nbf + k)) (task_max_bf_sum it.1) it.2

/-- Exact integer arithmetic as an instance of the `double` operations, for
evaluating the selection on small inputs. -/
def intOps : DoubleOps Int where
  zero := 0
  mul := fun a b => a * b
  abs := fun a => |a|
  lt := fun a b => decide (a < b)

/-! ## `IncoreReplicatedXCDeviceIntegrator::eval_exx_`

`incore_replicated_xc_device_integrator_exx.hpp`, lines 16-60.  The integrator
acts on a world `W` (load balancer with its task list, device, the caller's
`K`, the communicator); every step returns its outcome together with the world
it leaves behind. -/

namespace detail

/-- The outcome of a step: normal completion or a raised error, and the world
after the step. -/
abbrev Step (W : Type) := W → Except String Unit × W

/-- Modelled from the spec: the macro `GAUXC_GENERIC_EXCEPTION`, whose
definition is not among the sources; it raises an error that carries the
message and does nothing else. -/
def GAUXC_GENERIC_EXCEPTION {W : Type} (msg : String) : Step W :=
  fun w => (Except.error msg, w)

/-- Sequencing of two statements: the second runs only if the first completed. -/
def Step.andThen {W : Type} (a b : Step W) : Step W :=
  fun w =>
    match a w with
    | (Except.ok _, w1) => b w1
    | (Except.error e, w1) => (Except.error e, w1)

/-- The collaborators `eval_exx_` calls after its checks, in the order of lines
37-59: `load_balancer_->get_tasks()`, `create_device_data()`,
`exx_local_work_(...)` (which sorts and rewrites the tasks and writes `K`),
`MPI_Barrier` and `reduction_driver_->allreduce_inplace(K, nbf*nbf, Sum)`. -/
structure EXXCollaborators (W : Type) where
  get_tasks : Step W
  create_device_data : Step W
  exx_local_work_ : Step W
  mpi_barrier : Step W
  allreduce_inplace : Step W

/-- Lines 36-59 of `eval_exx_`: what runs once the checks have passed. -/
def eval_exx_body {W : Type} (c : EXXCollaborators W) : Step W :=
  c.get_tasks.andThen
    (c.create_device_data.andThen
      (c.exx_local_work_.andThen
        (c.mpi_barrier.andThen c.allreduce_inplace)))

/-- The method `eval_exx_(m, n, P, ldp, K, ldk, settings)`; `nbf` is
`basis.nbf()`. -/
def eval_exx_ {W : Type} (c : EXXCollaborators W) (nbf m n ldp ldk : Int) : Step W :=
  if m ≠ n then GAUXC_GENERIC_EXCEPTION "P/K Must Be Square"
  else if m ≠ nbf then GAUXC_GENERIC_EXCEPTION "P/K Must Have Same Dimension as Basis"
  else if ldp < nbf then GAUXC_GENERIC_EXCEPTION "Invalid LDP"
  else if ldk < nbf then GAUXC_GENERIC_EXCEPTION "Invalid LDK"
  else eval_exx_body c

/-- The observable actions of `eval_exx_`, for worlds that record them. -/
inductive EXXEvent
  | tasks_read
  | device_allocated
  | local_work
  | barrier
  | allreduce
  deriving DecidableEq, Repr

/-- Collaborators on the world "list of actions so far": each records itself
and completes. -/
def recordingCollaborators : EXXCollaborators (List EXXEvent) where
  get_tasks := fun w => (Except.ok (), w ++ [EXXEvent.tasks_read])
  create_device_data := fun w => (Except.ok (), w ++ [EXXEvent.device_allocated])
  exx_local_work_ := fun w => (Except.ok (), w ++ [EXXEvent.local_work])
  mpi_barrier := fun w => (Except.ok (), w ++ [EXXEvent.barrier])
  allreduce_inplace := fun w => (Except.ok (), w ++ [EXXEvent.allreduce])

/-! ## `DefaultXCHostIntegrator::eval_exc_vxc_`

`default_xc_host_integrator.hpp`, lines 84-131. -/

/-- A dense matrix as `matrix_type VXC( nbf, nbf )` builds it: its dimensions
and its storage. -/
structure Matrix (D : Type) where
  rows : Nat
  cols : Nat
  data : D
  deriving DecidableEq, Repr

/-- The three results the batch processor writes through its out-parameters
`VXC`, `exc` and `n_el`. -/
structure BatchOutput (F D : Type) where
  VXC : D
  exc : F
  n_el : F
  deriving DecidableEq, Repr

/-- The run-time dispatcher `process_batches_host_replicated_p( n_deriv, args... )`
of lines 84-92; `inst0` and `inst1` are the instantiations for `n_deriv = 0` and
`n_deriv = 1`, which are declared here and defined elsewhere. -/
def process_batches_host_replicated_p {F D I : Type} (inst0 inst1 : I → BatchOutput F D)
    (n_deriv : Nat) (args : I) : Except String (BatchOutput F D) :=
  if n_deriv = 0 then Except.ok (inst0 args)
  else if n_deriv = 1 then Except.ok (inst1 args)
  else Except.error "MGGA NYI"

/-- The type `exc_vxc_type`, whose declaration is not among the sources: line 129
builds it from exactly two values, `EXC` and `VXC`. -/
abbrev exc_vxc_type (F D : Type) := F × Matrix D

/-- The method `eval_exc_vxc_( P )`; `is_gga` is `func_->is_gga()`, `args`
stands for `P.data()` and the other inputs handed to the batch processor. -/
def eval_exc_vxc_ {F D I : Type} (inst0 inst1 : I → BatchOutput F D) (nbf : Nat)
    (is_gga : Bool) (args : I) : Except String (exc_vxc_type F D) :=
  let n_deriv := if is_gga then 1 else 0
  match process_batches_host_replicated_p inst0 inst1 n_deriv args with
  | Except.error e => Except.error e
  | Except.ok out => Except.ok (out.exc, { rows := nbf, cols := nbf, data := out.VXC })

end detail

/-! ## `LocalWorkDriverFactory::make_local_work_driver`

`factory.cxx`, lines 10-63. -/

/-- The values an `ExecutionSpace` argument can hold: the two enumerators and any
other value, which the `switch` sends to its `default` label. -/
inductive ExecutionSpace
  | Host
  | Device
  | other (value : Nat)
  deriving DecidableEq, Repr

/-- The preprocessor configuration the factory is compiled under:
`GAUXC_ENABLE_DEVICE` (with its CUDA or HIP backend) and `GAUXC_ENABLE_MAGMA`. -/
structure BuildConfig where
  enable_device : Bool
  enable_magma : Bool
  deriving DecidableEq, Repr

/-- The work drivers the factory can build:
`LocalHostWorkDriver(ReferenceLocalHostWorkDriver)`,
`LocalDeviceWorkDriver(scheme1_default)` and
`LocalDeviceWorkDriver(scheme1_magma)`. -/
inductive WorkDriver
  | reference_host
  | scheme1_device
  | scheme1_magma_device
  deriving DecidableEq, Repr

/-- The statement `std::transform( name.begin(), name.end(), name.begin(),
::toupper )`: every character of the name is upper-cased. -/
def to_upper (name : String) : String :=
  String.mk (name.data.map Char.toUpper)

/-- The function `make_local_work_driver( ex, name, settings )`.  The result is
an error when `GAUXC_GENERIC_EXCEPTION` is reached, otherwise the returned
pointer, `none` standing for `nullptr` (line 61). -/
def make_local_work_driver (cfg : BuildConfig) (ex : ExecutionSpace) (name : String) :
    Except String (Option WorkDriver) :=
  let name := to_upper name
  match ex with
  | ExecutionSpace.Host =>
    let name := if name = "DEFAULT" then "REFERENCE" else name
    if name = "REFERENCE" then Except.ok (some WorkDriver.reference_host)
    else Except.error ("LWD Not Recognized: " ++ name)
  | ExecutionSpace.Device =>
    let name := if name = "DEFAULT" then "SCHEME1" else name
    if cfg.enable_device then
      if name = "SCHEME1" then Except.ok (some WorkDriver.scheme1_device)
      else if cfg.enable_magma && decide (name = "SCHEME1-MAGMA") then
        Except.ok (some WorkDriver.scheme1_magma_device)
      else Except.error ("LWD Not Recognized: " ++ name)
    else Except.error ("LWD Not Recognized: " ++ name)
  | ExecutionSpace.other _ => Except.error "Execution Space Not Regognized"

/-- The names the claim lists as recognised, for an upper-cased name `up`. -/
def recognised_driver_name (cfg : BuildConfig) (ex : ExecutionSpace) (up : String) : Prop :=
  (ex = ExecutionSpace.Host ∧ (up = "DEFAULT" ∨ up = "REFERENCE")) ∨
  (ex = ExecutionSpace.Device ∧ cfg.enable_device = true ∧
    (up = "DEFAULT" ∨ up = "SCHEME1" ∨ (cfg.enable_magma = true ∧ up = "SCHEME1-MAGMA")))

/-! ## `AoSScheme1Base::eval_exx_gmat`

`scheme1_base.cxx`, lines 992-1340 (the batched branch, `#if 1` and
`do_batch = true`). -/

/-- What `eval_exx_gmat` is called with, as far as its control flow reads it:
whether `GAUXC_ENABLE_EXX` is defined, whether the `dynamic_cast` of the data
succeeds, whether `device_backend_` is set, `global_dims.nshells`, the number
of tasks, `basis_map.shell_pure` and `basis_map.max_l()`, and for the `k`-th
call of `check_error` whether the device reports an error. -/
structure GmatInput where
  enable_exx : Bool
  data_cast_ok : Bool
  backend_initialised : Bool
  nshells : Nat
  ntasks : Nat
  shell_pure : Nat → Bool
  max_l : Nat
  device_error : Nat → Bool

/-- The device operations `eval_exx_gmat` issues. `launch_diag l bucket` is
`integral_l_task_batched` on `l_batch_diag_task_to_shell_pair_device[bucket]`;
`launch lA lB swap bucket` is `integral_lA_lB_task_batched` on
`l_batch_task_to_shell_pair_device[bucket]`, with the `swap` argument of the
off-diagonal kernels. -/
inductive GmatAction
  | zero_G (task : Nat)
  | sync_blas_pool_with_master
  | launch_diag (l bucket : Nat)
  | launch (lA lB : Nat) (swap : Option Bool) (bucket : Nat)
  | sync_master_with_blas_pool
  deriving DecidableEq, Repr

/-- The macro `SP_LBATCH_IDX(I,J)` of line 1090: `I*(basis_map.max_l()+1) + J`. -/
def SP_LBATCH_IDX (max_l I J : Nat) : Nat := I * (max_l + 1) + J

/-- The kernel launches of lines 1043-1241 in source order, each with the
condition on `basis_map.max_l()` that guards it. -/
def gmat_kernels (max_l : Nat) : List (Bool × GmatAction) :=
  [ (true, GmatAction.launch_diag 0 0),
    (decide (max_l > 0), GmatAction.launch_diag 1 1),
    (decide (max_l > 1), GmatAction.launch_diag 2 2),
    (true, GmatAction.launch 0 0 none 0),
    (decide (max_l > 0), GmatAction.launch 1 1 none (SP_LBATCH_IDX max_l 1 1)),
    (decide (max_l > 1), GmatAction.launch 2 2 none (SP_LBATCH_IDX max_l 2 2)),
    (decide (max_l > 0), GmatAction.launch 1 0 (some true) (SP_LBATCH_IDX max_l 0 1)),
    (decide (max_l > 0), GmatAction.launch 1 0 (some false) (SP_LBATCH_IDX max_l 1 0)),
    (decide (max_l > 1), GmatAction.launch 2 0 (some true) (SP_LBATCH_IDX max_l 0 2)),
    (decide (max_l > 1), GmatAction.launch 2 0 (some false) (SP_LBATCH_IDX max_l 2 0)),
    (decide (max_l > 1), GmatAction.launch 2 1 (some true) (SP_LBATCH_IDX max_l 1 2)),
    (decide (max_l > 1), GmatAction.launch 2 1 (some false) (SP_LBATCH_IDX max_l 2 1)) ]

/-- The launches one after the other: each is followed by `check_error`, which
raises when the device reports an error; `k` counts the calls of `check_error`
and `done` are the operations issued so far. -/
def run_gmat_kernels (device_error : Nat → Bool) :
    List (Bool × GmatAction) → Nat → List GmatAction → Except String Unit × List GmatAction
  | [], _, done => (Except.ok (), done ++ [GmatAction.sync_master_with_blas_pool])
  | (guard, a) :: rest, k, done =>
    if guard then
      if device_error k then (Except.error "device error", done ++ [a])
      else run_gmat_kernels device_error rest (k + 1) (done ++ [a])
    else run_gmat_kernels device_error rest k done

/-- The method `eval_exx_gmat( _data, basis_map )`: its outcome and the device
operations it has issued. -/
def eval_exx_gmat (inp : GmatInput) : Except String Unit × List GmatAction :=
  if !inp.enable_exx then (Except.error "EXX G-Matrix NYI for non-CUDA Backends", [])
  else if !inp.data_cast_ok then (Except.error "bad LWD data cast", [])
  else if !inp.backend_initialised then (Except.error "uninitialized device backend", [])
  else if (List.range inp.nshells).any inp.shell_pure then
    (Except.error "GPU EXX + Spherical NYI", [])
  else if inp.max_l > 2 then (Except.error "GPU EXX + L>2 NYI", [])
  else
    run_gmat_kernels inp.device_error (gmat_kernels inp.max_l) 0
      ((List.range inp.ntasks).map GmatAction.zero_G ++ [GmatAction.sync_blas_pool_with_master])

/-! ## The pair loop of the EK screening in closed form -/

/-- The shell pairs in the order in which the loops of lines 192-193 visit
them: `i` ascending, and for each `i` the `j` from `0` to `i`. -/
def all_shell_pairs (nshells : Nat) : List (Nat × Nat) :=
  (List.range nshells).flatMap fun i => (List.range (i + 1)).map fun j => (i, j)

/-- The two bitmap updates of lines 206-207 for one significant pair. -/
def mark_pair (task_ek_shells : List Nat) (p : Nat × Nat) : List Nat :=
  set_shell_bit (set_shell_bit task_ek_shells p.1) p.2

/-- The `i`-major order on shell pairs: first by `i`, then by `j`. -/
def pair_lt (p q : Nat × Nat) : Prop :=
  p.1 < q.1 ∨ (p.1 = q.1 ∧ p.2 < q.2)

/-- Bit `x` of the packed bitmap: bit `x % 32` of word `x / 32`. -/
def shell_bit (task_ek_shells : List Nat) (x : Nat) : Bool :=
  (task_ek_shells.getD (x / 32) 0).testBit (x % 32)

/-! ## `exx_ek_screening`: the GEMM and the selection together

`exx_screening.cxx`, lines 16-232.  The collocation pass of lines 36-107 fills
`task_max_bfn` (`nbf * ntasks`, column `i_task` at offset `i_task * nbf`) and
`task_max_bf_sum` through the host work driver; both are inputs here. -/

/-- Modelled from the spec: one entry of the product computed by
`blas::gemm('N', 'N', m, n, k, 1., A, lda, B, ldb, 0., C, ldc)` of
`host/blas.hpp`, which is not among the sources:
`C[i + t*ldc] = Σ_l A[i + l*lda] * B[l + t*ldb]`, summed from `l = 0` on
(`F[k,t] = |P|[k,:] · bfn_max[:,t]`). -/
def gemm_entry {R : Type} (ops : DoubleOps R) (add : R → R → R) (k : Nat)
    (A : Nat → R) (lda : Nat) (B : Nat → R) (ldb : Nat) (i t : Nat) : R :=
  (List.range k).foldl (fun acc l => add acc (ops.mul (A (i + l * lda)) (B (l + t * ldb))))
    ops.zero

/-- The array `task_approx_f` after line 116: `nbf * ntasks` entries,
leading dimension `nbf`, entry `i + t * nbf` the product of row `i` of `P_abs`
with column `t` of `task_max_bfn`. -/
def task_approx_f {R : Type} (ops : DoubleOps R) (add : R → R → R) (nbf : Nat)
    (P_abs : Nat → R) (ldp : Nat) (task_max_bfn : Nat → R) (idx : Nat) : R :=
  gemm_entry ops add nbf P_abs ldp task_max_bfn nbf (idx % nbf) (idx / nbf)

/-- The function `exx_ek_screening` on the `cou_screening` records of the tasks
`[task_begin, task_end)`: the GEMM of lines 115-117 followed by the task loop of
lines 172-232. -/
def exx_ek_screening {R : Type} (ops : DoubleOps R) (add : R → R → R)
    (shell_size : Nat → Nat) (nbf nshells : Nat) (P_abs : Nat → R) (ldp : Nat)
    (V_shell_max : Nat → R) (ldv : Nat) (eps_E eps_K : R)
    (task_max_bfn : Nat → R) (task_max_bf_sum : Nat → R)
    (tasks : List CouScreening) : List CouScreening :=
  exx_ek_select ops shell_size nbf nshells V_shell_max ldv eps_E eps_K
    (task_approx_f ops add nbf P_abs ldp task_max_bfn) task_max_bf_sum tasks

/-- The density `|P|` of the screener's unit test on three shells of one
function each: diagonal with entries `1, 0, 1`, leading dimension three. -/
def P_abs_diag3 (idx : Nat) : Int := if idx = 0 ∨ idx = 8 then 1 else 0

/-! ## `IncoreReplicatedXCDeviceIntegrator::exx_local_work_`

`incore_replicated_xc_device_integrator_exx.hpp`, lines 64-229.  The device
data and the device work driver are not among the sources: their calls are
recorded in program order, `generate_buffers` (how many tasks fit the next
batch) and the partition weights are inputs.  A loop that never ends, or that
is handed an iterator past the end, has no result (`none`). -/

namespace detail

/-- The members of `XCTask` that `exx_local_work_` and the screening read or
write; `bfn_screening` and `cou_screening` are of one record type. -/
structure XCTask (R : Type) where
  points : List (R × R × R)
  weights : List R
  bfn_screening : CouScreening
  cou_screening : CouScreening
  deriving DecidableEq, Repr

/-- Modelled from the spec: the configuration `IntegratorSettingsEXX` of
`eval_exx`, whose declaration is not among the sources: `{eps_E, eps_K}`. -/
structure IntegratorSettingsEXX (R : Type) where
  eps_E : R
  eps_K : R
  deriving DecidableEq, Repr

/-- The two settings of `integrator_term_tracker` used here:
`enabled_terms.weights = true` (line 103) and `enabled_terms.exx = true`
(line 189). -/
inductive EnabledTerms
  | weights
  | exx
  deriving DecidableEq, Repr

/-- The calls on `device_data` and on the device work driver `lwd`, and the
call of the screening with its thresholds.  The batch of `generate_buffers` is
the task range `[task_it, task_batch_end)` it selected. -/
inductive DeviceCall (R : Type)
  | reset_allocations
  | allocate_static_data_weights
  | send_static_data_weights
  | generate_buffers (terms : EnabledTerms) (batch : List (XCTask R))
  | partition_weights
  | copy_weights_to_tasks
  | ek_screening (eps_E eps_K : R)
  | populate_submat_maps (tasks : List (XCTask R))
  | allocate_static_data_exx (nbf nshells : Nat)
  | send_static_data_density_basis (ldp : Int)
  | send_static_data_shell_pairs
  | zero_exx_integrands
  | eval_collocation
  | eval_exx_fmat
  | eval_exx_gmat
  | inc_exx_k
  | symmetrize_exx_k
  | retrieve_exx_integrands (ldk : Int)
  deriving DecidableEq, Repr

/-- What `exx_local_work_` takes from code that is not among the sources: the
`double` operations and the literal `1e-10`, the basis (`nbf`, `nshells`, the
shell sizes, `util::max_coulomb`), `std::sort` with the comparator of lines
89-91, the device's batching and partition weights, and the outcome of the
screening's collocation pass on a task range. -/
structure EXXEnv (R : Type) where
  ops : DoubleOps R
  add : R → R → R
  lit_1e_10 : R
  nbf : Nat
  nshells : Nat
  shell_size : Nat → Nat
  max_coulomb : Nat → Nat → R
  std_sort : List (XCTask R) → List (XCTask R)
  generate_buffers : EnabledTerms → List (XCTask R) → Nat
  partition_weights : XCTask R → List R
  task_max_bfn : List (XCTask R) → Nat → R
  task_max_bf_sum : List (XCTask R) → Nat → R

/-- The load balancer's task vector and latch, and the calls made so far. -/
structure EXXWorld (R : Type) where
  tasks : List (XCTask R)
  modified_weights_are_stored : Bool
  device_calls : List (DeviceCall R)
  deriving DecidableEq, Repr

/-- What `copy_weights_to_tasks` leaves in a task: its partition weights. -/
def store_weights {R : Type} (env : EXXEnv R) (t : XCTask R) : XCTask R :=
  { t with weights := env.partition_weights t }

/-- The loop of lines 112-128 on the tasks still to do, with the tasks already
done and the calls so far. -/
def weights_loop {R : Type} (env : EXXEnv R) :
    Nat → List (XCTask R) → List (XCTask R) × List (DeviceCall R) →
      Option (List (XCTask R) × List (DeviceCall R))
  | _, [], st => some st
  | 0, _ :: _, _ => none
  | fuel + 1, t :: rest, st =>
    let n := env.generate_buffers EnabledTerms.weights (t :: rest)
    if (t :: rest).length < n then none
    else
      weights_loop env fuel ((t :: rest).drop n)
        (st.1 ++ ((t :: rest).take n).map (store_weights env),
          st.2 ++ [DeviceCall.generate_buffers EnabledTerms.weights ((t :: rest).take n),
            DeviceCall.partition_weights, DeviceCall.copy_weights_to_tasks])

/-- Lines 97-134: the weights are modified unless the latch is set, and the
latch is set afterwards. -/
def modify_weights {R : Type} (env : EXXEnv R) (tasks : List (XCTask R)) (stored : Bool)
    (calls : List (DeviceCall R)) : Option (List (XCTask R) × Bool × List (DeviceCall R)) :=
  if stored then some (tasks, stored, calls)
  else
    (weights_loop env tasks.length tasks
      ([], calls ++ [DeviceCall.reset_allocations, DeviceCall.allocate_static_data_weights,
        DeviceCall.send_static_data_weights])).map fun r => (r.1, true, r.2)

/-- The vector `P_abs` of lines 148-150: `nbf * nbf` entries, `P_abs[i] = |P[i]|`. -/
def P_abs {R : Type} (env : EXXEnv R) (P : Nat → R) (i : Nat) : R :=
  if i < env.nbf * env.nbf then env.ops.abs (P i) else env.ops.zero

/-- The vector `V_max` of lines 152-158: `V_max[i + j*nshells] = max_coulomb(i, j)`. -/
def V_max {R : Type} (env : EXXEnv R) (idx : Nat) : R :=
  env.max_coulomb (idx % env.nshells) (idx / env.nshells)

/-- Lines 163-165: the call of `exx_ek_screening` on the task range, with leading
dimension `basis.nbf()` for `P_abs` and the literals `1e-10`, `1e-10`. -/
def screen_tasks {R : Type} (env : EXXEnv R) (P : Nat → R) (tasks : List (XCTask R)) :
    List (XCTask R) :=
  List.zipWith (fun t c => { t with cou_screening := c }) tasks
    (exx_ek_screening env.ops env.add env.shell_size env.nbf env.nshells (P_abs env P) env.nbf
      (V_max env) env.nshells env.lit_1e_10 env.lit_1e_10
      (env.task_max_bfn tasks) (env.task_max_bf_sum tasks) (tasks.map fun t => t.cou_screening))

/-- The predicate of line 169: `t.cou_screening.shell_list.size() > 0`. -/
def has_cou_shells {R : Type} (t : XCTask R) : Bool :=
  decide (0 < t.cou_screening.shell_list.length)

/-- The algorithm `std::stable_partition`: the rearranged range and the position
of the partition point. -/
def stable_partition {α : Type} (p : α → Bool) (l : List α) : List α × Nat :=
  (l.filter p ++ l.filter (fun x => !p x), (l.filter p).length)

/-- The loop of lines 192-221 on the tasks still to dispatch. -/
def dispatch_loop {R : Type} (env : EXXEnv R) :
    Nat → List (XCTask R) → List (DeviceCall R) → Option (List (DeviceCall R))
  | _, [], calls => some calls
  | 0, _ :: _, _ => none
  | fuel + 1, t :: rest, calls =>
    let n := env.generate_buffers EnabledTerms.exx (t :: rest)
    if (t :: rest).length < n then none
    else
      dispatch_loop env fuel ((t :: rest).drop n)
        (calls ++ [DeviceCall.generate_buffers EnabledTerms.exx ((t :: rest).take n),
          DeviceCall.eval_collocation, DeviceCall.eval_exx_fmat, DeviceCall.eval_exx_gmat,
          DeviceCall.inc_exx_k])

/-- The tasks as they are after the sort, the weights block and the screening,
just before `std::stable_partition` (line 168). -/
def screened_tasks {R : Type} (env : EXXEnv R) (P : Nat → R) (w : EXXWorld R) :
    Option (List (XCTask R)) :=
  (modify_weights env (env.std_sort w.tasks) w.modified_weights_are_stored w.device_calls).map
    fun r => screen_tasks env P r.1

/-- The method `exx_local_work_( basis, P, ldp, K, ldk, task_begin, task_end,
device_data )` on the whole task vector, as `eval_exx_` calls it.  The block
of lines 223-226 (`symmetrize_exx_k`) is under `#if 0` and makes no call. -/
def exx_local_work_ {R : Type} (env : EXXEnv R) (P : Nat → R) (ldp ldk : Int)
    (w : EXXWorld R) : Option (EXXWorld R) :=
  match modify_weights env (env.std_sort w.tasks) w.modified_weights_are_stored
      w.device_calls with
  | none => none
  | some (weighted, stored, calls1) =>
    let part := stable_partition has_cou_shells (screen_tasks env P weighted)
    let range := part.1.take part.2
    match dispatch_loop env range.length range
        (calls1 ++ [DeviceCall.ek_screening env.lit_1e_10 env.lit_1e_10,
          DeviceCall.populate_submat_maps range, DeviceCall.reset_allocations,
          DeviceCall.allocate_static_data_exx env.nbf env.nshells,
          DeviceCall.send_static_data_density_basis ldp,
          DeviceCall.send_static_data_shell_pairs, DeviceCall.zero_exx_integrands]) with
    | none => none
    | some calls2 =>
      some { tasks := part.1
             modified_weights_are_stored := stored
             device_calls := calls2 ++ [DeviceCall.retrieve_exx_integrands ldk] }

/-- A sequence of `exx_local_work_` calls on one load balancer, each with its
own density and leading dimensions. -/
def exx_local_work_calls {R : Type} (env : EXXEnv R) :
    List ((Nat → R) × Int × Int) → EXXWorld R → Option (EXXWorld R)
  | [], w => some w
  | c :: cs, w =>
    match exx_local_work_ env c.1 c.2.1 c.2.2 w with
    | none => none
    | some w1 => exx_local_work_calls env cs w1

/-- The collaborators of `eval_exx_` for the device integrator: only
`exx_local_work_` acts on the tasks and the device; a world `none` is a call
that never returned. -/
def device_collaborators {R : Type} (env : EXXEnv R) (P : Nat → R) (ldp ldk : Int) :
    EXXCollaborators (Option (EXXWorld R)) where
  get_tasks := fun w => (Except.ok (), w)
  create_device_data := fun w => (Except.ok (), w)
  exx_local_work_ := fun w => (Except.ok (), w.bind (exx_local_work_ env P ldp ldk))
  mpi_barrier := fun w => (Except.ok (), w)
  allreduce_inplace := fun w => (Except.ok (), w)

/-- The method `eval_exx_( m, n, P, ldp, K, ldk, settings )` of the device
integrator: the parameter `settings` is unnamed in the source (line 20) and is
not handed on. -/
def IncoreReplicatedXCDeviceIntegrator.eval_exx_ {R : Type} (env : EXXEnv R) (m n : Int)
    (P : Nat → R) (ldp ldk : Int) (_settings : IntegratorSettingsEXX R) :
    Step (Option (EXXWorld R)) :=
  detail.eval_exx_ (device_collaborators env P ldp ldk) env.nbf m n ldp ldk

/-- Modelled from the spec: the default configuration, "defaults 1e-10". -/
def IntegratorSettingsEXX.defaults {R : Type} (env : EXXEnv R) : IntegratorSettingsEXX R :=
  { eps_E := env.lit_1e_10, eps_K := env.lit_1e_10 }

/-- The thresholds of the screening calls among the recorded calls. -/
def screening_thresholds {R : Type} : List (DeviceCall R) → List (R × R)
  | [] => []
  | DeviceCall.ek_screening eps_E eps_K :: cs => (eps_E, eps_K) :: screening_thresholds cs
  | _ :: cs => screening_thresholds cs

/-- The tasks handed to the dispatch loop's `generate_buffers`, batch after
batch. -/
def dispatched_tasks {R : Type} : List (DeviceCall R) → List (XCTask R)
  | [] => []
  | DeviceCall.generate_buffers EnabledTerms.exx batch :: cs => batch ++ dispatched_tasks cs
  | _ :: cs => dispatched_tasks cs

/-- What identifies a task and its weights: everything but `cou_screening`. -/
def task_data {R : Type} (t : XCTask R) : List (R × R × R) × List R × CouScreening :=
  (t.points, t.weights, t.bfn_screening)

end detail

/-! ## A small instance of the device integrator

Two shells of one function each, exact integer arithmetic with `100` in the
place of the literal `1e-10`, batches of at most two tasks, partition weights
that double the stored weights, and collocation bounds of `1000` per grid
point of the task. -/

namespace detail

/-- The comparator of lines 89-91: `a` goes before `b` when
`a.points.size() * a.bfn_screening.nbe > b.points.size() * b.bfn_screening.nbe`. -/
def task_comparator {R : Type} (a b : XCTask R) : Bool :=
  decide (b.points.length * b.bfn_screening.nbe < a.points.length * a.bfn_screening.nbe)

/-- The environment of the small instance; `std::sort` is an insertion sort. -/
def test_env : EXXEnv Int where
  ops := intOps
  add := fun a b => a + b
  lit_1e_10 := 100
  nbf := 2
  nshells := 2
  shell_size := fun _ => 1
  max_coulomb := fun _ _ => 1
  std_sort := fun l => l.insertionSort (fun a b => task_comparator a b = true)
  generate_buffers := fun _ rem => min 2 rem.length
  partition_weights := fun t => t.weights.map (fun x => 2 * x)
  task_max_bfn := fun tasks idx =>
    match tasks[idx / 2]? with
    | some t => 1000 * (t.points.length : Int)
    | none => 0
  task_max_bf_sum := fun _ _ => 1

/-- The density of the small instance: the 2×2 identity. -/
def test_density (i : Nat) : Int := if i = 0 ∨ i = 3 then 1 else 0

/-- Three tasks with one, no and two grid points, the latch not yet set. -/
def test_world : EXXWorld Int where
  tasks :=
    [ { points := [(0, 0, 0)], weights := [1], bfn_screening := ⟨[0, 1], [], 2⟩,
        cou_screening := ⟨[], [], 0⟩ },
      { points := [], weights := [], bfn_screening := ⟨[0], [], 1⟩,
        cou_screening := ⟨[], [], 0⟩ },
      { points := [(1, 0, 0), (2, 0, 0)], weights := [3, 5], bfn_screening := ⟨[0, 1], [], 2⟩,
        cou_screening := ⟨[], [], 0⟩ } ]
  modified_weights_are_stored := false
  device_calls := []

end detail

namespace integrator.cuda

/-- The batches `ds` are consecutive, non-empty ranges that start at position
`b` and end at position `e`: each begins where the one before it ended. -/
def consecutive_batches : Nat → List dev_ex_task → Nat → Prop
  | b, [], e => b = e
  | b, d :: ds, e => d.task_begin = b ∧ b < d.task_end ∧ consecutive_batches d.task_end ds e

end integrator.cuda

namespace detail

/-- The identity density of the small instance stored with leading dimension
three: `P(k, j)` is entry `k + 3 j`, and the padding entries `2` and `5` hold `7`. -/
def test_density_padded (i : Nat) : Int :=
  if i = 0 ∨ i = 4 then 1 else if i = 2 ∨ i = 5 then 7 else 0

end detail

/-! ## The kernel launches of `eval_exx_gmat` by angular-momentum bucket -/

/-- The launches `eval_exx_gmat` issues when no `check_error` call raises: the
entries of `gmat_kernels` whose guard holds, in source order. -/
def launched_kernels (max_l : Nat) : List GmatAction :=
  ((gmat_kernels max_l).filter fun k => k.1).map fun k => k.2

/-- The launch that serves the bucket `(lA, lB)` of `l_batch_task_to_shell_pair_device`:
the kernel `integral_{max}_{min}_task_batched` on bucket `SP_LBATCH_IDX(lA, lB)`,
with `swap = (lA < lB)` for the off-diagonal kernels, which alone take the
argument. -/
def bucket_launch (max_l lA lB : Nat) : GmatAction :=
  GmatAction.launch (max lA lB) (min lA lB)
    (if lA = lB then none else some (decide (lA < lB))) (SP_LBATCH_IDX max_l lA lB)

/-- The launches for all ordered pairs `(lA, lB)` with `lA, lB ≤ max_l`. -/
def expected_launches (max_l : Nat) : List GmatAction :=
  (List.range (max_l + 1)).flatMap fun lA =>
    (List.range (max_l + 1)).map fun lB => bucket_launch max_l lA lB

/-- Whether an operation is a launch of a two-index kernel. -/
def GmatAction.is_pair_launch : GmatAction → Bool
  | GmatAction.launch _ _ _ _ => true
  | _ => false

/-- Whether an operation is a launch of a one-index (diagonal) kernel. -/
def GmatAction.is_diag_launch : GmatAction → Bool
  | GmatAction.launch_diag _ _ => true
  | _ => false

/-! ## `AoSScheme1Base::eval_kern_exc_vxc_lda` and `eval_kern_exc_vxc_gga`

`scheme1_base.cxx`, lines 582-727.  A device buffer of doubles is the function
from its index to its entry; the buffers of `base_stack` are distinct
allocations.  The functional kernel is a parameter: it is handed the number of
points and the input buffers and returns the buffers it has written. -/

/-- The values of `allocated_terms.ks_scheme`. -/
inductive KSScheme
  | RKS
  | UKS
  | GKS
  deriving DecidableEq, Repr

/-- The buffers of `base_stack` that the two methods read or write. -/
structure BaseStack (R : Type) where
  weights_device : Nat → R
  den_s_eval_device : Nat → R
  den_z_eval_device : Nat → R
  den_eval_device : Nat → R
  gamma_pp_eval_device : Nat → R
  gamma_pm_eval_device : Nat → R
  gamma_mm_eval_device : Nat → R
  gamma_eval_device : Nat → R
  eps_eval_device : Nat → R
  vrho_eval_device : Nat → R
  vrho_pos_eval_device : Nat → R
  vrho_neg_eval_device : Nat → R
  vgamma_eval_device : Nat → R
  vgamma_pp_eval_device : Nat → R
  vgamma_pm_eval_device : Nat → R
  vgamma_mm_eval_device : Nat → R

/-- The CUDA runtime call `cudaMemcpy2D( dst + doff, dpitch * sizeof(double),
src + soff, spitch * sizeof(double), 1 * sizeof(double), height,
cudaMemcpyDeviceToDevice )`, as the two methods use it: row `r` copies the one
double `src[soff + r * spitch]` to `dst[doff + r * dpitch]`; the result is the
destination buffer after the copy. -/
def cudaMemcpy2D {R : Type} (dst : Nat → R) (doff dpitch : Nat) (src : Nat → R)
    (soff spitch height : Nat) : Nat → R :=
  (List.range height).foldl
    (fun d r => Function.update d (doff + r * dpitch) (src (soff + r * spitch))) dst

/-- Modelled from the spec: `hadamard_product( handle, npts, 1, A, 1, B, 1 )`,
which is not among the sources ("weight-apply vρ, vγ"): `B[i] = A[i] * B[i]`
for `i < npts`; the result is `B` after the call. -/
def hadamard_product {R : Type} (mul : R → R → R) (npts : Nat) (A B : Nat → R) : Nat → R :=
  fun i => if i < npts then mul (A i) (B i) else B i

/-- The method `eval_kern_exc_vxc_lda( func, _data )`.  `kern npts den eps vrho`
is `GauXC::eval_kern_exc_vxc_lda( func, npts, den, eps, vrho, queue )` and
returns the buffers `eps` and `vrho` as it leaves them. -/
def eval_kern_exc_vxc_lda {R : Type} (mul : R → R → R)
    (kern : Nat → (Nat → R) → (Nat → R) → (Nat → R) → (Nat → R) × (Nat → R))
    (data_cast_ok backend_initialised is_lda : Bool) (ks_scheme : KSScheme) (npts : Nat)
    (base_stack : BaseStack R) : Except String (BaseStack R) :=
  if !data_cast_ok then Except.error "bad LWD data cast"
  else if !backend_initialised then Except.error "uninitialized device backend"
  else if !is_lda then Except.error "XC Kernel not LDA!"
  else
    let is_2C := decide (ks_scheme = KSScheme.UKS) || decide (ks_scheme = KSScheme.GKS)
    let den := if is_2C then
        cudaMemcpy2D
          (cudaMemcpy2D base_stack.den_eval_device 0 2 base_stack.den_s_eval_device 0 1 npts)
          1 2 base_stack.den_z_eval_device 0 1 npts
      else base_stack.den_eval_device
    let dep := if is_2C then den else base_stack.den_s_eval_device
    let out := kern npts dep base_stack.eps_eval_device base_stack.vrho_eval_device
    let eps := hadamard_product mul npts base_stack.weights_device out.1
    let vrho := if is_2C then out.2
      else hadamard_product mul npts base_stack.weights_device out.2
    let vrho_pos := if is_2C then
        hadamard_product mul npts base_stack.weights_device
          (cudaMemcpy2D base_stack.vrho_pos_eval_device 0 1 vrho 0 2 npts)
      else base_stack.vrho_pos_eval_device
    let vrho_neg := if is_2C then
        hadamard_product mul npts base_stack.weights_device
          (cudaMemcpy2D base_stack.vrho_neg_eval_device 0 1 vrho 1 2 npts)
      else base_stack.vrho_neg_eval_device
    Except.ok { base_stack with
      den_eval_device := den, eps_eval_device := eps, vrho_eval_device := vrho,
      vrho_pos_eval_device := vrho_pos, vrho_neg_eval_device := vrho_neg }

/-- The method `eval_kern_exc_vxc_gga( func, _data )`.  `kern npts den gamma eps
vrho vgamma` is `GauXC::eval_kern_exc_vxc_gga( func, npts, den, gamma, eps, vrho,
vgamma, queue )` and returns the buffers `eps`, `vrho` and `vgamma` as it leaves
them. -/
def eval_kern_exc_vxc_gga {R : Type} (mul : R → R → R)
    (kern : Nat → (Nat → R) → (Nat → R) → (Nat → R) → (Nat → R) → (Nat → R) →
      (Nat → R) × (Nat → R) × (Nat → R))
    (data_cast_ok backend_initialised is_gga : Bool) (ks_scheme : KSScheme) (npts : Nat)
    (base_stack : BaseStack R) : Except String (BaseStack R) :=
  if !data_cast_ok then Except.error "bad LWD data cast"
  else if !backend_initialised then Except.error "uninitialized device backend"
  else if !is_gga then Except.error "XC Kernel not GGA!"
  else
    let is_2C := decide (ks_scheme = KSScheme.UKS) || decide (ks_scheme = KSScheme.GKS)
    let den := if is_2C then
        cudaMemcpy2D
          (cudaMemcpy2D base_stack.den_eval_device 0 2 base_stack.den_s_eval_device 0 1 npts)
          1 2 base_stack.den_z_eval_device 0 1 npts
      else base_stack.den_eval_device
    let gamma := if is_2C then
        cudaMemcpy2D
          (cudaMemcpy2D
            (cudaMemcpy2D base_stack.gamma_eval_device 0 3 base_stack.gamma_pp_eval_device
              0 1 npts)
            1 3 base_stack.gamma_pm_eval_device 0 1 npts)
          2 3 base_stack.gamma_mm_eval_device 0 1 npts
      else base_stack.gamma_eval_device
    let den_eval_ptr := if is_2C then den else base_stack.den_s_eval_device
    let out := kern npts den_eval_ptr gamma base_stack.eps_eval_device
      base_stack.vrho_eval_device base_stack.vgamma_eval_device
    let eps := hadamard_product mul npts base_stack.weights_device out.1
    let vrho := if is_2C then out.2.1
      else hadamard_product mul npts base_stack.weights_device out.2.1
    let vgamma := if is_2C then out.2.2
      else hadamard_product mul npts base_stack.weights_device out.2.2
    let unpack := fun (dst : Nat → R) (src : Nat → R) (off pitch : Nat) =>
      if is_2C then
        hadamard_product mul npts base_stack.weights_device
          (cudaMemcpy2D dst 0 1 src off pitch npts)
      else dst
    Except.ok { base_stack with
      den_eval_device := den, gamma_eval_device := gamma, eps_eval_device := eps,
      vrho_eval_device := vrho, vgamma_eval_device := vgamma,
      vrho_pos_eval_device := unpack base_stack.vrho_pos_eval_device vrho 0 2,
      vrho_neg_eval_device := unpack base_stack.vrho_neg_eval_device vrho 1 2,
      vgamma_pp_eval_device := unpack base_stack.vgamma_pp_eval_device vgamma 0 3,
      vgamma_pm_eval_device := unpack base_stack.vgamma_pm_eval_device vgamma 1 3,
      vgamma_mm_eval_device := unpack base_stack.vgamma_mm_eval_device vgamma 2 3 }

/-- A small device stack over the integers for two grid points: weights `2, 3`,
channel data `10 + i`, `20 + i`, ..., all other buffers zero. -/
def test_stack : BaseStack Int where
  weights_device := fun i => (i : Int) + 2
  den_s_eval_device := fun i => 10 + (i : Int)
  den_z_eval_device := fun i => 20 + (i : Int)
  den_eval_device := fun _ => 0
  gamma_pp_eval_device := fun i => 30 + (i : Int)
  gamma_pm_eval_device := fun i => 40 + (i : Int)
  gamma_mm_eval_device := fun i => 50 + (i : Int)
  gamma_eval_device := fun _ => 0
  eps_eval_device := fun _ => 0
  vrho_eval_device := fun _ => 0
  vrho_pos_eval_device := fun _ => 0
  vrho_neg_eval_device := fun _ => 0
  vgamma_eval_device := fun _ => 0
  vgamma_pp_eval_device := fun _ => 0
  vgamma_pm_eval_device := fun _ => 0
  vgamma_mm_eval_device := fun _ => 0

/-- A stand-in LDA kernel for the small stack: `eps` is left as it is and
`vrho` is the packed density. -/
def test_kern_lda (_npts : Nat) (den eps _vrho : Nat → Int) : (Nat → Int) × (Nat → Int) :=
  (eps, den)

/-- A stand-in GGA kernel for the small stack: `vrho` is the packed density and
`vgamma` the packed `gamma`. -/
def test_kern_gga (_npts : Nat) (den gamma eps _vrho _vgamma : Nat → Int) :
    (Nat → Int) × (Nat → Int) × (Nat → Int) :=
  (eps, den, gamma)

/-! ## Theorems -/

namespace integrator.cuda

/-! ### Facts about the standard-library models -/

theorem mem_lower_bound {l : List Int} (hl : l.Sorted (· < ·)) (v x : Int) :
    x ∈ lower_bound l v ↔ x ∈ l ∧ v ≤ x := by
  induction l with
  | nil => simp [lower_bound]
  | cons a rest ih =>
    have hrest := hl.of_cons
    have hlt : ∀ y ∈ rest, a < y := fun y hy => List.rel_of_sorted_cons hl y hy
    unfold lower_bound at ih ⊢
    by_cases hav : a < v
    · rw [List.dropWhile_cons_of_pos (by simpa using hav), ih hrest]
      constructor
      · rintro ⟨h1, h2⟩
        exact ⟨List.mem_cons_of_mem _ h1, h2⟩
      · rintro ⟨h1, h2⟩
        rcases List.mem_cons.1 h1 with h | h
        · omega
        · exact ⟨h, h2⟩
    · rw [List.dropWhile_cons_of_neg (by simpa using hav)]
      constructor
      · intro h
        refine ⟨h, ?_⟩
        rcases List.mem_cons.1 h with h | h
        · omega
        · have := hlt x h
          omega
      · exact fun h => h.1

theorem lower_bound_sorted {l : List Int} (hl : l.Sorted (· < ·)) (v : Int) :
    (lower_bound l v).Sorted (· < ·) :=
  List.Pairwise.sublist (List.dropWhile_suffix _).sublist hl

theorem lower_bound_length_le (l : List Int) (v : Int) :
    (lower_bound l v).length ≤ l.length :=
  (List.dropWhile_suffix _).sublist.length_le

theorem lower_bound_cons_lt {b : Int} (bs : List Int) {a : Int} (h : b < a) :
    lower_bound (b :: bs) a = lower_bound bs a := by
  unfold lower_bound
  rw [List.dropWhile_cons_of_pos (by simpa using h)]

theorem binary_search_eq {l : List Int} (hl : l.Sorted (· < ·)) (v : Int) :
    binary_search l v = decide (v ∈ l) := by
  unfold binary_search
  have hm := mem_lower_bound hl v
  have hs := lower_bound_sorted hl v
  cases hlb : lower_bound l v with
  | nil =>
    rw [hlb] at hm
    have : v ∉ l := fun hv => by
      have := (hm v).2 ⟨hv, le_refl v⟩
      simp at this
    simp [this]
  | cons x rest =>
    rw [hlb] at hm hs
    have hx := (hm x).1 (List.mem_cons_self _ _)
    by_cases hvx : v < x
    · have : v ∉ l := fun hv => by
        have h1 := (hm v).2 ⟨hv, le_refl v⟩
        rcases List.mem_cons.1 h1 with h | h
        · omega
        · have := List.rel_of_sorted_cons hs v h
          omega
      simp [hvx, this]
    · have : v = x := by omega
      subst this
      simp [hx.1]

/-! ### Facts about `common` -/

theorem common_nil_left (B : List Int) : common [] B = 0 := rfl

theorem common_nil_right (A : List Int) : common A [] = 0 := by
  simp [common]

theorem common_cons (a : Int) (as B : List Int) :
    common (a :: as) B = (if a ∈ B then 1 else 0) + common as B := by
  unfold common
  by_cases h : a ∈ B
  · simp [h, Nat.add_comm]
  · simp [h]

theorem common_congr {A B B1 : List Int} (h : ∀ x ∈ A, (x ∈ B ↔ x ∈ B1)) :
    common A B = common A B1 := by
  unfold common
  congr 1
  apply List.filter_congr
  intro x hx
  simp [h x hx]

theorem common_le_length (A B : List Int) : common A B ≤ A.length :=
  List.length_filter_le _ _

theorem common_lower_bound_left (A B : List Int) (b : Int) (hB : ∀ x ∈ B, b ≤ x) :
    common (lower_bound A b) B = common A B := by
  induction A with
  | nil => rfl
  | cons a as ih =>
    by_cases hab : a < b
    · rw [lower_bound_cons_lt as hab, ih, common_cons]
      have : a ∉ B := fun h => by
        have := hB a h
        omega
      simp [this]
    · unfold lower_bound
      rw [List.dropWhile_cons_of_neg (by simpa using hab)]

theorem common_eq_card {A : List Int} (hA : A.Nodup) (B : List Int) :
    common A B = (A.toFinset ∩ B.toFinset).card := by
  unfold common
  have h1 : (A.filter (fun x => decide (x ∈ B))).toFinset = A.toFinset ∩ B.toFinset := by
    ext x
    simp
  rw [← h1, List.toFinset_card_of_nodup (hA.filter _)]

theorem common_comm {A B : List Int} (hA : A.Nodup) (hB : B.Nodup) :
    common A B = common B A := by
  rw [common_eq_card hA, common_eq_card hB, Finset.inter_comm]

/-! ### The two loops of `integral_list_intersect` -/

theorem intersect_search_loop_spec {other : List Int} (ho : other.Sorted (· < ·)) (thr : Nat) :
    ∀ (vals : List Int) (cnt : Nat), cnt + vals.length < 2 ^ 32 → cnt < thr →
      intersect_search_loop other thr vals cnt = decide (thr ≤ cnt + common vals other) := by
  intro vals
  induction vals with
  | nil =>
    intro cnt _ hlt
    simp only [intersect_search_loop, common_nil_left]
    symm
    rw [decide_eq_false_iff_not]
    omega
  | cons v rest ih =>
    intro cnt hc hlt
    simp only [List.length_cons] at hc
    rw [intersect_search_loop, binary_search_eq ho, common_cons]
    by_cases hv : v ∈ other
    · simp only [hv, decide_True, if_true]
      rw [Nat.mod_eq_of_lt (by omega)]
      by_cases he : cnt + 1 = thr
      · simp only [he, if_true]
        symm
        rw [decide_eq_true_iff]
        omega
      · simp only [he, if_false]
        rw [ih (cnt + 1) (by omega) (by omega)]
        apply decide_eq_decide.2
        omega
    · simp only [hv, decide_False, if_false, Bool.false_eq_true, Nat.add_zero, Nat.zero_add]
      rw [Nat.mod_eq_of_lt (by omega)]
      have he : cnt ≠ thr := by omega
      simp only [he, if_false]
      rw [ih cnt (by omega) hlt]

theorem intersect_merge_loop_spec (thr : Nat) :
    ∀ (fuel : Nat) (A B : List Int) (cnt : Nat), A.Sorted (· < ·) → B.Sorted (· < ·) →
      A.length + B.length < fuel → cnt + A.length < 2 ^ 32 → cnt < thr →
      intersect_merge_loop thr fuel A B cnt = some (decide (thr ≤ cnt + common A B)) := by
  intro fuel
  induction fuel with
  | zero => intro A B cnt _ _ hf; omega
  | succ fuel ih =>
    intro A B cnt hA hB hf hc hlt
    cases A with
    | nil =>
      simp only [intersect_merge_loop, common_nil_left, Option.some.injEq]
      symm
      rw [decide_eq_false_iff_not]
      omega
    | cons a as =>
      cases B with
      | nil =>
        simp only [intersect_merge_loop, common_nil_right, Option.some.injEq]
        symm
        rw [decide_eq_false_iff_not]
        omega
      | cons b bs =>
        have haA : ∀ x ∈ a :: as, a ≤ x := by
          intro x hx
          rcases List.mem_cons.1 hx with h | h
          · omega
          · exact le_of_lt (List.rel_of_sorted_cons hA x h)
        have hbB : ∀ x ∈ b :: bs, b ≤ x := by
          intro x hx
          rcases List.mem_cons.1 hx with h | h
          · omega
          · exact le_of_lt (List.rel_of_sorted_cons hB x h)
        simp only [List.length_cons] at hf hc
        rw [intersect_merge_loop]
        by_cases hba : b < a
        · simp only [hba, if_true]
          have hlen : (lower_bound (b :: bs) a).length ≤ bs.length := by
            rw [lower_bound_cons_lt bs hba]
            exact lower_bound_length_le _ _
          rw [ih (a :: as) _ cnt hA (lower_bound_sorted hB a)
            (by simp only [List.length_cons]; omega) (by simp only [List.length_cons]; omega) hlt]
          have hcg : common (a :: as) (lower_bound (b :: bs) a) = common (a :: as) (b :: bs) := by
            apply common_congr
            intro x hx
            rw [mem_lower_bound hB]
            exact ⟨fun h => h.1, fun h => ⟨h, haA x hx⟩⟩
          rw [hcg]
        · simp only [hba, if_false]
          by_cases hab : a < b
          · simp only [hab, if_true]
            have hlen : (lower_bound (a :: as) b).length ≤ as.length := by
              rw [lower_bound_cons_lt as hab]
              exact lower_bound_length_le _ _
            rw [ih _ (b :: bs) cnt (lower_bound_sorted hA b) hB
              (by simp only [List.length_cons]; omega) (by omega) hlt,
              common_lower_bound_left _ _ b hbB]
          · simp only [hab, if_false]
            have hab2 : a = b := by omega
            subst hab2
            rw [Nat.mod_eq_of_lt (by omega)]
            have hcm : common (a :: as) (a :: bs) = 1 + common as bs := by
              rw [common_cons]
              simp only [List.mem_cons, true_or, if_true]
              congr 1
              apply common_congr
              intro x hx
              have : a < x := List.rel_of_sorted_cons hA x hx
              constructor
              · intro h
                rcases List.mem_cons.1 h with h | h
                · omega
                · exact h
              · exact fun h => List.mem_cons_of_mem _ h
            rw [hcm]
            by_cases he : cnt + 1 = thr
            · simp only [he, if_true, Option.some.injEq]
              symm
              rw [decide_eq_true_iff]
              omega
            · simp only [he, if_false]
              rw [ih as bs (cnt + 1) hA.of_cons hB.of_cons (by omega) (by omega) (by omega)]
              congr 1
              apply decide_eq_decide.2
              omega

/-- What the threshold overload computes on sorted, duplicate-free lists when the
requested threshold is at least one. -/
theorem integral_list_intersect_char {A B : List Int} (hA : A.Sorted (· < ·))
    (hB : B.Sorted (· < ·)) (hAl : A.length < 2 ^ 32) (hBl : B.length < 2 ^ 32)
    {T : Nat} (hT : 1 ≤ T) :
    integral_list_intersect A B T
      = some (decide (A ≠ [] ∧ B ≠ [] ∧ min T (min A.length B.length) ≤ common A B)) := by
  have hthr : overlap_threshold A B T = min T (min A.length B.length) := by
    unfold overlap_threshold
    rw [Nat.mod_eq_of_lt (by omega), Nat.min_comm]
  have h64 : (2 : Nat) ^ 64 = 2 ^ 32 * 2 ^ 32 := by norm_num
  have hA64 : A.length * 100 % 2 ^ 64 = A.length * 100 := by
    apply Nat.mod_eq_of_lt
    have : (2 : Nat) ^ 32 * 100 < 2 ^ 64 := by norm_num
    omega
  have hB64 : B.length * 100 % 2 ^ 64 = B.length * 100 := by
    apply Nat.mod_eq_of_lt
    have : (2 : Nat) ^ 32 * 100 < 2 ^ 64 := by norm_num
    omega
  unfold integral_list_intersect
  simp only [hthr, hA64, hB64]
  cases A with
  | nil =>
    cases B with
    | nil => simp [intersect_merge_loop]
    | cons b bs => simp [intersect_search_loop]
  | cons a as =>
    cases B with
    | nil => simp [intersect_search_loop]
    | cons b bs =>
      have hpos : 0 < min T (min (a :: as).length (b :: bs).length) := by
        simp only [List.length_cons]
        omega
      have hne : decide ((a :: as) ≠ [] ∧ (b :: bs) ≠ [] ∧
          min T (min (a :: as).length (b :: bs).length) ≤ common (a :: as) (b :: bs))
          = decide (min T (min (a :: as).length (b :: bs).length)
              ≤ 0 + common (a :: as) (b :: bs)) := by
        apply decide_eq_decide.2
        simp
      rw [hne]
      split
      · rw [intersect_search_loop_spec hB _ _ 0 (by omega) hpos]
      · split
        · rw [intersect_search_loop_spec hA _ _ 0 (by omega) hpos,
            common_comm hB.nodup hA.nodup]
        · exact intersect_merge_loop_spec _ _ _ _ 0 hA hB (by omega) (by omega) hpos

theorem intersect_merge_loop_symm (thr : Nat) :
    ∀ (fuel : Nat) (A B : List Int) (cnt : Nat),
      intersect_merge_loop thr fuel A B cnt = intersect_merge_loop thr fuel B A cnt := by
  intro fuel
  induction fuel with
  | zero => intro A B cnt; simp [intersect_merge_loop]
  | succ fuel ih =>
    intro A B cnt
    cases A with
    | nil => cases B <;> simp [intersect_merge_loop]
    | cons a as =>
      cases B with
      | nil => simp [intersect_merge_loop]
      | cons b bs =>
        rw [intersect_merge_loop, intersect_merge_loop]
        by_cases hba : b < a
        · have hab : ¬ a < b := by omega
          simp only [hba, hab, if_true, if_false]
          exact ih _ _ _
        · by_cases hab : a < b
          · simp only [hba, hab, if_true, if_false]
            exact ih _ _ _
          · simp only [hba, hab, if_false]
            rw [ih as bs]

/-! ### Claims about `integral_list_intersect` -/

/-- C3, as stated, fails: with `A = B = [1]` and threshold `5` the lists share one
element, fewer than five, yet the routine answers `true`, because the requested
threshold is first clamped to the length of the shorter list. -/
theorem integral_list_intersect_not_plain_threshold :
    ¬ (integral_list_intersect [1] [1] 5 = some true
        ↔ 5 ≤ (([1] : List Int).toFinset ∩ ([1] : List Int).toFinset).card) := by
  decide

/-- C3 (amended): for sorted, duplicate-free lists `A` and `B` (fewer than `2^32`
entries each) and a threshold `T ≥ 1`, the threshold overload of
`integral_list_intersect` returns, and its answer is `true` exactly when both
lists are non-empty and the number of elements common to `A` and `B` is at
least `min(T, |A|, |B|)`. -/
theorem integral_list_intersect_clamped_threshold (A B : List Int) (T : Nat)
    (hA : A.Sorted (· < ·)) (hB : B.Sorted (· < ·))
    (hAl : A.length < 2 ^ 32) (hBl : B.length < 2 ^ 32) (hT : 1 ≤ T) :
    integral_list_intersect A B T
      = some (decide (A ≠ [] ∧ B ≠ [] ∧
          min T (min A.length B.length) ≤ (A.toFinset ∩ B.toFinset).card)) := by
  rw [integral_list_intersect_char hA hB hAl hBl hT, common_eq_card hA.nodup]

/-- Witness for C3 (amended): `[1,2,3]` and `[2,3,4]` at threshold `2`. -/
theorem integral_list_intersect_clamped_threshold_witness :
    integral_list_intersect [1, 2, 3] [2, 3, 4] 2
      = some (decide (([1, 2, 3] : List Int) ≠ [] ∧ ([2, 3, 4] : List Int) ≠ [] ∧
          min 2 (min ([1, 2, 3] : List Int).length ([2, 3, 4] : List Int).length)
            ≤ (([1, 2, 3] : List Int).toFinset ∩ ([2, 3, 4] : List Int).toFinset).card)) :=
  integral_list_intersect_clamped_threshold [1, 2, 3] [2, 3, 4] 2
    (by decide) (by decide) (by decide) (by decide) (by decide)

/-- C4: for sorted, duplicate-free lists `A` and `B` (fewer than `2^32` entries
each) and every threshold `T`, `integral_list_intersect(A, B, T)` and
`integral_list_intersect(B, A, T)` give the same answer, whichever of the three
size-ratio branches each of the two calls takes. -/
theorem integral_list_intersect_symm (A B : List Int) (T : Nat)
    (_hA : A.Sorted (· < ·)) (_hB : B.Sorted (· < ·))
    (hAl : A.length < 2 ^ 32) (hBl : B.length < 2 ^ 32) :
    integral_list_intersect A B T = integral_list_intersect B A T := by
  have hA64 : A.length * 100 % 2 ^ 64 = A.length * 100 := by
    apply Nat.mod_eq_of_lt
    have : (2 : Nat) ^ 32 * 100 < 2 ^ 64 := by norm_num
    omega
  have hB64 : B.length * 100 % 2 ^ 64 = B.length * 100 := by
    apply Nat.mod_eq_of_lt
    have : (2 : Nat) ^ 32 * 100 < 2 ^ 64 := by norm_num
    omega
  have hthr : overlap_threshold B A T = overlap_threshold A B T := by
    unfold overlap_threshold
    rw [Nat.min_comm B.length A.length]
  unfold integral_list_intersect
  simp only [hthr, hA64, hB64]
  by_cases h1 : A.length * 100 < B.length
  · have h2 : ¬ B.length * 100 < A.length := by omega
    simp only [h1, h2, if_true, if_false]
  · by_cases h2 : B.length * 100 < A.length
    · simp only [h1, h2, if_true, if_false]
    · simp only [h1, h2, if_false]
      rw [intersect_merge_loop_symm, Nat.add_comm B.length A.length]

/-- Witness for C4: a call that takes the binary-search branch in one order
and its mirror image in the other (`|A| = 1`, `|B| = 101`). -/
theorem integral_list_intersect_symm_witness :
    integral_list_intersect [50] ((List.range 101).map Int.ofNat) 1
      = integral_list_intersect ((List.range 101).map Int.ofNat) [50] 1 :=
  integral_list_intersect_symm [50] ((List.range 101).map Int.ofNat) 1
    (by decide) (by decide) (by decide) (by decide)

/-! ### The shell-list rewrite and its inverse -/

theorem advance_union_idx_spec (c : Int) :
    ∀ (us : List Int) (idx : Nat), c ∈ us → idx + us.length ≤ 2 ^ 31 →
      ∃ pre post, us = pre ++ c :: post ∧
        advance_union_idx c us idx = some (c :: post, idx + pre.length) := by
  intro us
  induction us with
  | nil => intro idx h; simp at h
  | cons u rest ih =>
    intro idx hmem hlen
    simp only [List.length_cons] at hlen
    by_cases huc : u = c
    · subst huc
      exact ⟨[], rest, rfl, by simp [advance_union_idx]⟩
    · have hmem2 : c ∈ rest := by
        rcases List.mem_cons.1 hmem with h | h
        · exact absurd h.symm huc
        · exact h
      have hpos : 0 < rest.length := List.length_pos_of_mem hmem2
      obtain ⟨pre, post, hsplit, hadv⟩ := ih (idx + 1) hmem2 (by omega)
      refine ⟨u :: pre, post, by simp [hsplit], ?_⟩
      rw [advance_union_idx]
      have hlt : idx + 1 < 2 ^ 31 := by omega
      simp only [ne_eq, huc, not_false_eq_true, if_true, hlt, hadv, List.length_cons]
      congr 2
      omega

theorem recalc_reset_loop (union_shell_list : List Int)
    (hlen : union_shell_list.length ≤ 2 ^ 31) :
    ∀ (cs us : List Int) (idx : Nat), us = union_shell_list.drop idx →
      us.Sorted (· ≤ ·) → cs.Sorted (· ≤ ·) → (∀ c ∈ cs, c ∈ us) →
      ∃ js, recalc_loop us idx cs = some js ∧ reset_shell_list union_shell_list js = some cs := by
  intro cs
  induction cs with
  | nil =>
    intro us idx _ _ _ _
    exact ⟨[], by simp [recalc_loop], by simp [reset_shell_list]⟩
  | cons c cs ih =>
    intro us idx hus hsu hsc hsub
    have hc : c ∈ us := hsub c (List.mem_cons_self _ _)
    have hidx : idx + us.length ≤ 2 ^ 31 := by
      have hpos : 0 < us.length := List.length_pos_of_mem hc
      rw [hus, List.length_drop] at hpos ⊢
      omega
    obtain ⟨pre, post, hsplit, hadv⟩ := advance_union_idx_spec c us idx hc hidx
    have hdrop : c :: post = union_shell_list.drop (idx + pre.length) := by
      rw [← List.drop_drop, ← hus, hsplit]
      simp
    have hsorted2 : (c :: post).Sorted (· ≤ ·) := by
      rw [hsplit] at hsu
      exact (List.pairwise_append.1 hsu).2.1
    have hsub2 : ∀ x ∈ cs, x ∈ c :: post := by
      intro x hx
      have hcx : c ≤ x := List.rel_of_sorted_cons hsc x hx
      have hxu : x ∈ us := hsub x (List.mem_cons_of_mem _ hx)
      rw [hsplit] at hxu hsu
      rcases List.mem_append.1 hxu with h | h
      · have hxc : x ≤ c := (List.pairwise_append.1 hsu).2.2 x h c (List.mem_cons_self _ _)
        have : x = c := le_antisymm hxc hcx
        rw [this]
        exact List.mem_cons_self _ _
      · exact h
    obtain ⟨js, hrec, hreset⟩ := ih (c :: post) (idx + pre.length) hdrop hsorted2 hsc.of_cons hsub2
    refine ⟨((idx + pre.length : Nat) : Int) :: js, ?_, ?_⟩
    · rw [recalc_loop, hadv]
      simp only [hrec]
    · have hget : union_shell_list[idx + pre.length]? = some c := by
        have h1 : (union_shell_list.drop (idx + pre.length))[0]? = some c := by
          rw [← hdrop]
          simp
        rw [List.getElem?_drop] at h1
        simpa using h1
      rw [reset_shell_list]
      have hnn : (0 : Int) ≤ ((idx + pre.length : Nat) : Int) := Int.ofNat_nonneg _
      simp only [hnn, if_true, Int.toNat_ofNat, hget, hreset]

theorem recalc_reset_shell_list (union_shell_list cur : List Int)
    (hlen : union_shell_list.length ≤ 2 ^ 31)
    (hu : union_shell_list.Sorted (· ≤ ·)) (hc : cur.Sorted (· ≤ ·))
    (hsub : ∀ c ∈ cur, c ∈ union_shell_list) :
    ∃ js, recalc_shell_list union_shell_list cur = some js ∧
      reset_shell_list union_shell_list js = some cur :=
  recalc_reset_loop union_shell_list hlen cur union_shell_list 0 (by simp) hu hc hsub

/-- C5: for a batch whose tasks have sorted shell lists contained in the sorted
union shell list (of at most `2^31` entries), the `RecalcShellList` loop of
`device_execute_shellbatched` completes, and the `ResetShellList` loop applied
to its result completes and gives back the original tasks: every task's
`shell_list` is what it was before the rewrite. -/
theorem recalc_then_reset_tasks (union_shell_list : List Int) (tasks : List XCTask)
    (hlen : union_shell_list.length ≤ 2 ^ 31)
    (hu : union_shell_list.Sorted (· ≤ ·))
    (hts : ∀ t ∈ tasks, t.shell_list.Sorted (· ≤ ·) ∧ ∀ c ∈ t.shell_list, c ∈ union_shell_list) :
    ∃ rewritten, recalc_tasks union_shell_list tasks = some rewritten ∧
      reset_tasks union_shell_list rewritten = some tasks := by
  induction tasks with
  | nil => exact ⟨[], rfl, rfl⟩
  | cons t ts ih =>
    obtain ⟨rest, h1, h2⟩ := ih (fun x hx => hts x (List.mem_cons_of_mem _ hx))
    obtain ⟨hs, hsub⟩ := hts t (List.mem_cons_self _ _)
    obtain ⟨js, hj1, hj2⟩ := recalc_reset_shell_list union_shell_list t.shell_list hlen hu hs hsub
    refine ⟨{ t with shell_list := js } :: rest, ?_, ?_⟩
    · unfold recalc_tasks at h1 ⊢
      simp only [map_shell_lists, hj1, h1]
    · unfold reset_tasks at h2 ⊢
      simp only [map_shell_lists, hj2, h2]

/-- Witness for C5: a batch of two tasks over the union list `[2, 5, 7, 9]`. -/
theorem recalc_then_reset_tasks_witness :
    ∃ rewritten,
      recalc_tasks [2, 5, 7, 9] [⟨2, [2, 7]⟩, ⟨3, [5, 7, 9]⟩] = some rewritten ∧
      reset_tasks [2, 5, 7, 9] rewritten = some [⟨2, [2, 7]⟩, ⟨3, [5, 7, 9]⟩] :=
  recalc_then_reset_tasks [2, 5, 7, 9] [⟨2, [2, 7]⟩, ⟨3, [5, 7, 9]⟩]
    (by decide) (by decide) (by decide)

/-! ### `std::partition` -/

theorem split_first_false {α : Type} (p : α → Bool) :
    ∀ l : List α, (∀ x ∈ l, p x = true) ∨
      ∃ front f rest, l = front ++ f :: rest ∧ (∀ x ∈ front, p x = true) ∧ p f = false := by
  intro l
  induction l with
  | nil => exact Or.inl (by simp)
  | cons a l ih =>
    by_cases ha : p a = true
    · rcases ih with h | ⟨front, f, rest, h1, h2, h3⟩
      · left
        intro x hx
        rcases List.mem_cons.1 hx with h' | h'
        · rw [h']; exact ha
        · exact h x h'
      · right
        refine ⟨a :: front, f, rest, by simp [h1], ?_, h3⟩
        intro x hx
        rcases List.mem_cons.1 hx with h' | h'
        · rw [h']; exact ha
        · exact h2 x h'
    · right
      exact ⟨[], a, l, rfl, by simp, by simpa using ha⟩

theorem split_last_true {α : Type} (p : α → Bool) :
    ∀ l : List α, (∀ x ∈ l, p x = false) ∨
      ∃ mid t back, l = mid ++ t :: back ∧ p t = true ∧ (∀ x ∈ back, p x = false) := by
  intro l
  induction l with
  | nil => exact Or.inl (by simp)
  | cons a l ih =>
    rcases ih with h | ⟨mid, t, back, h1, h2, h3⟩
    · by_cases ha : p a = true
      · right
        exact ⟨[], a, l, rfl, ha, h⟩
      · left
        intro x hx
        rcases List.mem_cons.1 hx with h' | h'
        · rw [h']; simpa using ha
        · exact h x h'
    · right
      exact ⟨a :: mid, t, back, by simp [h1], h2, h3⟩

theorem std_partition_all_true {α : Type} (p : α → Bool) (fuel : Nat) (l : List α)
    (h : ∀ x ∈ l, p x = true) : std_partition p (fuel + 1) l = (l, l.length) := by
  have hd : l.dropWhile p = [] := by
    have := @List.dropWhile_append_of_pos α p l [] h
    simpa using this
  rw [std_partition]
  simp only [hd]

theorem std_partition_no_swap {α : Type} (p : α → Bool) (fuel : Nat) (front : List α) (f : α)
    (rest : List α) (hfront : ∀ x ∈ front, p x = true) (hf : p f = false)
    (hrest : ∀ x ∈ rest, p x = false) :
    std_partition p (fuel + 1) (front ++ f :: rest) = (front ++ f :: rest, front.length) := by
  have htw : (front ++ f :: rest).takeWhile p = front := by
    rw [List.takeWhile_append_of_pos hfront, List.takeWhile_cons_of_neg (by simp [hf])]
    simp
  have hdw : (front ++ f :: rest).dropWhile p = f :: rest := by
    rw [List.dropWhile_append_of_pos hfront, List.dropWhile_cons_of_neg (by simp [hf])]
  have hrev : rest.reverse.dropWhile (fun x => !p x) = [] := by
    have := @List.dropWhile_append_of_pos α (fun x => !p x) rest.reverse []
      (by intro x hx; simp [hrest x (List.mem_reverse.1 hx)])
    simpa using this
  rw [std_partition]
  simp only [hdw, hrev, htw]

theorem std_partition_swap {α : Type} (p : α → Bool) (fuel : Nat) (front : List α) (f : α)
    (mid : List α) (t : α) (back : List α) (hfront : ∀ x ∈ front, p x = true)
    (hf : p f = false) (ht : p t = true) (hback : ∀ x ∈ back, p x = false) :
    std_partition p (fuel + 1) (front ++ f :: (mid ++ t :: back))
      = (front ++ t :: ((std_partition p fuel mid).1 ++ f :: back),
          front.length + 1 + (std_partition p fuel mid).2) := by
  have htw : (front ++ f :: (mid ++ t :: back)).takeWhile p = front := by
    rw [List.takeWhile_append_of_pos hfront, List.takeWhile_cons_of_neg (by simp [hf])]
    simp
  have hdw : (front ++ f :: (mid ++ t :: back)).dropWhile p = f :: (mid ++ t :: back) := by
    rw [List.dropWhile_append_of_pos hfront, List.dropWhile_cons_of_neg (by simp [hf])]
  have hr : (mid ++ t :: back).reverse = back.reverse ++ t :: mid.reverse := by simp
  have hb : ∀ x ∈ back.reverse, (fun x => !p x) x = true := by
    intro x hx
    simp [hback x (List.mem_reverse.1 hx)]
  have hrd : (mid ++ t :: back).reverse.dropWhile (fun x => !p x) = t :: mid.reverse := by
    rw [hr, List.dropWhile_append_of_pos hb, List.dropWhile_cons_of_neg (by simp [ht])]
  have hrt : (mid ++ t :: back).reverse.takeWhile (fun x => !p x) = back.reverse := by
    rw [hr, List.takeWhile_append_of_pos hb, List.takeWhile_cons_of_neg (by simp [ht])]
    simp
  rw [std_partition]
  simp only [hdw, hrd, hrt, htw, List.reverse_reverse]

/-- The contract of `std::partition`: the result is a rearrangement of the range
in which the elements that satisfy `p` come first, and the returned position is
the end of that first group. -/
theorem std_partition_spec {α : Type} (p : α → Bool) :
    ∀ (fuel : Nat) (l : List α), l.length ≤ fuel →
      ∃ A B, std_partition p fuel l = (A ++ B, A.length) ∧ (A ++ B).Perm l ∧
        (∀ x ∈ A, p x = true) ∧ (∀ x ∈ B, p x = false) := by
  intro fuel
  induction fuel with
  | zero =>
    intro l hl
    have : l = [] := List.length_eq_zero.1 (by omega)
    subst this
    exact ⟨[], [], rfl, List.Perm.refl _, by simp, by simp⟩
  | succ fuel ih =>
    intro l hl
    rcases split_first_false p l with hall | ⟨front, f, rest, hsplit, hfront, hf⟩
    · exact ⟨l, [], by rw [std_partition_all_true p fuel l hall]; simp, by simp, hall, by simp⟩
    · subst hsplit
      rcases split_last_true p rest with hnone | ⟨mid, t, back, hsplit2, ht, hback⟩
      · refine ⟨front, f :: rest, std_partition_no_swap p fuel front f rest hfront hf hnone,
          List.Perm.refl _, hfront, ?_⟩
        intro x hx
        rcases List.mem_cons.1 hx with h | h
        · rw [h]; exact hf
        · exact hnone x h
      · subst hsplit2
        have hlen : mid.length ≤ fuel := by
          simp only [List.length_append, List.length_cons] at hl
          omega
        obtain ⟨A, B, heq, hperm, hA, hB⟩ := ih mid hlen
        refine ⟨front ++ t :: A, B ++ f :: back, ?_, ?_, ?_, ?_⟩
        · rw [std_partition_swap p fuel front f mid t back hfront hf ht hback, heq]
          simp only [List.append_assoc, List.cons_append, List.length_append, List.length_cons,
            Prod.mk.injEq, true_and]
          omega
        · have h1 : (front ++ t :: A ++ (B ++ f :: back)).Perm (front ++ (t :: (A ++ B) ++ f :: back)) := by
            simp
          refine h1.trans (List.Perm.append_left front ?_)
          have h2 : (t :: (A ++ B) ++ f :: back).Perm (t :: mid ++ f :: back) :=
            List.Perm.append_right _ (List.Perm.cons t hperm)
          refine h2.trans ?_
          have h3 : (t :: mid ++ f :: back).Perm (f :: back ++ (t :: mid)) := List.perm_append_comm
          refine h3.trans ?_
          simp only [List.cons_append]
          refine List.Perm.cons f ?_
          have h4 : (back ++ t :: mid).Perm (t :: mid ++ back) := List.perm_append_comm
          refine h4.trans ?_
          simp only [List.cons_append]
          exact (List.perm_middle.symm)
        · intro x hx
          rcases List.mem_append.1 hx with h | h
          · exact hfront x h
          · rcases List.mem_cons.1 h with h | h
            · rw [h]; exact ht
            · exact hA x h
        · intro x hx
          rcases List.mem_append.1 hx with h | h
          · exact hB x h
          · rcases List.mem_cons.1 h with h | h
            · rw [h]; exact hf
            · exact hback x h

/-- Elements at the end of the range that do not satisfy `p` are not moved by
`std::partition`. -/
theorem std_partition_append_false {α : Type} (p : α → Bool) (fuel : Nat) (pre suf : List α)
    (hsuf : ∀ x ∈ suf, p x = false) :
    std_partition p fuel (pre ++ suf)
      = ((std_partition p fuel pre).1 ++ suf, (std_partition p fuel pre).2) := by
  cases fuel with
  | zero => simp [std_partition]
  | succ fuel =>
    rcases split_first_false p pre with hall | ⟨front, f, rest, hsplit, hfront, hf⟩
    · rw [std_partition_all_true p fuel pre hall]
      cases suf with
      | nil => simp [std_partition_all_true p fuel pre hall]
      | cons f rest =>
        exact std_partition_no_swap p fuel pre f rest hall (hsuf f (List.mem_cons_self _ _))
          (fun x hx => hsuf x (List.mem_cons_of_mem _ hx))
    · subst hsplit
      rcases split_last_true p rest with hnone | ⟨mid, t, back, hsplit2, ht, hback⟩
      · rw [std_partition_no_swap p fuel front f rest hfront hf hnone]
        have := std_partition_no_swap p fuel front f (rest ++ suf) hfront hf (by
          intro x hx
          rcases List.mem_append.1 hx with h | h
          · exact hnone x h
          · exact hsuf x h)
        simpa using this
      · subst hsplit2
        rw [std_partition_swap p fuel front f mid t back hfront hf ht hback]
        have := std_partition_swap p fuel front f mid t (back ++ suf) hfront hf ht (by
          intro x hx
          rcases List.mem_append.1 hx with h | h
          · exact hback x h
          · exact hsuf x h)
        simpa using this

theorem partition_range_append {α : Type} (p : α → Bool) (L M R : List α) :
    partition_range p (L ++ M ++ R) L.length (L.length + M.length)
      = (L ++ (std_partition p M.length M).1 ++ R, L.length + (std_partition p M.length M).2) := by
  have h1 : ((L ++ M ++ R).take (L.length + M.length)).drop L.length = M := by
    rw [List.append_assoc, List.take_append, List.take_left', List.drop_left' rfl]
    simp
  have h2 : (L ++ M ++ R).take L.length = L := by
    rw [List.append_assoc, List.take_left' rfl]
  have h3 : (L ++ M ++ R).drop (L.length + M.length) = R := by
    rw [← List.length_append, List.drop_left' rfl]
  unfold partition_range
  simp only [h1, h2, h3]

/-! ### The shell set and `list_subset` -/

theorem mem_set_insert (x y : Int) : ∀ s : List Int, x ∈ set_insert s y ↔ x = y ∨ x ∈ s := by
  intro s
  induction s with
  | nil => simp [set_insert]
  | cons a s ih =>
    rw [set_insert]
    split
    · simp
    · split
      · simp only [List.mem_cons, ih]
        tauto
      · have : y = a := by omega
        subst this
        simp

theorem set_insert_sorted (y : Int) :
    ∀ s : List Int, s.Sorted (· < ·) → (set_insert s y).Sorted (· < ·) := by
  intro s
  induction s with
  | nil => intro _; simp [set_insert]
  | cons a s ih =>
    intro hs
    rw [set_insert]
    split
    · rename_i hlt
      refine List.sorted_cons.2 ⟨?_, hs⟩
      intro b hb
      rcases List.mem_cons.1 hb with h | h
      · rw [h]; exact hlt
      · exact lt_trans hlt (List.rel_of_sorted_cons hs b h)
    · split
      · rename_i _ hlt
        refine List.sorted_cons.2 ⟨?_, ih hs.of_cons⟩
        intro b hb
        rcases (mem_set_insert b y s).1 hb with h | h
        · rw [h]; exact hlt
        · exact List.rel_of_sorted_cons hs b h
      · exact hs

theorem mem_set_insert_range (x : Int) :
    ∀ (l s : List Int), x ∈ set_insert_range s l ↔ x ∈ s ∨ x ∈ l := by
  intro l
  induction l with
  | nil => intro s; simp [set_insert_range]
  | cons a l ih =>
    intro s
    have := ih (set_insert s a)
    unfold set_insert_range at this ⊢
    rw [List.foldl_cons, this, mem_set_insert]
    simp only [List.mem_cons]
    tauto

theorem set_insert_range_sorted :
    ∀ (l s : List Int), s.Sorted (· < ·) → (set_insert_range s l).Sorted (· < ·) := by
  intro l
  induction l with
  | nil => intro s hs; exact hs
  | cons a l ih =>
    intro s hs
    have := ih (set_insert s a) (set_insert_sorted a s hs)
    unfold set_insert_range at this ⊢
    rw [List.foldl_cons]
    exact this

theorem mem_insert_shell_lists (x : Int) :
    ∀ (ts : List XCTask) (s : List Int),
      x ∈ insert_shell_lists s ts ↔ x ∈ s ∨ ∃ t ∈ ts, x ∈ t.shell_list := by
  intro ts
  induction ts with
  | nil => intro s; simp [insert_shell_lists]
  | cons a ts ih =>
    intro s
    have := ih (set_insert_range s a.shell_list)
    unfold insert_shell_lists at this ⊢
    rw [List.foldl_cons, this, mem_set_insert_range]
    simp only [List.mem_cons, exists_eq_or_imp]
    tauto

theorem insert_shell_lists_sorted :
    ∀ (ts : List XCTask) (s : List Int), s.Sorted (· < ·) →
      (insert_shell_lists s ts).Sorted (· < ·) := by
  intro ts
  induction ts with
  | nil => intro s hs; exact hs
  | cons a ts ih =>
    intro s hs
    have := ih (set_insert_range s a.shell_list) (set_insert_range_sorted _ s hs)
    unfold insert_shell_lists at this ⊢
    rw [List.foldl_cons]
    exact this

theorem list_subset_mem : ∀ (A B : List Int), list_subset A B = true → ∀ x ∈ B, x ∈ A := by
  intro A
  induction A with
  | nil =>
    intro B h
    cases B with
    | nil => simp
    | cons b bs => simp [list_subset] at h
  | cons a as ih =>
    intro B h
    cases B with
    | nil => simp
    | cons b bs =>
      rw [list_subset] at h
      split at h
      · simp at h
      · split at h
        · intro x hx
          exact List.mem_cons_of_mem _ (ih _ h x hx)
        · have hab : a = b := by omega
          intro x hx
          rcases List.mem_cons.1 hx with h1 | h1
          · rw [h1, hab]; exact List.mem_cons_self _ _
          · exact List.mem_cons_of_mem _ (ih _ h x h1)

/-- Two increasing lists with the same elements are the same list. -/
theorem sorted_ext {l1 l2 : List Int} (h1 : l1.Sorted (· < ·)) (h2 : l2.Sorted (· < ·))
    (h : ∀ x, x ∈ l1 ↔ x ∈ l2) : l1 = l2 :=
  List.eq_of_perm_of_sorted
    ((List.perm_ext_iff_of_nodup h1.nodup h2.nodup).2 h) h1 h2

/-! ### The overlap test is monotone in the threshold -/

theorem overlaps_iff {M : List Int} (hM : GoodList M) {t : XCTask} (ht : GoodList t.shell_list)
    {T : Nat} (hT : 1 ≤ T) :
    overlaps M T t = true ↔
      (M ≠ [] ∧ t.shell_list ≠ [] ∧
        min T (min M.length t.shell_list.length) ≤ common M t.shell_list) := by
  unfold overlaps
  rw [integral_list_intersect_char hM.1 ht.1 hM.2 ht.2 hT]
  simp

theorem overlaps_mono {M : List Int} (hM : GoodList M) {t : XCTask} (ht : GoodList t.shell_list)
    {T1 T2 : Nat} (hT : 1 ≤ T1) (h12 : T1 ≤ T2) (h : overlaps M T2 t = true) :
    overlaps M T1 t = true := by
  rw [overlaps_iff hM ht (by omega)] at h
  rw [overlaps_iff hM ht hT]
  refine ⟨h.1, h.2.1, ?_⟩
  have := h.2.2
  have h3 : min T1 (min M.length t.shell_list.length) ≤ min T2 (min M.length t.shell_list.length) := by
    omega
  omega

/-! ### One probe of the binary search -/

theorem partition_range_core {α : Type} (p : α → Bool) (l L M R : List α) (hl : l = L ++ M ++ R)
    (en : Nat)
    (hen : en = L.length + M.length ∨ (en = l.length ∧ ∀ x ∈ R, p x = false)) :
    ∃ A B, (A ++ B).Perm M ∧ (∀ x ∈ A, p x = true) ∧ (∀ x ∈ B, p x = false) ∧
      partition_range p l L.length en = (L ++ A ++ B ++ R, L.length + A.length) ∧
      ((L ++ A ++ B ++ R).take (L.length + A.length)).drop L.length = A := by
  have htd : ∀ A B : List α,
      ((L ++ A ++ B ++ R).take (L.length + A.length)).drop L.length = A := by
    intro A B
    rw [List.append_assoc (L ++ A), ← List.length_append, List.take_left' rfl,
      List.drop_left' rfl]
  rcases hen with hen | ⟨hen, hR⟩
  · obtain ⟨A, B, heq, hperm, hA, hB⟩ := std_partition_spec p M.length M (le_refl _)
    refine ⟨A, B, hperm, hA, hB, ?_, htd A B⟩
    rw [hl, hen, partition_range_append, heq]
    simp
  · obtain ⟨A, B, heq, hperm, hA, hB⟩ :=
      std_partition_spec p (M ++ R).length M (by simp)
    refine ⟨A, B, hperm, hA, hB, ?_, htd A B⟩
    have h1 : l = L ++ (M ++ R) ++ [] := by simp [hl]
    have h2 : en = L.length + (M ++ R).length := by
      rw [hen, hl]
      simp [Nat.add_assoc]
    rw [h2]
    conv_lhs => rw [h1]
    rw [partition_range_append, std_partition_append_false p _ M R hR, heq]
    simp

theorem append_split_of_pred {α : Type} (p : α → Bool) {A1 B1 A2 B2 : List α}
    (h : A1 ++ B1 = A2 ++ B2) (hA1 : ∀ x ∈ A1, p x = true) (hB2 : ∀ x ∈ B2, p x = false) :
    ∃ M, A2 = A1 ++ M ∧ B1 = M ++ B2 := by
  rcases List.append_eq_append_iff.1 h with ⟨a, h1, h2⟩ | ⟨c, h1, h2⟩
  · exact ⟨a, h1, h2⟩
  · cases c with
    | nil =>
      simp only [List.append_nil, List.nil_append] at h1 h2
      exact ⟨[], by simp [h1], by simp [h2]⟩
    | cons x c =>
      exfalso
      have hx1 : p x = true := hA1 x (by rw [h1]; simp)
      have hx2 : p x = false := hB2 x (by rw [h2]; simp)
      rw [hx1] at hx2
      exact Bool.noConfusion hx2

theorem probe_threshold_first (nbf_threshold : Nat) (overlap_threshold_of : Nat → Nat)
    (nbf_subset : List Int → Nat) (M0 U0 : List Int) (idx : Nat) (s : SearchState)
    (hcur : s.cur_partition_pthresh_idx = none) :
    probe_threshold nbf_threshold overlap_threshold_of nbf_subset M0 U0 idx s
      = some (probe_result nbf_threshold overlap_threshold_of nbf_subset M0 idx s
          0 s.tasks.length U0) := by
  unfold probe_threshold probe_result
  simp only [hcur]

theorem probe_threshold_extend (nbf_threshold : Nat) (overlap_threshold_of : Nat → Nat)
    (nbf_subset : List Int → Nat) (M0 U0 : List Int) (idx : Nat) (s : SearchState)
    (cur te : Nat) (U : List Int)
    (hcur : s.cur_partition_pthresh_idx = some cur)
    (hc : s.cached_task_ends cur = some (te, U)) (hlt : cur > idx) :
    probe_threshold nbf_threshold overlap_threshold_of nbf_subset M0 U0 idx s
      = some (probe_result nbf_threshold overlap_threshold_of nbf_subset M0 idx s
          te s.tasks.length U) := by
  unfold probe_threshold probe_result
  simp only [hcur, hc, hlt, if_true]

theorem probe_threshold_restrict (nbf_threshold : Nat) (overlap_threshold_of : Nat → Nat)
    (nbf_subset : List Int → Nat) (M0 U0 : List Int) (idx : Nat) (s : SearchState)
    (cur te : Nat) (U : List Int)
    (hcur : s.cur_partition_pthresh_idx = some cur)
    (hc : s.cached_task_ends cur = some (te, U)) (hlt : ¬ cur > idx) :
    probe_threshold nbf_threshold overlap_threshold_of nbf_subset M0 U0 idx s
      = some (probe_result nbf_threshold overlap_threshold_of nbf_subset M0 idx s
          0 te U0) := by
  unfold probe_threshold probe_result
  simp only [hcur, hc, hlt, if_false]

theorem CacheEntry_of_perm {overlap_threshold_of : Nat → Nat} {M0 : List Int}
    {s1 : SearchState} {c te : Nat} {U : List Int} {A A1 B : List XCTask}
    (hc : s1.cached_task_ends c = some (te, U)) (hs : s1.tasks = A1 ++ B) (hp : A1.Perm A)
    (hlen : A.length = te)
    (hA : ∀ t ∈ A, overlaps M0 (overlap_threshold_of c) t = true)
    (hB : ∀ t ∈ B, overlaps M0 (overlap_threshold_of c) t = false)
    (hUs : U.Sorted (· < ·))
    (hUm : ∀ x, x ∈ U ↔ (x ∈ M0 ∨ ∃ t ∈ A, x ∈ t.shell_list)) :
    CacheEntry overlap_threshold_of M0 s1 c := by
  refine ⟨te, U, A1, B, hc, hs, by rw [hp.length_eq, hlen], ?_, hB, hUs, ?_⟩
  · intro t ht
    exact hA t (hp.mem_iff.1 ht)
  · intro x
    rw [hUm x]
    constructor
    · rintro (h | ⟨t, ht, hx⟩)
      · exact Or.inl h
      · exact Or.inr ⟨t, hp.mem_iff.2 ht, hx⟩
    · rintro (h | ⟨t, ht, hx⟩)
      · exact Or.inl h
      · exact Or.inr ⟨t, hp.mem_iff.1 ht, hx⟩

/-- What one probe does when the task range is `L ++ M ++ R`, the tasks of `L`
are already in the union `Uinit` and pass the test, those of `R` fail it, and
the range handed to `std::partition` is `M` (or `M ++ R`). -/
theorem probe_result_spec (nbf_threshold : Nat) (overlap_threshold_of : Nat → Nat)
    (nbf_subset : List Int → Nat) (M0 : List Int) (idx : Nat) (s : SearchState)
    (L M R : List XCTask) (Uinit : List Int) (en : Nat)
    (hts : s.tasks = L ++ M ++ R)
    (hen : en = L.length + M.length ∨
      (en = s.tasks.length ∧ ∀ x ∈ R, overlaps M0 (overlap_threshold_of idx) x = false))
    (hL : ∀ t ∈ L, overlaps M0 (overlap_threshold_of idx) t = true)
    (hR : ∀ t ∈ R, overlaps M0 (overlap_threshold_of idx) t = false)
    (hUs : Uinit.Sorted (· < ·))
    (hUm : ∀ x, x ∈ Uinit ↔ (x ∈ M0 ∨ ∃ t ∈ L, x ∈ t.shell_list)) :
    ∃ A B, (A ++ B).Perm M ∧
      (probe_result nbf_threshold overlap_threshold_of nbf_subset M0 idx s
        L.length en Uinit).2.tasks = L ++ A ++ B ++ R ∧
      (probe_result nbf_threshold overlap_threshold_of nbf_subset M0 idx s
        L.length en Uinit).2.cur_partition_pthresh_idx = some idx ∧
      (∀ k, k ≠ idx →
        (probe_result nbf_threshold overlap_threshold_of nbf_subset M0 idx s
          L.length en Uinit).2.cached_task_ends k = s.cached_task_ends k) ∧
      CacheEntry overlap_threshold_of M0
        (probe_result nbf_threshold overlap_threshold_of nbf_subset M0 idx s
          L.length en Uinit).2 idx ∧
      ∃ te U,
        (probe_result nbf_threshold overlap_threshold_of nbf_subset M0 idx s
          L.length en Uinit).2.cached_task_ends idx = some (te, U) ∧
        (probe_result nbf_threshold overlap_threshold_of nbf_subset M0 idx s
          L.length en Uinit).1 = decide (nbf_subset U < nbf_threshold) := by
  obtain ⟨A, B, hperm, hA, hB, hpr, htd⟩ :=
    partition_range_core (overlaps M0 (overlap_threshold_of idx)) s.tasks L M R hts en hen
  refine ⟨A, B, hperm, ?_, ?_, ?_, ?_, ?_⟩
  · simp only [probe_result, hpr]
  · simp only [probe_result]
  · intro k hk
    simp only [probe_result, hk, if_false]
  · refine ⟨L.length + A.length, insert_shell_lists Uinit A, L ++ A, B ++ R, ?_, ?_, ?_, ?_, ?_,
      ?_, ?_⟩
    · simp only [probe_result, hpr, htd, if_true]
    · simp only [probe_result, hpr, List.append_assoc]
    · simp
    · intro t ht
      rcases List.mem_append.1 ht with h | h
      · exact hL t h
      · exact hA t h
    · intro t ht
      rcases List.mem_append.1 ht with h | h
      · exact hB t h
      · exact hR t h
    · exact insert_shell_lists_sorted A Uinit hUs
    · intro x
      rw [mem_insert_shell_lists, hUm x]
      constructor
      · rintro ((h | ⟨t, ht, hx⟩) | ⟨t, ht, hx⟩)
        · exact Or.inl h
        · exact Or.inr ⟨t, List.mem_append_left _ ht, hx⟩
        · exact Or.inr ⟨t, List.mem_append_right _ ht, hx⟩
      · rintro (h | ⟨t, ht, hx⟩)
        · exact Or.inl (Or.inl h)
        · rcases List.mem_append.1 ht with h | h
          · exact Or.inl (Or.inr ⟨t, h, hx⟩)
          · exact Or.inr ⟨t, h, hx⟩
  · exact ⟨L.length + A.length, insert_shell_lists Uinit A,
      by simp only [probe_result, hpr, htd, if_true], by simp only [probe_result, hpr, htd]⟩

theorem overlaps_false_mono {M : List Int} (hM : GoodList M) {t : XCTask}
    (ht : GoodList t.shell_list) {T1 T2 : Nat} (hT : 1 ≤ T1) (h12 : T1 ≤ T2)
    (h : overlaps M T1 t = false) : overlaps M T2 t = false := by
  cases h2 : overlaps M T2 t with
  | false => rfl
  | true =>
    rw [overlaps_mono hM ht hT h12 h2] at h
    exact Bool.noConfusion h

/-- One step of the binary search keeps the invariant, whichever way the probe
answers, and the probe never fails. -/
theorem probe_step (nbf_threshold : Nat) (overlap_threshold_of : Nat → Nat)
    (nbf_subset : List Int → Nat) (M0 U0 : List Int) (tasks0 : List XCTask)
    (hM0 : GoodList M0) (hU0s : U0.Sorted (· < ·)) (hU0m : ∀ x, x ∈ U0 ↔ x ∈ M0)
    (hpos : ∀ i, 1 ≤ overlap_threshold_of i)
    (hmono : ∀ i j, i ≤ j → overlap_threshold_of i ≤ overlap_threshold_of j)
    (hgood : ∀ t ∈ tasks0, GoodList t.shell_list)
    (first len : Nat) (s : SearchState)
    (hinv : SearchInv overlap_threshold_of M0 tasks0 first len s) (hlen : 0 < len) :
    ∃ b s1 te U,
      probe_threshold nbf_threshold overlap_threshold_of nbf_subset M0 U0
        (18 - (first + len / 2)) s = some (b, s1) ∧
      s1.cached_task_ends (18 - (first + len / 2)) = some (te, U) ∧
      b = decide (nbf_subset U < nbf_threshold) ∧
      CacheEntry overlap_threshold_of M0 s1 (18 - (first + len / 2)) ∧
      (b = true → SearchInv overlap_threshold_of M0 tasks0
        (first + len / 2 + 1) (len - len / 2 - 1) s1) ∧
      (b = false → SearchInv overlap_threshold_of M0 tasks0 first (len / 2) s1) := by
  obtain ⟨hle, hperm, hcur, hF⟩ := hinv
  have hhalf : len / 2 < len := Nat.div_lt_self hlen (by norm_num)
  have hgs : ∀ t ∈ s.tasks, GoodList t.shell_list := fun t ht => hgood t (hperm.mem_iff.1 ht)
  have hup : ∀ (i j : Nat) (t : XCTask), t ∈ s.tasks → i ≤ j →
      overlaps M0 (overlap_threshold_of j) t = true →
      overlaps M0 (overlap_threshold_of i) t = true :=
    fun i j t ht hij h => overlaps_mono hM0 (hgs t ht) (hpos i) (hmono i j hij) h
  have hdown : ∀ (i j : Nat) (t : XCTask), t ∈ s.tasks → i ≤ j →
      overlaps M0 (overlap_threshold_of i) t = false →
      overlaps M0 (overlap_threshold_of j) t = false :=
    fun i j t ht hij h => overlaps_false_mono hM0 (hgs t ht) (hpos i) (hmono i j hij) h
  -- the shape of the range, the search range and the initial union in each case
  have hcase : ∃ (L M R : List XCTask) (Uinit : List Int) (en : Nat),
      probe_threshold nbf_threshold overlap_threshold_of nbf_subset M0 U0
          (18 - (first + len / 2)) s
        = some (probe_result nbf_threshold overlap_threshold_of nbf_subset M0
            (18 - (first + len / 2)) s L.length en Uinit) ∧
      s.tasks = L ++ M ++ R ∧
      (en = L.length + M.length ∨ (en = s.tasks.length ∧
        ∀ x ∈ R, overlaps M0 (overlap_threshold_of (18 - (first + len / 2))) x = false)) ∧
      (∀ t ∈ L, overlaps M0 (overlap_threshold_of (18 - (first + len / 2))) t = true) ∧
      (∀ t ∈ R, overlaps M0 (overlap_threshold_of (18 - (first + len / 2))) t = false) ∧
      Uinit.Sorted (· < ·) ∧
      (∀ x, x ∈ Uinit ↔ (x ∈ M0 ∨ ∃ t ∈ L, x ∈ t.shell_list)) ∧
      (first + len < 19 → ∃ teF UF, s.cached_task_ends (18 - first - len) = some (teF, UF) ∧
        (L ++ M).length = teF ∧
        (∀ t ∈ L ++ M, overlaps M0 (overlap_threshold_of (18 - first - len)) t = true) ∧
        (∀ t ∈ R, overlaps M0 (overlap_threshold_of (18 - first - len)) t = false) ∧
        UF.Sorted (· < ·) ∧
        (∀ x, x ∈ UF ↔ (x ∈ M0 ∨ ∃ t ∈ L ++ M, x ∈ t.shell_list))) := by
    cases hc : s.cur_partition_pthresh_idx with
    | none =>
      rw [hc] at hcur
      refine ⟨[], s.tasks, [], U0, s.tasks.length, ?_, by simp, Or.inl (by simp), by simp,
        by simp, hU0s, by simpa using hU0m, ?_⟩
      · exact probe_threshold_first _ _ _ _ _ _ _ hc
      · intro h
        omega
    | some c =>
      rw [hc] at hcur
      obtain ⟨hpos_c, te, U, Ac, Bc, hcache, hts, hte, hAc, hBc, hUs, hUm⟩ := hcur
      rcases hpos_c with hct | hcf
      · -- the last probe succeeded: extend from its cached state
        have hgt : c > 18 - (first + len / 2) := by omega
        by_cases hFex : first + len < 19
        · obtain ⟨teF, UF, AF, BF, hcacheF, htsF, hteF, hAF, hBF, hUFs, hUFm⟩ := hF hFex
          have hAcF : ∀ x ∈ Ac, overlaps M0 (overlap_threshold_of (18 - first - len)) x = true :=
            fun x hx => hup _ c x (by rw [hts]; exact List.mem_append_left _ hx) (by omega)
              (hAc x hx)
          obtain ⟨M, hM1, hM2⟩ := append_split_of_pred
            (overlaps M0 (overlap_threshold_of (18 - first - len)))
            (hts.symm.trans htsF) hAcF hBF
          have htsM : s.tasks = Ac ++ M ++ BF := by rw [hts, hM2, List.append_assoc]
          have hRf : ∀ x ∈ BF,
              overlaps M0 (overlap_threshold_of (18 - (first + len / 2))) x = false :=
            fun x hx => hdown (18 - first - len) _ x
              (by rw [htsF]; exact List.mem_append_right _ hx) (by omega) (hBF x hx)
          refine ⟨Ac, M, BF, U, s.tasks.length, ?_, htsM, Or.inr ⟨rfl, hRf⟩, ?_, hRf, hUs, hUm, ?_⟩
          · rw [hte]
            exact probe_threshold_extend _ _ _ _ _ _ _ c te U hc hcache hgt
          · intro t ht
            exact hup _ c t (by rw [hts]; exact List.mem_append_left _ ht) (by omega) (hAc t ht)
          · intro _
            refine ⟨teF, UF, hcacheF, by rw [← hM1, hteF], ?_, hBF, hUFs, ?_⟩
            · rw [← hM1]; exact hAF
            · rw [← hM1]; exact hUFm
        · refine ⟨Ac, Bc, [], U, s.tasks.length, ?_, by simp [hts], Or.inl (by simp [hts]), ?_,
            by simp, hUs, hUm, fun h => absurd h hFex⟩
          · rw [hte]
            exact probe_threshold_extend _ _ _ _ _ _ _ c te U hc hcache hgt
          · intro t ht
            exact hup _ c t (by rw [hts]; exact List.mem_append_left _ ht) (by omega) (hAc t ht)
      · -- the last probe failed: restrict to the range it selected
        have hngt : ¬ c > 18 - (first + len / 2) := by omega
        have hcF : 18 - first - len = c := by omega
        refine ⟨[], Ac, Bc, U0, te, ?_, by simp [hts], Or.inl (by simp [hte]), by simp, ?_, hU0s,
          by simpa using hU0m, ?_⟩
        · exact probe_threshold_restrict _ _ _ _ _ _ _ c te U hc hcache hngt
        · intro t ht
          exact hdown c _ t (by rw [hts]; exact List.mem_append_right _ ht) (by omega) (hBc t ht)
        · intro _
          rw [hcF]
          exact ⟨te, U, hcache, by simpa using hte, by simpa using hAc, hBc, hUs,
            by simpa using hUm⟩
  obtain ⟨L, M, R, Uinit, en, hprobe, hts, hen, hL, hR, hUs, hUm, hFent⟩ := hcase
  obtain ⟨A, B, hAB, htasks1, hcur1, hcache1, hentry1, te1, U1, hc1, hb1⟩ :=
    probe_result_spec nbf_threshold overlap_threshold_of nbf_subset M0
      (18 - (first + len / 2)) s L M R Uinit en hts hen hL hR hUs hUm
  generalize probe_result nbf_threshold overlap_threshold_of nbf_subset M0
      (18 - (first + len / 2)) s L.length en Uinit = r
    at hprobe htasks1 hcur1 hcache1 hentry1 hc1 hb1
  have hperm1 : r.2.tasks.Perm tasks0 := by
    rw [htasks1]
    refine List.Perm.trans ?_ hperm
    rw [hts, List.append_assoc L A B]
    exact List.Perm.append_right R (List.Perm.append_left L hAB)
  refine ⟨r.1, r.2, te1, U1, hprobe, hc1, hb1, hentry1, ?_, ?_⟩
  · intro _
    refine ⟨by omega, hperm1, ?_, ?_⟩
    · rw [hcur1]
      exact ⟨Or.inl (by omega), hentry1⟩
    · intro hlt
      have hFex : first + len < 19 := by omega
      have hidx : 18 - (first + len / 2 + 1) - (len - len / 2 - 1) = 18 - first - len := by omega
      rw [hidx]
      obtain ⟨teF, UF, hcacheF, hteF, hAF, hBF, hUFs, hUFm⟩ := hFent hFex
      refine @CacheEntry_of_perm overlap_threshold_of M0 _ _ teF UF (L ++ M) (L ++ (A ++ B)) R
        ?_ ?_ ?_ hteF hAF hBF
        hUFs hUFm
      · rw [hcache1 _ (by omega)]
        exact hcacheF
      · rw [htasks1]
        simp
      · exact List.Perm.append_left L hAB
  · intro _
    refine ⟨by omega, hperm1, ?_, ?_⟩
    · rw [hcur1]
      exact ⟨Or.inr (by omega), hentry1⟩
    · intro _
      have hidx : 18 - first - len / 2 = 18 - (first + len / 2) := by omega
      rw [hidx]
      exact hentry1

/-! ### The binary search as a whole -/

theorem CacheEntry_union_at {overlap_threshold_of : Nat → Nat} {M0 : List Int}
    {s : SearchState} {c te : Nat} {U : List Int} {tasks0 : List XCTask}
    (h : CacheEntry overlap_threshold_of M0 s c) (hperm : s.tasks.Perm tasks0)
    (hc : s.cached_task_ends c = some (te, U)) :
    U = union_at overlap_threshold_of M0 tasks0 c := by
  obtain ⟨te1, U1, A, B, hc1, hts, _, hA, hB, hUs, hUm⟩ := h
  rw [hc] at hc1
  have hU : U1 = U := by
    have := Option.some.inj hc1
    exact (Prod.mk.inj this).2.symm
  subst hU
  apply sorted_ext hUs
  · exact insert_shell_lists_sorted _ _ (set_insert_range_sorted _ _ (by simp))
  · intro x
    unfold union_at
    rw [hUm x, mem_insert_shell_lists, mem_set_insert_range]
    simp only [List.not_mem_nil, false_or, List.mem_filter]
    constructor
    · rintro (h | ⟨t, ht, hx⟩)
      · exact Or.inl h
      · refine Or.inr ⟨t, ⟨hperm.mem_iff.1 (by rw [hts]; exact List.mem_append_left _ ht),
          hA t ht⟩, hx⟩
    · rintro (h | ⟨t, ⟨ht, hp⟩, hx⟩)
      · exact Or.inl h
      · have hmem : t ∈ A ++ B := by rw [← hts]; exact hperm.mem_iff.2 ht
        rcases List.mem_append.1 hmem with h | h
        · exact Or.inr ⟨t, h, hx⟩
        · rw [hB t h] at hp
          exact Bool.noConfusion hp

/-- The binary search of `generate_dev_batch` never fails and ends in a state
that satisfies the invariant for an empty window; if the union stays below
`nbf_threshold` at every threshold index, it ends past the last position. -/
theorem partition_point_loop_spec (nbf_threshold : Nat) (overlap_threshold_of : Nat → Nat)
    (nbf_subset : List Int → Nat) (M0 U0 : List Int) (tasks0 : List XCTask)
    (hM0 : GoodList M0) (hU0s : U0.Sorted (· < ·)) (hU0m : ∀ x, x ∈ U0 ↔ x ∈ M0)
    (hpos : ∀ i, 1 ≤ overlap_threshold_of i)
    (hmono : ∀ i j, i ≤ j → overlap_threshold_of i ≤ overlap_threshold_of j)
    (hgood : ∀ t ∈ tasks0, GoodList t.shell_list) :
    ∀ (fuel first len : Nat) (s : SearchState), len ≤ fuel →
      SearchInv overlap_threshold_of M0 tasks0 first len s →
      ∃ it s1,
        partition_point_loop
          (probe_threshold nbf_threshold overlap_threshold_of nbf_subset M0 U0)
          (fun m => 18 - m) fuel first len s = some (it, s1) ∧
        SearchInv overlap_threshold_of M0 tasks0 it 0 s1 ∧
        ((∀ idx, idx ≤ 18 →
            nbf_subset (union_at overlap_threshold_of M0 tasks0 idx) < nbf_threshold) →
          first + len = 19 → it = 19) ∧
        ((∀ idx, idx ≤ 18 →
            nbf_threshold ≤ nbf_subset (union_at overlap_threshold_of M0 tasks0 idx)) →
          it = first) := by
  intro fuel
  induction fuel with
  | zero =>
    intro first len s hl hinv
    have : len = 0 := by omega
    subst this
    exact ⟨first, s, rfl, hinv, fun _ h => by omega, fun _ => rfl⟩
  | succ fuel ih =>
    intro first len s hl hinv
    by_cases hlen : len = 0
    · subst hlen
      exact ⟨first, s, by simp [partition_point_loop], hinv, fun _ h => by omega, fun _ => rfl⟩
    · obtain ⟨b, s1, te, U, hprobe, hc, hb, hentry, htrue, hfalse⟩ :=
        probe_step nbf_threshold overlap_threshold_of nbf_subset M0 U0 tasks0 hM0 hU0s hU0m
          hpos hmono hgood first len s hinv (by omega)
      have hhalf : len / 2 < len := Nat.div_lt_self (by omega) (by norm_num)
      cases b with
      | true =>
        obtain ⟨it, s2, hloop, hinv2, hall2, _⟩ :=
          ih (first + len / 2 + 1) (len - len / 2 - 1) s1 (by omega) (htrue rfl)
        refine ⟨it, s2, ?_, hinv2, ?_, ?_⟩
        · rw [partition_point_loop]
          simp only [hlen, if_false, hprobe]
          exact hloop
        · intro hall h19
          exact hall2 hall (by omega)
        · intro hnone
          exfalso
          have hperm := (htrue rfl).2.1
          have hU := CacheEntry_union_at hentry hperm hc
          have hge := hnone (18 - (first + len / 2)) (by omega)
          rw [← hU] at hge
          have : decide (nbf_subset U < nbf_threshold) = false :=
            decide_eq_false (by omega)
          rw [← hb] at this
          exact Bool.noConfusion this
      | false =>
        obtain ⟨it, s2, hloop, hinv2, _, hnone2⟩ :=
          ih first (len / 2) s1 (by omega) (hfalse rfl)
        refine ⟨it, s2, ?_, hinv2, ?_, hnone2⟩
        · rw [partition_point_loop]
          simp only [hlen, if_false, hprobe]
          exact hloop
        · intro hall h19
          exfalso
          have hperm := (hfalse rfl).2.1
          have hU := CacheEntry_union_at hentry hperm hc
          have hlt := hall (18 - (first + len / 2)) (by omega)
          rw [← hU] at hlt
          have : decide (nbf_subset U < nbf_threshold) = true := decide_eq_true hlt
          rw [← hb] at this
          exact Bool.noConfusion this

theorem max_element_loop_mem : ∀ (ts : List XCTask) (best : XCTask),
    max_element_loop best ts ∈ best :: ts := by
  intro ts
  induction ts with
  | nil => intro best; simp [max_element_loop]
  | cons t ts ih =>
    intro best
    rw [max_element_loop]
    split
    · exact List.mem_cons_of_mem _ (ih t)
    · rcases List.mem_cons.1 (ih best) with h | h
      · rw [h]; exact List.mem_cons_self _ _
      · exact List.mem_cons_of_mem _ (List.mem_cons_of_mem _ h)

theorem max_element_loop_ge : ∀ (ts : List XCTask) (best : XCTask),
    ∀ t ∈ best :: ts, t.nbe ≤ (max_element_loop best ts).nbe := by
  intro ts
  induction ts with
  | nil =>
    intro best t ht
    simp only [List.mem_singleton] at ht
    simp [max_element_loop, ht]
  | cons a ts ih =>
    intro best t ht
    rw [max_element_loop]
    split
    · rename_i hlt
      have h1 := ih a a (List.mem_cons_self _ _)
      rcases List.mem_cons.1 ht with h | h
      · rw [h]; omega
      · exact ih a t h
    · rename_i hnlt
      have h1 := ih best best (List.mem_cons_self _ _)
      rcases List.mem_cons.1 ht with h | h
      · rw [h]; exact h1
      · rcases List.mem_cons.1 h with h | h
        · rw [h]; omega
        · exact ih best t (List.mem_cons_of_mem _ h)

/-- What `generate_dev_batch` returns on a non-empty range of tasks with
increasing shell lists: the range is rearranged into `A ++ A1 ++ B1`, where `A`
are the tasks that pass the overlap test at the selected threshold index, `A1`
the further tasks whose shells all lie in the union, and the batch is
`A ++ A1` with the union built at the selected index. -/
theorem generate_dev_batch_spec (nbf_threshold : Nat) (overlap_threshold_of : Nat → Nat → Nat)
    (nbf_subset : List Int → Nat) (tasks : List XCTask) (task_begin : Nat)
    (t0 : XCTask) (rest : List XCTask) (hdrop : tasks.drop task_begin = t0 :: rest)
    (hgood : ∀ t ∈ tasks.drop task_begin, GoodList t.shell_list)
    (hpos : ∀ n i, 1 ≤ overlap_threshold_of n i)
    (hmono : ∀ n i j, i ≤ j → overlap_threshold_of n i ≤ overlap_threshold_of n j) :
    ∃ (idxp : Nat) (U : List Int) (A A1 B1 : List XCTask),
      generate_dev_batch nbf_threshold overlap_threshold_of nbf_subset tasks task_begin
        = some ({ task_begin := task_begin, task_end := task_begin + (A.length + A1.length),
                  shell_list := U },
                tasks.take task_begin ++ (A ++ A1 ++ B1)) ∧
      (A ++ A1 ++ B1).Perm (tasks.drop task_begin) ∧
      idxp ≤ 18 ∧
      U = union_at (overlap_threshold_of (max_element_loop t0 rest).shell_list.length)
            (max_element_loop t0 rest).shell_list (tasks.drop task_begin) idxp ∧
      (∀ t ∈ A, overlaps (max_element_loop t0 rest).shell_list
        (overlap_threshold_of (max_element_loop t0 rest).shell_list.length idxp) t = true) ∧
      (∀ t ∈ A1 ++ B1, overlaps (max_element_loop t0 rest).shell_list
        (overlap_threshold_of (max_element_loop t0 rest).shell_list.length idxp) t = false) ∧
      (∀ t ∈ A, ∀ x ∈ t.shell_list, x ∈ U) ∧
      (∀ x ∈ (max_element_loop t0 rest).shell_list, x ∈ U) ∧
      (∀ t ∈ A1, list_subset U t.shell_list = true) ∧
      (∀ t ∈ B1, list_subset U t.shell_list = false) ∧
      ((∀ idx, idx ≤ 18 →
          nbf_subset (union_at (overlap_threshold_of (max_element_loop t0 rest).shell_list.length)
            (max_element_loop t0 rest).shell_list (tasks.drop task_begin) idx) < nbf_threshold) →
        idxp = 0) ∧
      ((∀ idx, idx ≤ 18 →
          nbf_threshold ≤ nbf_subset
            (union_at (overlap_threshold_of (max_element_loop t0 rest).shell_list.length)
              (max_element_loop t0 rest).shell_list (tasks.drop task_begin) idx)) →
        idxp = 18) := by
  have hmaxmem : max_element_loop t0 rest ∈ tasks.drop task_begin := by
    rw [hdrop]
    exact max_element_loop_mem rest t0
  have hM0 : GoodList (max_element_loop t0 rest).shell_list := hgood _ hmaxmem
  have hU0s : (set_insert_range [] (max_element_loop t0 rest).shell_list).Sorted (· < ·) :=
    set_insert_range_sorted _ _ (by simp)
  have hU0m : ∀ x, x ∈ set_insert_range [] (max_element_loop t0 rest).shell_list
      ↔ x ∈ (max_element_loop t0 rest).shell_list := by
    intro x
    rw [mem_set_insert_range]
    simp
  have hinit : SearchInv (overlap_threshold_of (max_element_loop t0 rest).shell_list.length)
      (max_element_loop t0 rest).shell_list (tasks.drop task_begin) 0 19
      { tasks := t0 :: rest, cached_task_ends := fun _ => none,
        cur_partition_pthresh_idx := none } := by
    refine ⟨by omega, by rw [hdrop], ⟨rfl, rfl⟩, fun h => by omega⟩
  obtain ⟨it, s1, hloop, hinv1, hall1, hnone1⟩ :=
    partition_point_loop_spec nbf_threshold
      (overlap_threshold_of (max_element_loop t0 rest).shell_list.length) nbf_subset
      (max_element_loop t0 rest).shell_list
      (set_insert_range [] (max_element_loop t0 rest).shell_list) (tasks.drop task_begin)
      hM0 hU0s hU0m (hpos _) (hmono _) hgood 19 0 19 _ (le_refl _) hinit
  obtain ⟨hle, hperm1, hcur1, hF1⟩ := hinv1
  -- the entry that is selected after the search is valid
  have hentry : CacheEntry (overlap_threshold_of (max_element_loop t0 rest).shell_list.length)
      (max_element_loop t0 rest).shell_list s1 (if it = 19 then 0 else 18 - it) := by
    by_cases h19 : it = 19
    · simp only [h19, if_true]
      cases hc : s1.cur_partition_pthresh_idx with
      | none =>
        rw [hc] at hcur1
        omega
      | some c =>
        rw [hc] at hcur1
        have hc0 : c = 0 := by omega
        rw [hc0] at hcur1
        exact hcur1.2
    · simp only [h19, if_false]
      have := hF1 (by omega)
      simpa using this
  have hentry2 := hentry
  obtain ⟨te, U, A, B, hcache, hts, hte, hA, hB, hUs, hUm⟩ := hentry
  subst hte
  obtain ⟨A1, B1, hperm2, hA1, hB1, hpr, _⟩ :=
    partition_range_core (fun t : XCTask => list_subset U t.shell_list) s1.tasks A B []
      (by simp [hts]) s1.tasks.length (Or.inl (by simp [hts]))
  refine ⟨if it = 19 then 0 else 18 - it, U, A, A1, B1, ?_, ?_, ?_, ?_, hA, ?_, ?_, ?_, hA1, hB1,
    ?_, ?_⟩
  · unfold generate_dev_batch
    simp only [hdrop, hloop, hcache, hpr, List.append_nil, List.append_assoc]
  · refine List.Perm.trans ?_ hperm1
    rw [hts, List.append_assoc]
    exact List.Perm.append_left A hperm2
  · split <;> omega
  · exact CacheEntry_union_at hentry2 hperm1 hcache
  · intro t ht
    exact hB t (hperm2.mem_iff.1 ht)
  · intro t ht x hx
    exact (hUm x).2 (Or.inr ⟨t, ht, hx⟩)
  · intro x hx
    exact (hUm x).2 (Or.inl hx)
  · intro hall
    have := hall1 hall rfl
    simp [this]
  · intro hnone
    have := hnone1 hnone
    simp [this]

theorem overlap_threshold_exact_pos (n i : Nat) : 1 ≤ overlap_threshold_exact n i := by
  unfold overlap_threshold_exact
  omega

theorem overlap_threshold_exact_mono (n i j : Nat) (h : i ≤ j) :
    overlap_threshold_exact n i ≤ overlap_threshold_exact n j := by
  unfold overlap_threshold_exact
  have h1 : n * (i + 1) / 20 ≤ n * (j + 1) / 20 :=
    Nat.div_le_div_right (Nat.mul_le_mul_left n (by omega))
  omega

/-! ### Claims about `generate_dev_batch` -/

/-- C1: for every non-empty task range whose tasks have sorted, duplicate-free
shell lists (of fewer than `2^32` entries), and for every table of overlap
thresholds that are at least one and do not decrease with the index,
`generate_dev_batch` returns a batch, and every task in its range
`[task_begin, task_end)` of the rearranged task vector has all its shells in the
returned union `shell_list`. -/
theorem generate_dev_batch_shell_lists_contained (nbf_threshold : Nat)
    (overlap_threshold_of : Nat → Nat → Nat) (nbf_subset : List Int → Nat)
    (tasks : List XCTask) (task_begin : Nat)
    (hne : task_begin < tasks.length)
    (hsorted : ∀ t ∈ tasks.drop task_begin,
      t.shell_list.Sorted (· < ·) ∧ t.shell_list.length < 2 ^ 32)
    (hpos : ∀ n i, 1 ≤ overlap_threshold_of n i)
    (hmono : ∀ n i j, i ≤ j → overlap_threshold_of n i ≤ overlap_threshold_of n j) :
    ∃ batch tasks1,
      generate_dev_batch nbf_threshold overlap_threshold_of nbf_subset tasks task_begin
        = some (batch, tasks1) ∧
      ∀ t ∈ (tasks1.take batch.task_end).drop batch.task_begin,
        ∀ x ∈ t.shell_list, x ∈ batch.shell_list := by
  obtain ⟨t0, rest, hdrop⟩ : ∃ t0 rest, tasks.drop task_begin = t0 :: rest := by
    cases h : tasks.drop task_begin with
    | nil =>
      have := congrArg List.length h
      simp only [List.length_drop, List.length_nil] at this
      omega
    | cons t0 rest => exact ⟨t0, rest, rfl⟩
  obtain ⟨idxp, U, A, A1, B1, hgen, _, _, _, _, _, hAU, _, hA1, _, _, _⟩ :=
    generate_dev_batch_spec nbf_threshold overlap_threshold_of nbf_subset tasks task_begin
      t0 rest hdrop hsorted hpos hmono
  refine ⟨_, _, hgen, ?_⟩
  have hlen : (tasks.take task_begin).length = task_begin := by
    rw [List.length_take]
    omega
  have hrange : ((tasks.take task_begin ++ (A ++ A1 ++ B1)).take
      (task_begin + (A.length + A1.length))).drop task_begin = A ++ A1 := by
    have h1 : task_begin + (A.length + A1.length)
        = (tasks.take task_begin ++ (A ++ A1)).length := by
      simp only [List.length_append, hlen]
    rw [h1, ← List.append_assoc (tasks.take task_begin) (A ++ A1) B1, List.take_left' rfl]
    exact List.drop_left' hlen
  simp only [hrange]
  intro t ht x hx
  rcases List.mem_append.1 ht with h | h
  · exact hAU t h x hx
  · exact list_subset_mem U t.shell_list (hA1 t h) x hx

/-- Witness for C1: a range of three tasks, one shell function per shell,
`nbf_threshold = 4`. -/
theorem generate_dev_batch_shell_lists_contained_witness :
    ∃ batch tasks1,
      generate_dev_batch 4 overlap_threshold_exact (fun l => l.length)
          [⟨3, [0, 1, 2]⟩, ⟨2, [0, 3]⟩, ⟨1, [7]⟩] 0 = some (batch, tasks1) ∧
      ∀ t ∈ (tasks1.take batch.task_end).drop batch.task_begin,
        ∀ x ∈ t.shell_list, x ∈ batch.shell_list :=
  generate_dev_batch_shell_lists_contained 4 overlap_threshold_exact (fun l => l.length)
    [⟨3, [0, 1, 2]⟩, ⟨2, [0, 3]⟩, ⟨1, [7]⟩] 0 (by decide) (by decide)
    overlap_threshold_exact_pos overlap_threshold_exact_mono

/-- C2, as stated, fails: for the two tasks with shell lists `[0,1,2]` and
`[0,1,3]`, one function per shell and `nbf_threshold = 4`, the returned union is
`[0,1,2,3]`: its function count `4` is not below the threshold and it is not the
shell list `[0,1,2]` of the task with the largest `nbe`.  Every overlap
threshold admits the second task, and the partitioner has no fallback to the
largest task alone. -/
theorem generate_dev_batch_union_not_within_budget :
    ∃ batch tasks1,
      generate_dev_batch 4 overlap_threshold_exact (fun l => l.length)
          [⟨3, [0, 1, 2]⟩, ⟨3, [0, 1, 3]⟩] 0 = some (batch, tasks1) ∧
      ¬ (batch.shell_list.length < 4 ∨ batch.shell_list = [0, 1, 2]) :=
  ⟨⟨0, 2, [0, 1, 2, 3]⟩, [⟨3, [0, 1, 2]⟩, ⟨3, [0, 1, 3]⟩], by decide, by decide⟩

/-- C2 (amended): for every non-empty task range whose tasks have sorted,
duplicate-free shell lists, every `nbf_threshold` and every table of overlap
thresholds that are at least one and do not decrease with the index,
`generate_dev_batch` returns a batch, and with `max_task` the task of largest
`nbe` and `union_at idx` the union of its shells with those of the tasks that
pass the overlap test at index `idx`: if `nbf(union_at idx) < nbf_threshold` at
every index, the returned union is `union_at 0` (the loosest threshold) and its
function count is below `nbf_threshold`; if `nbf(union_at idx) ≥ nbf_threshold`
at every index, the returned union is `union_at 18` (the strictest threshold),
which is in general larger than the shell list of `max_task`. -/
theorem generate_dev_batch_union_budget (nbf_threshold : Nat)
    (overlap_threshold_of : Nat → Nat → Nat) (nbf_subset : List Int → Nat)
    (tasks : List XCTask) (task_begin : Nat)
    (hne : task_begin < tasks.length)
    (hsorted : ∀ t ∈ tasks.drop task_begin,
      t.shell_list.Sorted (· < ·) ∧ t.shell_list.length < 2 ^ 32)
    (hpos : ∀ n i, 1 ≤ overlap_threshold_of n i)
    (hmono : ∀ n i j, i ≤ j → overlap_threshold_of n i ≤ overlap_threshold_of n j) :
    ∃ batch tasks1 max_task,
      generate_dev_batch nbf_threshold overlap_threshold_of nbf_subset tasks task_begin
        = some (batch, tasks1) ∧
      max_task ∈ tasks.drop task_begin ∧
      (∀ t ∈ tasks.drop task_begin, t.nbe ≤ max_task.nbe) ∧
      ((∀ idx, idx ≤ 18 →
          nbf_subset (union_at (overlap_threshold_of max_task.shell_list.length)
            max_task.shell_list (tasks.drop task_begin) idx) < nbf_threshold) →
        batch.shell_list = union_at (overlap_threshold_of max_task.shell_list.length)
            max_task.shell_list (tasks.drop task_begin) 0 ∧
        nbf_subset batch.shell_list < nbf_threshold) ∧
      ((∀ idx, idx ≤ 18 →
          nbf_threshold ≤ nbf_subset (union_at (overlap_threshold_of max_task.shell_list.length)
            max_task.shell_list (tasks.drop task_begin) idx)) →
        batch.shell_list = union_at (overlap_threshold_of max_task.shell_list.length)
            max_task.shell_list (tasks.drop task_begin) 18) := by
  obtain ⟨t0, rest, hdrop⟩ : ∃ t0 rest, tasks.drop task_begin = t0 :: rest := by
    cases h : tasks.drop task_begin with
    | nil =>
      have := congrArg List.length h
      simp only [List.length_drop, List.length_nil] at this
      omega
    | cons t0 rest => exact ⟨t0, rest, rfl⟩
  obtain ⟨idxp, U, A, A1, B1, hgen, _, _, hU, _, _, _, _, _, _, hall, hnone⟩ :=
    generate_dev_batch_spec nbf_threshold overlap_threshold_of nbf_subset tasks task_begin
      t0 rest hdrop hsorted hpos hmono
  refine ⟨_, _, max_element_loop t0 rest, hgen, ?_, ?_, ?_, ?_⟩
  · rw [hdrop]
    exact max_element_loop_mem rest t0
  · rw [hdrop]
    exact max_element_loop_ge rest t0
  · intro h
    have h0 := hall h
    subst h0
    exact ⟨hU, by rw [hU]; exact h 0 (by omega)⟩
  · intro h
    have h18 := hnone h
    subst h18
    exact hU

/-- Witness for C2 (amended): three tasks, one function per shell,
`nbf_threshold = 100`. -/
theorem generate_dev_batch_union_budget_witness :
    ∃ batch tasks1 max_task,
      generate_dev_batch 100 overlap_threshold_exact (fun l => l.length)
          [⟨3, [0, 1, 2]⟩, ⟨2, [0, 3]⟩, ⟨1, [7]⟩] 0 = some (batch, tasks1) ∧
      max_task ∈ ([⟨3, [0, 1, 2]⟩, ⟨2, [0, 3]⟩, ⟨1, [7]⟩] : List XCTask).drop 0 ∧
      (∀ t ∈ ([⟨3, [0, 1, 2]⟩, ⟨2, [0, 3]⟩, ⟨1, [7]⟩] : List XCTask).drop 0,
        t.nbe ≤ max_task.nbe) ∧
      ((∀ idx, idx ≤ 18 →
          (fun l : List Int => l.length)
            (union_at (overlap_threshold_exact max_task.shell_list.length)
              max_task.shell_list
              (([⟨3, [0, 1, 2]⟩, ⟨2, [0, 3]⟩, ⟨1, [7]⟩] : List XCTask).drop 0) idx) < 100) →
        batch.shell_list = union_at (overlap_threshold_exact max_task.shell_list.length)
            max_task.shell_list
            (([⟨3, [0, 1, 2]⟩, ⟨2, [0, 3]⟩, ⟨1, [7]⟩] : List XCTask).drop 0) 0 ∧
        (fun l : List Int => l.length) batch.shell_list < 100) ∧
      ((∀ idx, idx ≤ 18 →
          100 ≤ (fun l : List Int => l.length)
            (union_at (overlap_threshold_exact max_task.shell_list.length)
              max_task.shell_list
              (([⟨3, [0, 1, 2]⟩, ⟨2, [0, 3]⟩, ⟨1, [7]⟩] : List XCTask).drop 0) idx)) →
        batch.shell_list = union_at (overlap_threshold_exact max_task.shell_list.length)
            max_task.shell_list
            (([⟨3, [0, 1, 2]⟩, ⟨2, [0, 3]⟩, ⟨1, [7]⟩] : List XCTask).drop 0) 18) :=
  generate_dev_batch_union_budget 100 overlap_threshold_exact (fun l => l.length)
    [⟨3, [0, 1, 2]⟩, ⟨2, [0, 3]⟩, ⟨1, [7]⟩] 0 (by decide) (by decide)
    overlap_threshold_exact_pos overlap_threshold_exact_mono

/-- On the range of the witness every union fits a budget of 100 functions, and
the batch is the one of the loosest threshold. -/
theorem generate_dev_batch_all_unions_fit :
    (∀ idx, idx ≤ 18 →
      (union_at (overlap_threshold_exact 3) [0, 1, 2]
        [⟨3, [0, 1, 2]⟩, ⟨2, [0, 3]⟩, ⟨1, [7]⟩] idx).length < 100) ∧
    generate_dev_batch 100 overlap_threshold_exact (fun l => l.length)
        [⟨3, [0, 1, 2]⟩, ⟨2, [0, 3]⟩, ⟨1, [7]⟩] 0
      = some (⟨0, 2, union_at (overlap_threshold_exact 3) [0, 1, 2]
                [⟨3, [0, 1, 2]⟩, ⟨2, [0, 3]⟩, ⟨1, [7]⟩] 0⟩,
              [⟨3, [0, 1, 2]⟩, ⟨2, [0, 3]⟩, ⟨1, [7]⟩]) := by
  decide

/-- The search returns the first threshold index at which the union reaches
`nbf_threshold`, not the last at which it stays below: for the shell lists
`[0,1,2]` and `[0,3]` and `nbf_threshold = 4` the union at index 13 is `[0,1,2]`
(three functions), yet the batch carries the union `[0,1,2,3]` of index 12. -/
theorem generate_dev_batch_selects_first_failing_index :
    (union_at (overlap_threshold_exact 3) [0, 1, 2]
        [⟨3, [0, 1, 2]⟩, ⟨2, [0, 3]⟩] 13).length < 4 ∧
    generate_dev_batch 4 overlap_threshold_exact (fun l => l.length)
        [⟨3, [0, 1, 2]⟩, ⟨2, [0, 3]⟩] 0
      = some (⟨0, 2, [0, 1, 2, 3]⟩, [⟨3, [0, 1, 2]⟩, ⟨2, [0, 3]⟩]) := by
  decide

/-! ### The producer/worker pipeline -/

theorem worker_run_inv (device_ok : dev_ex_task → Bool) (s : PipelineState)
    (h : s.produced = s.executed ++ s.dev_tasks) :
    (worker_run device_ok s).produced
      = (worker_run device_ok s).executed ++ (worker_run device_ok s).dev_tasks := by
  unfold worker_run
  cases hq : s.dev_tasks with
  | nil => simpa [hq] using h
  | cons b q => simpa [hq] using h

theorem worker_finish_inv (device_ok : dev_ex_task → Bool) (s : PipelineState)
    (h : s.produced = s.executed ++ s.dev_tasks) :
    (worker_finish device_ok s).produced
      = (worker_finish device_ok s).executed ++ (worker_finish device_ok s).dev_tasks := by
  unfold worker_finish
  split
  · exact worker_run_inv device_ok s h
  · exact h

theorem drain_queue_returned (device_ok : dev_ex_task → Bool) :
    ∀ (q : List dev_ex_task) (s r : PipelineState), s.dev_tasks = q →
      s.produced = s.executed ++ q → drain_queue device_ok q s = Outcome.returned r →
      r.executed = r.produced ∧ r.dev_tasks = [] := by
  intro q
  induction q with
  | nil =>
    intro s r hq h hr
    simp only [drain_queue, Outcome.returned.injEq] at hr
    subst hr
    exact ⟨by simpa using h.symm, hq⟩
  | cons b q ih =>
    intro s r _ h hr
    rw [drain_queue] at hr
    by_cases hok : device_ok b = true
    · simp only [hok, if_true] at hr
      exact ih _ r rfl (by simp [h]) hr
    · simp only [hok] at hr
      exact Outcome.noConfusion hr

theorem finish_pipeline_returned (device_ok : dev_ex_task → Bool) (s r : PipelineState)
    (h : s.produced = s.executed ++ s.dev_tasks)
    (hr : finish_pipeline device_ok s = Outcome.returned r) :
    r.executed = r.produced ∧ r.dev_tasks = [] := by
  unfold finish_pipeline at hr
  by_cases hv : s.dev_future = Future.invalid
  · simp only [hv, if_true] at hr
    exact drain_queue_returned device_ok _ s r rfl h hr
  · simp only [hv, if_false] at hr
    exact drain_queue_returned device_ok _ _ r rfl (worker_finish_inv device_ok s h) hr

theorem launch_or_poll_inv (device_ok : dev_ex_task → Bool) (ready : Nat → Bool)
    (s s1 : PipelineState) (h : s.produced = s.executed ++ s.dev_tasks)
    (hs : launch_or_poll device_ok ready s = Except.ok s1) :
    s1.produced = s1.executed ++ s1.dev_tasks := by
  unfold launch_or_poll at hs
  split at hs
  · have := Except.ok.inj hs
    subst this
    exact h
  · split at hs
    · simp only at hs
      split at hs
      · exact Except.noConfusion hs
      · have := Except.ok.inj hs
        subst this
        exact worker_finish_inv device_ok s h
    · have := Except.ok.inj hs
      subst this
      exact h

theorem worker_may_run_inv (device_ok : dev_ex_task → Bool) (early : Nat → Bool)
    (s : PipelineState) (h : s.produced = s.executed ++ s.dev_tasks) :
    (worker_may_run device_ok early s).produced
      = (worker_may_run device_ok early s).executed
          ++ (worker_may_run device_ok early s).dev_tasks := by
  unfold worker_may_run
  split
  · exact worker_finish_inv device_ok s h
  · exact h

theorem advance_task_begin_inv (s s1 : PipelineState)
    (h : s.produced = s.executed ++ s.dev_tasks) (hs : advance_task_begin s = some s1) :
    s1.produced = s1.executed ++ s1.dev_tasks := by
  unfold advance_task_begin at hs
  split at hs
  · exact Option.noConfusion hs
  · have := Option.some.inj hs
    subst this
    exact h

theorem producer_loop_returned (overlap_threshold_of : Nat → Nat → Nat)
    (nbf_subset : List Int → Nat) (device_ok : dev_ex_task → Bool) (ready early : Nat → Bool) :
    ∀ (fuel : Nat) (s r : PipelineState), s.produced = s.executed ++ s.dev_tasks →
      producer_loop overlap_threshold_of nbf_subset device_ok ready early fuel s
        = Outcome.returned r →
      r.executed = r.produced ∧ r.dev_tasks = [] := by
  intro fuel
  induction fuel with
  | zero =>
    intro s r _ hr
    simp only [producer_loop] at hr
    exact Outcome.noConfusion hr
  | succ fuel ih =>
    intro s r h hr
    rw [producer_loop] at hr
    by_cases hend : s.task_begin = s.tasks.length
    · simp only [hend, if_true] at hr
      exact finish_pipeline_returned device_ok s r h hr
    · simp only [hend, if_false] at hr
      cases hg : generate_dev_batch 8000 overlap_threshold_of nbf_subset s.tasks s.task_begin with
      | none =>
        simp only [hg] at hr
        exact Outcome.noConfusion hr
      | some bt =>
        obtain ⟨batch, tasks1⟩ := bt
        simp only [hg] at hr
        have h1 : (emplace_batch s batch tasks1).produced
            = (emplace_batch s batch tasks1).executed ++ (emplace_batch s batch tasks1).dev_tasks := by
          simp only [emplace_batch]
          rw [h, List.append_assoc]
        cases hl : launch_or_poll device_ok ready (emplace_batch s batch tasks1) with
        | error se =>
          simp only [hl] at hr
          exact Outcome.noConfusion hr
        | ok s1 =>
          simp only [hl] at hr
          have h2 := launch_or_poll_inv device_ok ready _ s1 h1 hl
          have h3 := worker_may_run_inv device_ok early s1 h2
          cases ha : advance_task_begin (worker_may_run device_ok early s1) with
          | none =>
            simp only [ha] at hr
            exact Outcome.noConfusion hr
          | some s2 =>
            simp only [ha] at hr
            exact ih s2 r (advance_task_begin_inv _ s2 h3 ha) hr

/-- C9: for every task range, every pattern of future readiness (`ready`) and
every timing of the worker (`early`), and whether or not executions fail, when
`process_batches_cuda_replicated_density_shellbatched_p` returns normally the
batches that were executed are exactly the batches `generate_dev_batch`
produced, each once and in the order in which they were enqueued, and the
queue is empty. -/
theorem pipeline_executes_every_batch_once_in_order
    (overlap_threshold_of : Nat → Nat → Nat) (nbf_subset : List Int → Nat)
    (device_ok : dev_ex_task → Bool) (ready early : Nat → Bool) (fuel : Nat)
    (tasks : List XCTask) (r : PipelineState)
    (hr : process_batches_cuda_replicated_density_shellbatched_p overlap_threshold_of
      nbf_subset device_ok ready early fuel tasks = Outcome.returned r) :
    r.executed = r.produced ∧ r.dev_tasks = [] :=
  producer_loop_returned overlap_threshold_of nbf_subset device_ok ready early fuel _ r rfl hr

/-- Witness for C9: four tasks that make three batches, no poll ever ready, all
executions successful; the call returns with the three batches executed in
order and an empty queue. -/
theorem pipeline_executes_every_batch_once_in_order_witness :
    process_batches_cuda_replicated_density_shellbatched_p overlap_threshold_exact
        (fun l => l.length) (fun _ => true) (fun _ => false) (fun _ => false) 10
        [⟨3, [0, 1, 2]⟩, ⟨2, [0, 3]⟩, ⟨1, [7]⟩, ⟨1, [9]⟩]
      = Outcome.returned
          { tasks := [⟨3, [0, 1, 2]⟩, ⟨2, [0, 3]⟩, ⟨1, [7]⟩, ⟨1, [9]⟩], task_begin := 4,
            dev_tasks := [], dev_future := Future.done true,
            executed := [⟨0, 2, [0, 1, 2, 3]⟩, ⟨2, 3, [7]⟩, ⟨3, 4, [9]⟩],
            produced := [⟨0, 2, [0, 1, 2, 3]⟩, ⟨2, 3, [7]⟩, ⟨3, 4, [9]⟩], iter := 3 } ∧
    ([⟨0, 2, [0, 1, 2, 3]⟩, ⟨2, 3, [7]⟩, ⟨3, 4, [9]⟩] : List dev_ex_task)
      = [⟨0, 2, [0, 1, 2, 3]⟩, ⟨2, 3, [7]⟩, ⟨3, 4, [9]⟩] ∧
    ([] : List dev_ex_task) = [] :=
  ⟨by decide,
   pipeline_executes_every_batch_once_in_order overlap_threshold_exact (fun l => l.length)
    (fun _ => true) (fun _ => false) (fun _ => false) 10
    [⟨3, [0, 1, 2]⟩, ⟨2, [0, 3]⟩, ⟨1, [7]⟩, ⟨1, [9]⟩]
    { tasks := [⟨3, [0, 1, 2]⟩, ⟨2, [0, 3]⟩, ⟨1, [7]⟩, ⟨1, [9]⟩], task_begin := 4,
      dev_tasks := [], dev_future := Future.done true,
      executed := [⟨0, 2, [0, 1, 2, 3]⟩, ⟨2, 3, [7]⟩, ⟨3, 4, [9]⟩],
      produced := [⟨0, 2, [0, 1, 2, 3]⟩, ⟨2, 3, [7]⟩, ⟨3, 4, [9]⟩], iter := 3 }
    (by decide)⟩

/-- C10 fails on the code: when the execution of the only batch fails on the
worker, the producer loop ends without polling the future, `dev_future.wait()`
does not rethrow, and the call returns normally. -/
theorem pipeline_swallows_failure_of_last_future :
    process_batches_cuda_replicated_density_shellbatched_p overlap_threshold_exact
        (fun l => l.length) (fun _ => false) (fun _ => false) (fun _ => false) 10
        [⟨3, [0, 1, 2]⟩]
      = Outcome.returned
          { tasks := [⟨3, [0, 1, 2]⟩], task_begin := 1, dev_tasks := [],
            dev_future := Future.done false, executed := [⟨0, 1, [0, 1, 2]⟩],
            produced := [⟨0, 1, [0, 1, 2]⟩], iter := 1 } := by
  decide

/-- With three batches of which the first fails on the worker and no poll finds
the future ready, the two batches still in the queue are executed afterwards,
by the drain loop, and the call returns normally. -/
theorem pipeline_runs_queue_after_failure :
    process_batches_cuda_replicated_density_shellbatched_p overlap_threshold_exact
        (fun l => l.length) (fun b => b.task_begin != 0) (fun _ => false) (fun _ => false) 10
        [⟨3, [0, 1, 2]⟩, ⟨2, [0, 3]⟩, ⟨1, [7]⟩, ⟨1, [9]⟩]
      = Outcome.returned
          { tasks := [⟨3, [0, 1, 2]⟩, ⟨2, [0, 3]⟩, ⟨1, [7]⟩, ⟨1, [9]⟩], task_begin := 4,
            dev_tasks := [], dev_future := Future.done false,
            executed := [⟨0, 2, [0, 1, 2, 3]⟩, ⟨2, 3, [7]⟩, ⟨3, 4, [9]⟩],
            produced := [⟨0, 2, [0, 1, 2, 3]⟩, ⟨2, 3, [7]⟩, ⟨3, 4, [9]⟩], iter := 3 } := by
  decide

/-- A failure that the master finds through `dev_future.get()` does reach the
caller: with the polls ready, the failure of the first batch leaves the
function in the second iteration, before the second batch is executed. -/
theorem pipeline_get_rethrows :
    process_batches_cuda_replicated_density_shellbatched_p overlap_threshold_exact
        (fun l => l.length) (fun _ => false) (fun _ => true) (fun _ => false) 10
        [⟨3, [0, 1, 2]⟩, ⟨1, [7]⟩]
      = Outcome.threw
          { tasks := [⟨3, [0, 1, 2]⟩, ⟨1, [7]⟩], task_begin := 1,
            dev_tasks := [⟨1, 2, [7]⟩], dev_future := Future.done false,
            executed := [⟨0, 1, [0, 1, 2]⟩],
            produced := [⟨0, 1, [0, 1, 2]⟩, ⟨1, 2, [7]⟩], iter := 1 } := by
  decide

end integrator.cuda

/-! ### EK screening: significant pairs are recorded -/

theorem ek_pair_step_mono (sig : Nat → Nat → Bool) (st : List Nat × List (Nat × Nat))
    (i j : Nat) (p : Nat × Nat) (hp : p ∈ st.2) : p ∈ (ek_pair_step sig st i j).2 := by
  unfold ek_pair_step
  split
  · exact List.mem_append_left _ hp
  · exact hp

theorem ek_pair_step_self (sig : Nat → Nat → Bool) (st : List Nat × List (Nat × Nat))
    (i j : Nat) (h : sig i j = true) : (i, j) ∈ (ek_pair_step sig st i j).2 := by
  unfold ek_pair_step
  simp [h]

theorem ek_inner_fold_mono (sig : Nat → Nat → Bool) (i : Nat) (p : Nat × Nat) :
    ∀ (l : List Nat) (st : List Nat × List (Nat × Nat)), p ∈ st.2 →
      p ∈ (l.foldl (fun st j => ek_pair_step sig st i j) st).2 := by
  intro l
  induction l with
  | nil => intro st h; exact h
  | cons j l ih =>
    intro st h
    exact ih _ (ek_pair_step_mono sig st i j p h)

theorem ek_inner_fold_mem (sig : Nat → Nat → Bool) (i j : Nat) (h : sig i j = true) :
    ∀ (l : List Nat) (st : List Nat × List (Nat × Nat)), j ∈ l →
      (i, j) ∈ (l.foldl (fun st j => ek_pair_step sig st i j) st).2 := by
  intro l
  induction l with
  | nil => intro st hj; simp at hj
  | cons x l ih =>
    intro st hj
    rcases List.mem_cons.1 hj with hx | hx
    · subst hx
      rw [List.foldl_cons]
      exact ek_inner_fold_mono sig i _ l _ (ek_pair_step_self sig st i j h)
    · exact ih _ hx

theorem ek_outer_fold_mono (sig : Nat → Nat → Bool) (p : Nat × Nat) :
    ∀ (l : List Nat) (st : List Nat × List (Nat × Nat)), p ∈ st.2 →
      p ∈ (l.foldl (fun st i => ek_inner_loop sig i st) st).2 := by
  intro l
  induction l with
  | nil => intro st h; exact h
  | cons i l ih =>
    intro st h
    exact ih _ (ek_inner_fold_mono sig i p _ st h)

theorem ek_outer_fold_mem (sig : Nat → Nat → Bool) (i j : Nat) (hji : j ≤ i)
    (h : sig i j = true) :
    ∀ (l : List Nat) (st : List Nat × List (Nat × Nat)), i ∈ l →
      (i, j) ∈ (l.foldl (fun st i => ek_inner_loop sig i st) st).2 := by
  intro l
  induction l with
  | nil => intro st hi; simp at hi
  | cons x l ih =>
    intro st hi
    rcases List.mem_cons.1 hi with hx | hx
    · subst hx
      rw [List.foldl_cons]
      apply ek_outer_fold_mono sig (i, j) l
      exact ek_inner_fold_mem sig i j h (List.range (i + 1)) st (List.mem_range.2 (by omega))
    · exact ih _ hx

theorem ek_pair_loop_mem (sig : Nat → Nat → Bool) (nshells i j : Nat) (hji : j ≤ i)
    (hi : i < nshells) (h : sig i j = true) (st : List Nat × List (Nat × Nat)) :
    (i, j) ∈ (ek_pair_loop sig nshells st).2 :=
  ek_outer_fold_mem sig i j hji h _ st (List.mem_range.2 hi)

theorem ek_select_task_mem {R : Type} (ops : DoubleOps R) (shell_size : Nat → Nat)
    (nshells : Nat) (V_shell_max : Nat → R) (ldv : Nat) (eps_E eps_K : R)
    (max_F_approx_bfn : Nat → R) (max_bf_sum : R) (cou : CouScreening) (i j : Nat)
    (hji : j ≤ i) (hi : i < nshells)
    (h : significant ops
      (fun s => (max_F_shells ops shell_size nshells max_F_approx_bfn).getD s ops.zero)
      V_shell_max ldv eps_E eps_K max_bf_sum i j = true) :
    (i, j) ∈ (ek_select_task ops shell_size nshells V_shell_max ldv eps_E eps_K
      max_F_approx_bfn max_bf_sum cou).shell_pair_list :=
  ek_pair_loop_mem _ nshells i j hji hi h _

/-- C6: after the selection loop of `exx_ek_screening`, for every task `t` and
every shell pair `(i, j)` with `j ≤ i < nshells` such that
`F_i * F_j * V_ij > eps_E` or `max(F_i, F_j) * V_ij * max_bfn_sum > eps_K`
(`F` the shell-collapsed bound of task `t`, `V_ij = V_shell_max[i + j * ldv]`,
products and comparisons as the hardware computes them), the pair `(i, j)` is
in the `cou_screening.shell_pair_list` of task `t`. -/
theorem exx_ek_screening_keeps_significant_pairs {R : Type} (ops : DoubleOps R)
    (shell_size : Nat → Nat) (nbf nshells : Nat) (V_shell_max : Nat → R) (ldv : Nat)
    (eps_E eps_K : R) (task_approx_f : Nat → R) (task_max_bf_sum : Nat → R)
    (tasks : List CouScreening) (t : Nat) (ht : t < tasks.length) (i j : Nat)
    (hji : j ≤ i) (hi : i < nshells)
    (h : let F := fun s => (max_F_shells ops shell_size nshells
              (fun k => task_approx_f (t * nbf + k))).getD s ops.zero
         let V_ij := V_shell_max (i + j * ldv)
         ops.lt eps_E (ops.mul (ops.mul (F i) (F j)) V_ij) = true ∨
         ops.lt eps_K (ops.mul (ops.mul (ops.max (F i) (F j)) V_ij) (task_max_bf_sum t)) = true) :
    ∃ c, (exx_ek_select ops shell_size nbf nshells V_shell_max ldv eps_E eps_K
            task_approx_f task_max_bf_sum tasks)[t]? = some c ∧
      (i, j) ∈ c.shell_pair_list := by
  refine ⟨ek_select_task ops shell_size nshells V_shell_max ldv eps_E eps_K
      (fun k => task_approx_f (t * nbf + k)) (task_max_bf_sum t) (tasks.get ⟨t, ht⟩), ?_, ?_⟩
  · unfold exx_ek_select
    rw [List.getElem?_map, List.getElem?_enum]
    simp [List.getElem?_eq_getElem ht]
  · apply ek_select_task_mem ops shell_size nshells V_shell_max ldv eps_E eps_K _ _ _ i j hji hi
    unfold significant
    simp only [Bool.or_eq_true]
    rcases h with h | h
    · exact Or.inr h
    · exact Or.inl h

/-- Witness for C6: two shells of one function each, one task, all bounds equal
to one and both thresholds zero; the pair `(1, 0)` is significant and recorded. -/
theorem exx_ek_screening_keeps_significant_pairs_witness :
    ∃ c, (exx_ek_select intOps (fun _ => 1) 2 2 (fun _ => 1) 2 0 0 (fun _ => 1) (fun _ => 1)
            [⟨[], [], 0⟩])[0]? = some c ∧ (1, 0) ∈ c.shell_pair_list :=
  exx_ek_screening_keeps_significant_pairs intOps (fun _ => 1) 2 2 (fun _ => 1) 2 0 0
    (fun _ => 1) (fun _ => 1) [⟨[], [], 0⟩] 0 (by decide) 1 0 (by decide) (by decide)
    (by decide)

namespace detail

/-! ### Input validation of `eval_exx_` -/

/-- C7: `eval_exx_` raises an error whenever `m ≠ n`, `m ≠ nbf`, `ldp < nbf` or
`ldk < nbf`, and then leaves the world exactly as it found it, whatever the
collaborators would do (the task list has not been read, sorted or modified,
`K` has not been written, no reduction has been issued); when none of the four
conditions holds the checks raise nothing and the call is the body of lines
36-59. -/
theorem eval_exx_validation {W : Type} (c : EXXCollaborators W) (nbf m n ldp ldk : Int)
    (w : W) :
    ((m ≠ n ∨ m ≠ nbf ∨ ldp < nbf ∨ ldk < nbf) →
        ∃ msg, eval_exx_ c nbf m n ldp ldk w = (Except.error msg, w)) ∧
    (¬ (m ≠ n ∨ m ≠ nbf ∨ ldp < nbf ∨ ldk < nbf) →
        eval_exx_ c nbf m n ldp ldk w = eval_exx_body c w) := by
  unfold eval_exx_
  constructor
  · intro h
    by_cases h1 : m ≠ n
    · exact ⟨_, by rw [if_pos h1]; rfl⟩
    · by_cases h2 : m ≠ nbf
      · exact ⟨_, by rw [if_neg h1, if_pos h2]; rfl⟩
      · by_cases h3 : ldp < nbf
        · exact ⟨_, by rw [if_neg h1, if_neg h2, if_pos h3]; rfl⟩
        · have h4 : ldk < nbf := by
            rcases h with h | h | h | h
            · exact absurd h h1
            · exact absurd h h2
            · exact absurd h h3
            · exact h
          exact ⟨_, by rw [if_neg h1, if_neg h2, if_neg h3, if_pos h4]; rfl⟩
  · intro h
    have h1 : ¬ m ≠ n := fun h1 => h (Or.inl h1)
    have h2 : ¬ m ≠ nbf := fun h2 => h (Or.inr (Or.inl h2))
    have h3 : ¬ ldp < nbf := fun h3 => h (Or.inr (Or.inr (Or.inl h3)))
    have h4 : ¬ ldk < nbf := fun h4 => h (Or.inr (Or.inr (Or.inr h4)))
    rw [if_neg h1, if_neg h2, if_neg h3, if_neg h4]

/-- Witness for C7: with `nbf = 4`, a call with `ldk = 3` raises and records no
action, and a call with valid dimensions runs all five steps in order. -/
theorem eval_exx_validation_witness :
    (∃ msg, eval_exx_ recordingCollaborators 4 4 4 4 3 [] = (Except.error msg, [])) ∧
    eval_exx_ recordingCollaborators 4 4 4 4 4 []
      = (Except.ok (), [EXXEvent.tasks_read, EXXEvent.device_allocated, EXXEvent.local_work,
          EXXEvent.barrier, EXXEvent.allreduce]) :=
  ⟨(eval_exx_validation recordingCollaborators 4 4 4 4 3 []).1 (by decide),
   ((eval_exx_validation recordingCollaborators 4 4 4 4 4 []).2 (by decide)).trans rfl⟩

/-! ### What `eval_exc_vxc_` returns -/

/-- C8, as stated, fails: the integrated electron number cannot be read off the
value `eval_exc_vxc_` returns.  Two batch processors that agree on `EXC` and
`VXC` and differ in `N_el` give the same result. -/
theorem eval_exc_vxc_result_lacks_n_el :
    ¬ ∃ n_el_of : exc_vxc_type Int Unit → Int,
        ∀ (inst : Unit → BatchOutput Int Unit) (res : exc_vxc_type Int Unit),
          eval_exc_vxc_ inst inst 1 false () = Except.ok res → n_el_of res = (inst ()).n_el := by
  rintro ⟨f, hf⟩
  have h1 := hf (fun _ => ⟨(), 0, 1⟩) (0, ⟨1, 1, ()⟩) rfl
  have h2 := hf (fun _ => ⟨(), 0, 2⟩) (0, ⟨1, 1, ()⟩) rfl
  simp only at h1 h2
  omega

/-- C8 (amended): the value returned by the host integrator's `eval_exc_vxc_(P)`
is the pair of `EXC` and the `nbf × nbf` matrix `VXC` computed by the batch
processor (the instantiation for `n_deriv = 1` when the functional is a GGA,
for `n_deriv = 0` otherwise); `N_el` is computed and not returned. -/
theorem eval_exc_vxc_returns_exc_and_vxc {F D I : Type} (inst0 inst1 : I → BatchOutput F D)
    (nbf : Nat) (is_gga : Bool) (args : I) :
    eval_exc_vxc_ inst0 inst1 nbf is_gga args
      = Except.ok (((if is_gga then inst1 args else inst0 args)).exc,
          { rows := nbf, cols := nbf, data := ((if is_gga then inst1 args else inst0 args)).VXC }) := by
  cases is_gga <;> rfl

end detail

/-! ### The work-driver factory -/

/-- C16: `make_local_work_driver` reads the name only through its upper-cased
form (so it matches case-insensitively), returns a non-null work driver exactly
when the upper-cased name is recognised for the execution space (Host: DEFAULT
or REFERENCE; Device with a device backend compiled in: DEFAULT or SCHEME1, and
SCHEME1-MAGMA when MAGMA is compiled in), and raises an error for every other
name or execution space; it never returns null. -/
theorem make_local_work_driver_recognised (cfg : BuildConfig) (ex : ExecutionSpace)
    (name : String) :
    (∀ name1 : String, to_upper name1 = to_upper name →
        make_local_work_driver cfg ex name1 = make_local_work_driver cfg ex name) ∧
    ((∃ d, make_local_work_driver cfg ex name = Except.ok (some d)) ↔
        recognised_driver_name cfg ex (to_upper name)) ∧
    (¬ recognised_driver_name cfg ex (to_upper name) →
        ∃ msg, make_local_work_driver cfg ex name = Except.error msg) ∧
    make_local_work_driver cfg ex name ≠ Except.ok none := by
  refine ⟨?_, ?_, ?_, ?_⟩
  · intro name1 h
    unfold make_local_work_driver
    simp only [h]
  all_goals
    unfold make_local_work_driver
    try unfold recognised_driver_name
    generalize to_upper name = up
    cases ex with
    | Host =>
      by_cases h1 : up = "DEFAULT"
      · subst h1
        simp
      · by_cases h2 : up = "REFERENCE"
        · subst h2
          simp
        · simp [h1, h2]
    | Device =>
      cases hd : cfg.enable_device <;> cases hm : cfg.enable_magma <;>
        by_cases h1 : up = "DEFAULT" <;> by_cases h2 : up = "SCHEME1" <;>
        by_cases h3 : up = "SCHEME1-MAGMA" <;> simp_all
    | other v => simp

/-- Witness for C16: on a build with a device backend and without MAGMA,
`Scheme1` is read like `SCHEME1`, and `scheme1-magma` is rejected. -/
theorem make_local_work_driver_recognised_witness :
    make_local_work_driver ⟨true, false⟩ ExecutionSpace.Device "Scheme1"
        = make_local_work_driver ⟨true, false⟩ ExecutionSpace.Device "SCHEME1" ∧
    ∃ msg, make_local_work_driver ⟨true, false⟩ ExecutionSpace.Device "scheme1-magma"
        = Except.error msg :=
  ⟨(make_local_work_driver_recognised ⟨true, false⟩ ExecutionSpace.Device "SCHEME1").1
      "Scheme1" (by decide),
   (make_local_work_driver_recognised ⟨true, false⟩ ExecutionSpace.Device
      "scheme1-magma").2.2.1 (by unfold recognised_driver_name; decide)⟩

/-! ### `eval_exx_gmat` -/

theorem run_gmat_kernels_no_error (device_error : Nat → Bool)
    (h : ∀ k, device_error k = false) :
    ∀ (ks : List (Bool × GmatAction)) (k : Nat) (done : List GmatAction),
      (run_gmat_kernels device_error ks k done).1 = Except.ok () := by
  intro ks
  induction ks with
  | nil => intro k done; rfl
  | cons a ks ih =>
    intro k done
    obtain ⟨guard, act⟩ := a
    rw [run_gmat_kernels]
    cases guard with
    | true => simp only [if_true, h k, Bool.false_eq_true, if_false]; exact ih _ _
    | false => simp only [Bool.false_eq_true, if_false]; exact ih _ _

/-- C15, as stated, fails: with Cartesian shells and `max_l = 0`, valid data
and an initialised backend, `eval_exx_gmat` still raises when `check_error`
reports a device error after the first kernel launch. -/
theorem eval_exx_gmat_raises_on_device_error :
    ¬ ((∃ msg tr,
          eval_exx_gmat
            { enable_exx := true, data_cast_ok := true, backend_initialised := true,
              nshells := 1, ntasks := 1, shell_pure := fun _ => false, max_l := 0,
              device_error := fun _ => true } = (Except.error msg, tr)) ↔
        ((∃ i, i < 1 ∧ (fun _ : Nat => false) i = true) ∨ 0 > 2)) := by
  intro h
  have h1 := h.1 ⟨"device error",
    [GmatAction.zero_G 0, GmatAction.sync_blas_pool_with_master, GmatAction.launch_diag 0 0],
    rfl⟩
  rcases h1 with ⟨i, _, hi⟩ | h2
  · exact Bool.noConfusion hi
  · omega

/-- C15 (amended): with EXX compiled in, valid device data and an initialised
backend, and as long as no `check_error` call reports a device error,
`eval_exx_gmat` raises an error if and only if some shell `i < nshells` is pure
or `max_l > 2`; and whenever some shell is pure or `max_l > 2` it raises before
`G` is zeroed and before any kernel is launched, device errors or not. -/
theorem eval_exx_gmat_validation (inp : GmatInput) (hexx : inp.enable_exx = true)
    (hcast : inp.data_cast_ok = true) (hbackend : inp.backend_initialised = true) :
    (((∃ i, i < inp.nshells ∧ inp.shell_pure i = true) ∨ inp.max_l > 2) →
        ∃ msg, eval_exx_gmat inp = (Except.error msg, [])) ∧
    ((∀ k, inp.device_error k = false) →
        ((∃ msg tr, eval_exx_gmat inp = (Except.error msg, tr)) ↔
          ((∃ i, i < inp.nshells ∧ inp.shell_pure i = true) ∨ inp.max_l > 2))) := by
  have hany : (List.range inp.nshells).any inp.shell_pure = true ↔
      ∃ i, i < inp.nshells ∧ inp.shell_pure i = true := by
    simp [List.any_eq_true]
  have hinv : ((∃ i, i < inp.nshells ∧ inp.shell_pure i = true) ∨ inp.max_l > 2) →
      ∃ msg, eval_exx_gmat inp = (Except.error msg, []) := by
    intro h
    unfold eval_exx_gmat
    simp only [hexx, hcast, hbackend, Bool.not_true, Bool.false_eq_true, if_false]
    by_cases hp : (List.range inp.nshells).any inp.shell_pure = true
    · exact ⟨_, by rw [if_pos hp]⟩
    · have hl : inp.max_l > 2 := by
        rcases h with h | h
        · exact absurd (hany.2 h) hp
        · exact h
      exact ⟨_, by rw [if_neg hp, if_pos hl]⟩
  refine ⟨hinv, ?_⟩
  intro hdev
  constructor
  · rintro ⟨msg, tr, he⟩
    by_contra hn
    have hp : ¬ (List.range inp.nshells).any inp.shell_pure = true :=
      fun hp => hn (Or.inl (hany.1 hp))
    have hl : ¬ inp.max_l > 2 := fun hl => hn (Or.inr hl)
    have hok := run_gmat_kernels_no_error inp.device_error hdev (gmat_kernels inp.max_l) 0
      ((List.range inp.ntasks).map GmatAction.zero_G ++ [GmatAction.sync_blas_pool_with_master])
    unfold eval_exx_gmat at he
    simp only [hexx, hcast, hbackend, Bool.not_true, Bool.false_eq_true, if_false] at he
    rw [if_neg hp, if_neg hl] at he
    rw [he] at hok
    exact Except.noConfusion hok
  · intro h
    obtain ⟨msg, hm⟩ := hinv h
    exact ⟨msg, [], hm⟩

/-- Witness for C15 (amended): one task, two Cartesian shells, `max_l = 3`, no
device errors. -/
theorem eval_exx_gmat_validation_witness :
    (((∃ i, i < 2 ∧ (fun _ : Nat => false) i = true) ∨ 3 > 2) →
        ∃ msg, eval_exx_gmat
          { enable_exx := true, data_cast_ok := true, backend_initialised := true,
            nshells := 2, ntasks := 1, shell_pure := fun _ => false, max_l := 3,
            device_error := fun _ => false } = (Except.error msg, [])) ∧
    ((∀ k, (fun _ : Nat => false) k = false) →
        ((∃ msg tr, eval_exx_gmat
          { enable_exx := true, data_cast_ok := true, backend_initialised := true,
            nshells := 2, ntasks := 1, shell_pure := fun _ => false, max_l := 3,
            device_error := fun _ => false } = (Except.error msg, tr)) ↔
          ((∃ i, i < 2 ∧ (fun _ : Nat => false) i = true) ∨ 3 > 2))) :=
  eval_exx_gmat_validation
    { enable_exx := true, data_cast_ok := true, backend_initialised := true,
      nshells := 2, ntasks := 1, shell_pure := fun _ => false, max_l := 3,
      device_error := fun _ => false } rfl rfl rfl

namespace detail

/-! ### Missing validation in the host integrator -/

/-- C18 fails on the code: `eval_exc_vxc_` has no check of `P` (line 103 is a
`TODO`); with `nbf = 2` and a `3 × 2` matrix `P` it hands `P` to the batch
processor and returns its results. -/
theorem eval_exc_vxc_accepts_non_square :
    eval_exc_vxc_ (fun _ : Matrix Unit => (⟨(), 0, 0⟩ : BatchOutput Int Unit))
        (fun _ => ⟨(), 0, 0⟩) 2 false { rows := 3, cols := 2, data := () }
      = Except.ok ((0 : Int), { rows := 2, cols := 2, data := () }) := by
  rfl

/-- The call `eval_exc_vxc_( P )` never raises, whatever the dimensions of `P`:
the only error of the path, `MGGA NYI`, needs `n_deriv` outside `0, 1`. -/
theorem eval_exc_vxc_never_raises {F D : Type} (inst0 inst1 : Matrix D → BatchOutput F D)
    (nbf : Nat) (is_gga : Bool) (P : Matrix D) :
    ∃ res, eval_exc_vxc_ inst0 inst1 nbf is_gga P = Except.ok res := by
  cases is_gga <;> exact ⟨_, rfl⟩

end detail

/-! ### EK screening: the pair loop in closed form -/

theorem ek_inner_fold_eq (sig : Nat → Nat → Bool) (i : Nat) :
    ∀ (l : List Nat) (st : List Nat × List (Nat × Nat)),
      l.foldl (fun st j => ek_pair_step sig st i j) st
        = (((l.filter (fun j => sig i j)).map (fun j => (i, j))).foldl mark_pair st.1,
           st.2 ++ (l.filter (fun j => sig i j)).map (fun j => (i, j))) := by
  intro l
  induction l with
  | nil => intro st; simp
  | cons j l ih =>
    intro st
    rw [List.foldl_cons, ih]
    by_cases h : sig i j = true
    · simp [ek_pair_step, h, mark_pair]
    · simp [ek_pair_step, h]

theorem ek_outer_fold_eq (sig : Nat → Nat → Bool) :
    ∀ (l : List Nat) (st : List Nat × List (Nat × Nat)),
      l.foldl (fun st i => ek_inner_loop sig i st) st
        = (((l.flatMap fun i => (List.range (i + 1)).map fun j => (i, j)).filter
              (fun p => sig p.1 p.2)).foldl mark_pair st.1,
           st.2 ++ (l.flatMap fun i => (List.range (i + 1)).map fun j => (i, j)).filter
              (fun p => sig p.1 p.2)) := by
  intro l
  induction l with
  | nil => intro st; simp
  | cons i l ih =>
    intro st
    rw [List.foldl_cons, ih]
    unfold ek_inner_loop
    rw [ek_inner_fold_eq]
    simp only [List.flatMap_cons, List.filter_append, List.foldl_append, List.append_assoc,
      List.filter_map]
    rfl

/-- The pair loop of lines 192-210 in closed form: the significant pairs are
appended in visiting order, and the bitmap receives the bits of their shells. -/
theorem ek_pair_loop_eq (sig : Nat → Nat → Bool) (nshells : Nat)
    (st : List Nat × List (Nat × Nat)) :
    ek_pair_loop sig nshells st
      = (((all_shell_pairs nshells).filter (fun p => sig p.1 p.2)).foldl mark_pair st.1,
         st.2 ++ (all_shell_pairs nshells).filter (fun p => sig p.1 p.2)) :=
  ek_outer_fold_eq sig (List.range nshells) st

theorem mem_all_shell_pairs (nshells : Nat) (p : Nat × Nat) :
    p ∈ all_shell_pairs nshells ↔ p.2 ≤ p.1 ∧ p.1 < nshells := by
  unfold all_shell_pairs
  simp only [List.mem_flatMap, List.mem_range, List.mem_map]
  constructor
  · rintro ⟨i, hi, j, hj, rfl⟩
    exact ⟨by simp only; omega, hi⟩
  · rintro ⟨h1, h2⟩
    exact ⟨p.1, h2, p.2, by omega, rfl⟩

theorem all_shell_pairs_sorted (nshells : Nat) :
    (all_shell_pairs nshells).Pairwise pair_lt := by
  unfold all_shell_pairs
  rw [List.pairwise_flatMap]
  constructor
  · intro i _
    rw [List.pairwise_map]
    exact (List.pairwise_lt_range (i + 1)).imp (fun h => Or.inr ⟨rfl, h⟩)
  · refine (List.pairwise_lt_range nshells).imp ?_
    intro a b hab x hx y hy
    simp only [List.mem_map, List.mem_range] at hx hy
    obtain ⟨_, _, rfl⟩ := hx
    obtain ⟨_, _, rfl⟩ := hy
    exact Or.inl hab

theorem pair_lt_irrefl (p : Nat × Nat) : ¬ pair_lt p p := by
  unfold pair_lt
  omega

theorem ek_select_task_pair_list {R : Type} (ops : DoubleOps R) (shell_size : Nat → Nat)
    (nshells : Nat) (V_shell_max : Nat → R) (ldv : Nat) (eps_E eps_K : R)
    (max_F_approx_bfn : Nat → R) (max_bf_sum : R) (cou : CouScreening) :
    (ek_select_task ops shell_size nshells V_shell_max ldv eps_E eps_K
      max_F_approx_bfn max_bf_sum cou).shell_pair_list
      = cou.shell_pair_list ++ (all_shell_pairs nshells).filter (fun p =>
          significant ops
            (fun s => (max_F_shells ops shell_size nshells max_F_approx_bfn).getD s ops.zero)
            V_shell_max ldv eps_E eps_K max_bf_sum p.1 p.2) := by
  unfold ek_select_task
  simp only [ek_pair_loop_eq]

theorem exx_ek_select_getElem {R : Type} (ops : DoubleOps R) (shell_size : Nat → Nat)
    (nbf nshells : Nat) (V_shell_max : Nat → R) (ldv : Nat) (eps_E eps_K : R)
    (task_approx_f : Nat → R) (task_max_bf_sum : Nat → R) (tasks : List CouScreening)
    (t : Nat) (ht : t < tasks.length) :
    (exx_ek_select ops shell_size nbf nshells V_shell_max ldv eps_E eps_K
        task_approx_f task_max_bf_sum tasks)[t]?
      = some (ek_select_task ops shell_size nshells V_shell_max ldv eps_E eps_K
          (fun k => task_approx_f (t * nbf + k)) (task_max_bf_sum t) (tasks.get ⟨t, ht⟩)) := by
  unfold exx_ek_select
  rw [List.getElem?_map, List.getElem?_enum]
  simp [List.getElem?_eq_getElem ht]

/-- C20: for a task whose `shell_pair_list` is empty before the call, after the
selection loop of `exx_ek_screening` every entry `(i, j)` of its
`shell_pair_list` has `j ≤ i < nshells` and satisfies the significance test of
line 200, no pair occurs twice, and the entries are in strictly increasing
`i`-major order (ascending `i`, then ascending `j`). -/
theorem exx_ek_screening_pair_list_ordered {R : Type} (ops : DoubleOps R)
    (shell_size : Nat → Nat) (nbf nshells : Nat) (V_shell_max : Nat → R) (ldv : Nat)
    (eps_E eps_K : R) (task_approx_f : Nat → R) (task_max_bf_sum : Nat → R)
    (tasks : List CouScreening) (t : Nat) (ht : t < tasks.length)
    (hempty : (tasks.get ⟨t, ht⟩).shell_pair_list = []) :
    ∃ c, (exx_ek_select ops shell_size nbf nshells V_shell_max ldv eps_E eps_K
            task_approx_f task_max_bf_sum tasks)[t]? = some c ∧
      (∀ p ∈ c.shell_pair_list, p.2 ≤ p.1 ∧ p.1 < nshells ∧
        significant ops
          (fun s => (max_F_shells ops shell_size nshells
            (fun k => task_approx_f (t * nbf + k))).getD s ops.zero)
          V_shell_max ldv eps_E eps_K (task_max_bf_sum t) p.1 p.2 = true) ∧
      c.shell_pair_list.Nodup ∧
      c.shell_pair_list.Pairwise pair_lt := by
  refine ⟨_, exx_ek_select_getElem ops shell_size nbf nshells V_shell_max ldv eps_E eps_K
    task_approx_f task_max_bf_sum tasks t ht, ?_, ?_, ?_⟩
  · intro p hp
    rw [ek_select_task_pair_list, hempty, List.nil_append, List.mem_filter] at hp
    have := (mem_all_shell_pairs nshells p).1 hp.1
    exact ⟨this.1, this.2, hp.2⟩
  · rw [ek_select_task_pair_list, hempty, List.nil_append]
    have hs := (all_shell_pairs_sorted nshells).filter (fun p =>
      significant ops
        (fun s => (max_F_shells ops shell_size nshells
          (fun k => task_approx_f (t * nbf + k))).getD s ops.zero)
        V_shell_max ldv eps_E eps_K (task_max_bf_sum t) p.1 p.2)
    have hne : ∀ a b : Nat × Nat, pair_lt a b → a ≠ b := by
      intro a b hab heq
      subst heq
      exact pair_lt_irrefl a hab
    exact hs.imp (fun {a b} hab => hne a b hab)
  · rw [ek_select_task_pair_list, hempty, List.nil_append]
    exact (all_shell_pairs_sorted nshells).filter _

/-- Witness for C20: two shells, one task with an empty pair list, all bounds
one and both thresholds zero. -/
theorem exx_ek_screening_pair_list_ordered_witness :
    ∃ c, (exx_ek_select intOps (fun _ => 1) 2 2 (fun _ => 1) 2 0 0 (fun _ => 1) (fun _ => 1)
            [⟨[], [], 0⟩])[0]? = some c ∧
      (∀ p ∈ c.shell_pair_list, p.2 ≤ p.1 ∧ p.1 < 2 ∧
        significant intOps
          (fun s => (max_F_shells intOps (fun _ => 1) 2
            (fun k => (fun _ => (1 : Int)) (0 * 2 + k))).getD s intOps.zero)
          (fun _ => 1) 2 0 0 ((fun _ => (1 : Int)) 0) p.1 p.2 = true) ∧
      c.shell_pair_list.Nodup ∧
      c.shell_pair_list.Pairwise pair_lt :=
  exx_ek_screening_pair_list_ordered intOps (fun _ => 1) 2 2 (fun _ => 1) 2 0 0
    (fun _ => 1) (fun _ => 1) [⟨[], [], 0⟩] 0 (by decide) rfl

/-! ### EK screening: the packed bitmap -/

theorem and_one_shiftLeft_ne_zero (w k : Nat) :
    (w &&& (1 <<< k)) ≠ 0 ↔ w.testBit k = true := by
  rw [Nat.one_shiftLeft]
  constructor
  · intro h
    by_contra hb
    apply h
    apply Nat.eq_of_testBit_eq
    intro i
    rw [Nat.testBit_and, Nat.testBit_two_pow, Nat.zero_testBit]
    by_cases hki : k = i
    · subst hki
      simp [hb]
    · simp [hki]
  · intro hb h
    have h1 : (w &&& 2 ^ k).testBit k = true := by
      rw [Nat.testBit_and, Nat.testBit_two_pow, hb]
      simp
    rw [h, Nat.zero_testBit] at h1
    exact Bool.noConfusion h1

theorem set_shell_bit_length (ws : List Nat) (k : Nat) :
    (set_shell_bit ws k).length = ws.length := by
  unfold set_shell_bit
  exact List.length_set _ _ _

theorem shell_bit_set_shell_bit (ws : List Nat) (k x : Nat) (hk : k / 32 < ws.length) :
    shell_bit (set_shell_bit ws k) x = (shell_bit ws x || decide (x = k)) := by
  unfold shell_bit set_shell_bit
  simp only [List.getD_eq_getElem?_getD]
  by_cases hx : k / 32 = x / 32
  · have hxk : (x = k) ↔ (k % 32 = x % 32) := by omega
    rw [← hx, List.getElem?_set_self hk]
    simp only [Option.getD_some, Nat.testBit_mod_two_pow, Nat.testBit_or, Nat.one_shiftLeft,
      Nat.testBit_two_pow]
    have h32 : x % 32 < 32 := Nat.mod_lt _ (by norm_num)
    simp only [h32, decide_True, Bool.true_and]
    congr 1
    exact decide_eq_decide.2 hxk.symm
  · have hne : ¬ x = k := fun h => hx (by rw [h])
    rw [List.getElem?_set_ne hx]
    simp [hne]

theorem mark_pair_length (ws : List Nat) (p : Nat × Nat) :
    (mark_pair ws p).length = ws.length := by
  unfold mark_pair
  rw [set_shell_bit_length, set_shell_bit_length]

theorem shell_bit_mark_pair (ws : List Nat) (p : Nat × Nat) (x : Nat)
    (h1 : p.1 / 32 < ws.length) (h2 : p.2 / 32 < ws.length) :
    shell_bit (mark_pair ws p) x
      = (shell_bit ws x || (decide (x = p.1) || decide (x = p.2))) := by
  unfold mark_pair
  rw [shell_bit_set_shell_bit _ _ _ (by rw [set_shell_bit_length]; exact h2),
    shell_bit_set_shell_bit _ _ _ h1, Bool.or_assoc]

theorem shell_bit_foldl_mark_pair (x : Nat) :
    ∀ (pairs : List (Nat × Nat)) (ws : List Nat),
      (∀ p ∈ pairs, p.1 / 32 < ws.length ∧ p.2 / 32 < ws.length) →
      shell_bit (pairs.foldl mark_pair ws) x
        = (shell_bit ws x || pairs.any (fun p => decide (x = p.1) || decide (x = p.2))) := by
  intro pairs
  induction pairs with
  | nil => intro ws _; simp
  | cons p pairs ih =>
    intro ws h
    have hp := h p (List.mem_cons_self _ _)
    rw [List.foldl_cons, ih (mark_pair ws p) (by
        intro q hq
        rw [mark_pair_length]
        exact h q (List.mem_cons_of_mem _ hq)),
      shell_bit_mark_pair ws p x hp.1 hp.2, List.any_cons, Bool.or_assoc]

theorem shell_bit_replicate_zero (n x : Nat) : shell_bit (List.replicate n 0) x = false := by
  unfold shell_bit
  simp only [List.getD_eq_getElem?_getD, List.getElem?_replicate]
  split <;> simp

theorem mem_expand_ek_shells (ws : List Nat) (nshells x : Nat) :
    x ∈ expand_ek_shells ws nshells ↔ x / 32 < div_ceil nshells 32 ∧ shell_bit ws x = true := by
  unfold expand_ek_shells shell_bit
  simp only [List.mem_flatMap, List.mem_range, List.mem_map, List.mem_filter,
    decide_eq_true_eq, and_one_shiftLeft_ne_zero]
  constructor
  · rintro ⟨ib, hib, il, ⟨hil, hbit⟩, rfl⟩
    have h1 : (il + ib * 32) / 32 = ib := by omega
    have h2 : (il + ib * 32) % 32 = il := by omega
    rw [h1, h2]
    exact ⟨hib, hbit⟩
  · rintro ⟨h1, h2⟩
    exact ⟨x / 32, h1, x % 32, ⟨Nat.mod_lt _ (by norm_num), h2⟩, by omega⟩

theorem expand_ek_shells_sorted (ws : List Nat) (nshells : Nat) :
    (expand_ek_shells ws nshells).Pairwise (· < ·) := by
  unfold expand_ek_shells
  rw [List.pairwise_flatMap]
  constructor
  · intro ib _
    rw [List.pairwise_map]
    refine ((List.pairwise_lt_range 32).filter _).imp ?_
    intro a b hab
    omega
  · refine (List.pairwise_lt_range _).imp ?_
    intro a b hab x hx y hy
    simp only [List.mem_map, List.mem_filter, List.mem_range] at hx hy
    obtain ⟨il, ⟨hil, _⟩, rfl⟩ := hx
    obtain ⟨jl, ⟨hjl, _⟩, rfl⟩ := hy
    omega

theorem to_int32_of_lt (x : Nat) (h : x < 2 ^ 31) : to_int32 x = (x : Int) := by
  unfold to_int32
  have h1 : x % 2 ^ 32 = x := Nat.mod_eq_of_lt (by omega)
  rw [h1, if_pos h]

theorem mem_marked_shells (sig : Nat → Nat → Bool) (nshells x : Nat) :
    x ∈ expand_ek_shells
        (((all_shell_pairs nshells).filter (fun p => sig p.1 p.2)).foldl mark_pair
          (List.replicate (div_ceil nshells 32) 0)) nshells
      ↔ ∃ i j, j ≤ i ∧ i < nshells ∧ sig i j = true ∧ (x = i ∨ x = j) := by
  have hin : ∀ p ∈ (all_shell_pairs nshells).filter (fun p => sig p.1 p.2),
      p.1 / 32 < (List.replicate (div_ceil nshells 32) 0).length ∧
        p.2 / 32 < (List.replicate (div_ceil nshells 32) 0).length := by
    intro p hp
    have hp1 := (mem_all_shell_pairs nshells p).1 (List.mem_filter.1 hp).1
    rw [List.length_replicate]
    unfold div_ceil
    omega
  rw [mem_expand_ek_shells, shell_bit_foldl_mark_pair x _ _ hin, shell_bit_replicate_zero,
    Bool.false_or, List.any_eq_true]
  constructor
  · rintro ⟨_, p, hp, hx⟩
    have hp1 := (mem_all_shell_pairs nshells p).1 (List.mem_filter.1 hp).1
    refine ⟨p.1, p.2, hp1.1, hp1.2, (List.mem_filter.1 hp).2, ?_⟩
    simpa using hx
  · rintro ⟨i, j, hji, hi, hs, hx⟩
    refine ⟨?_, (i, j), List.mem_filter.2 ⟨(mem_all_shell_pairs nshells (i, j)).2 ⟨hji, hi⟩, hs⟩,
      by simpa using hx⟩
    unfold div_ceil
    omega

theorem ek_select_task_shells {R : Type} (ops : DoubleOps R) (shell_size : Nat → Nat)
    (nshells : Nat) (V_shell_max : Nat → R) (ldv : Nat) (eps_E eps_K : R)
    (max_F_approx_bfn : Nat → R) (max_bf_sum : R) (cou : CouScreening) :
    ∃ ek_shells : List Nat,
      (ek_select_task ops shell_size nshells V_shell_max ldv eps_E eps_K
        max_F_approx_bfn max_bf_sum cou).shell_list = ek_shells.map to_int32 ∧
      (ek_select_task ops shell_size nshells V_shell_max ldv eps_E eps_K
        max_F_approx_bfn max_bf_sum cou).nbe = nbf_subset shell_size ek_shells ∧
      ek_shells.Pairwise (· < ·) ∧
      ∀ x, x ∈ ek_shells ↔ ∃ i j, j ≤ i ∧ i < nshells ∧
        significant ops
          (fun s => (max_F_shells ops shell_size nshells max_F_approx_bfn).getD s ops.zero)
          V_shell_max ldv eps_E eps_K max_bf_sum i j = true ∧ (x = i ∨ x = j) := by
  unfold ek_select_task
  simp only [ek_pair_loop_eq]
  exact ⟨_, rfl, rfl, expand_ek_shells_sorted _ _, fun x => mem_marked_shells _ nshells x⟩

/-- C19: after the selection loop of `exx_ek_screening` (at most `2^31` shells,
so that shell indices fit `int32_t`), every task's `cou_screening.shell_list`
is strictly increasing, has all entries in `[0, nshells)`, and holds exactly
the shells that are `i` or `j` of a pair `j ≤ i < nshells` passing the
significance test of line 200 for that task; `cou_screening.nbe` is the sum of
the sizes of the listed shells. -/
theorem exx_ek_screening_shell_list {R : Type} (ops : DoubleOps R)
    (shell_size : Nat → Nat) (nbf nshells : Nat) (V_shell_max : Nat → R) (ldv : Nat)
    (eps_E eps_K : R) (task_approx_f : Nat → R) (task_max_bf_sum : Nat → R)
    (tasks : List CouScreening) (t : Nat) (ht : t < tasks.length)
    (hn : nshells ≤ 2 ^ 31) :
    ∃ c, (exx_ek_select ops shell_size nbf nshells V_shell_max ldv eps_E eps_K
            task_approx_f task_max_bf_sum tasks)[t]? = some c ∧
      c.shell_list.Pairwise (· < ·) ∧
      (∀ k ∈ c.shell_list, 0 ≤ k ∧ k < (nshells : Int)) ∧
      (∀ x : Nat, (x : Int) ∈ c.shell_list ↔ ∃ i j, j ≤ i ∧ i < nshells ∧
        significant ops
          (fun s => (max_F_shells ops shell_size nshells
            (fun k => task_approx_f (t * nbf + k))).getD s ops.zero)
          V_shell_max ldv eps_E eps_K (task_max_bf_sum t) i j = true ∧ (x = i ∨ x = j)) ∧
      c.nbe = (c.shell_list.map (fun k => shell_size k.toNat)).sum := by
  refine ⟨_, exx_ek_select_getElem ops shell_size nbf nshells V_shell_max ldv eps_E eps_K
    task_approx_f task_max_bf_sum tasks t ht, ?_⟩
  obtain ⟨ek_shells, hl, hnbe, hsorted, hmem⟩ :=
    ek_select_task_shells ops shell_size nshells V_shell_max ldv eps_E eps_K
      (fun k => task_approx_f (t * nbf + k)) (task_max_bf_sum t) (tasks.get ⟨t, ht⟩)
  have hlt : ∀ x ∈ ek_shells, x < nshells := by
    intro x hx
    obtain ⟨i, j, hji, hi, _, hx⟩ := (hmem x).1 hx
    omega
  have hcast : ek_shells.map to_int32 = ek_shells.map (fun x : Nat => (x : Int)) :=
    List.map_congr_left (fun x hx => to_int32_of_lt x (by have := hlt x hx; omega))
  rw [hl, hnbe, hcast]
  refine ⟨?_, ?_, ?_, ?_⟩
  · rw [List.pairwise_map]
    exact hsorted.imp (fun {a b} hab => by exact_mod_cast hab)
  · intro k hk
    obtain ⟨x, hx, rfl⟩ := List.mem_map.1 hk
    have := hlt x hx
    exact ⟨by positivity, by exact_mod_cast this⟩
  · intro x
    rw [← hmem x, List.mem_map]
    constructor
    · rintro ⟨y, hy, hyx⟩
      have : y = x := by exact_mod_cast hyx
      rw [← this]
      exact hy
    · intro hx
      exact ⟨x, hx, rfl⟩
  · unfold nbf_subset
    rw [List.map_map]
    congr 1

/-- Witness for C19: two shells of sizes one, one task, all bounds one and both
thresholds zero. -/
theorem exx_ek_screening_shell_list_witness :
    ∃ c, (exx_ek_select intOps (fun _ => 1) 2 2 (fun _ => 1) 2 0 0 (fun _ => 1) (fun _ => 1)
            [⟨[], [], 0⟩])[0]? = some c ∧
      c.shell_list.Pairwise (· < ·) ∧
      (∀ k ∈ c.shell_list, 0 ≤ k ∧ k < ((2 : Nat) : Int)) ∧
      (∀ x : Nat, (x : Int) ∈ c.shell_list ↔ ∃ i j, j ≤ i ∧ i < 2 ∧
        significant intOps
          (fun s => (max_F_shells intOps (fun _ => 1) 2
            (fun k => (fun _ => (1 : Int)) (0 * 2 + k))).getD s intOps.zero)
          (fun _ => 1) 2 0 0 ((fun _ => (1 : Int)) 0) i j = true ∧ (x = i ∨ x = j)) ∧
      c.nbe = (c.shell_list.map (fun k => (fun _ => 1) k.toNat)).sum :=
  exx_ek_screening_shell_list intOps (fun _ => 1) 2 2 (fun _ => 1) 2 0 0
    (fun _ => 1) (fun _ => 1) [⟨[], [], 0⟩] 0 (by decide) (by norm_num)

/-! ### EK screening of a diagonal density -/

/-- C17, counterexample: three shells of one function each, `|P| = diag(1, 0, 1)`,
all bounds one and both thresholds zero, in exact integer arithmetic: the
off-diagonal pairs `(1,0)`, `(2,0)` and `(2,1)` survive next to `(0,0)` and
`(2,2)`, so the pair list does not hold diagonal pairs only. -/
theorem exx_ek_screening_diagonal_density_keeps_off_diagonal :
    exx_ek_screening intOps (fun a b => a + b) (fun _ => 1) 3 3 P_abs_diag3 3
        (fun _ => 1) 3 0 0 (fun _ => 1) (fun _ => 1) [⟨[], [], 0⟩]
      = [⟨[0, 1, 2], [(0, 0), (1, 0), (2, 0), (2, 1), (2, 2)], 3⟩] ∧
    ¬ (∀ c ∈ exx_ek_screening intOps (fun a b => a + b) (fun _ => 1) 3 3 P_abs_diag3 3
        (fun _ => 1) 3 0 0 (fun _ => 1) (fun _ => 1) [⟨[], [], 0⟩],
        ∀ p ∈ c.shell_pair_list, p.1 = p.2 ∧ P_abs_diag3 (p.1 + p.1 * 3) = 1) := by
  decide

theorem foldl_add_zero {R : Type} (add : R → R → R) (zero : R) (term : Nat → R)
    (hadd : add zero zero = zero) :
    ∀ l : List Nat, (∀ x ∈ l, term x = zero) →
      l.foldl (fun acc x => add acc (term x)) zero = zero := by
  intro l
  induction l with
  | nil => intro _; rfl
  | cons a l ih =>
    intro h
    rw [List.foldl_cons, h a (List.mem_cons_self _ _), hadd]
    exact ih (fun x hx => h x (List.mem_cons_of_mem _ hx))

theorem gemm_entry_zero_row {R : Type} (ops : DoubleOps R) (add : R → R → R) (k : Nat)
    (A : Nat → R) (lda : Nat) (B : Nat → R) (ldb : Nat) (i t : Nat)
    (hmul : ∀ x, ops.mul ops.zero x = ops.zero) (hadd : add ops.zero ops.zero = ops.zero)
    (hrow : ∀ l, l < k → A (i + l * lda) = ops.zero) :
    gemm_entry ops add k A lda B ldb i t = ops.zero := by
  unfold gemm_entry
  apply foldl_add_zero add ops.zero (fun l => ops.mul (A (i + l * lda)) (B (l + t * ldb))) hadd
  intro l hl
  rw [hrow l (List.mem_range.1 hl), hmul]

theorem collapse_loop_unit_shells {R : Type} (ops : DoubleOps R) (f : Nat → R) :
    ∀ (n ish ibf i : Nat), i < n →
      (collapse_loop ops (fun _ => 1) f n ish ibf).getD i ops.zero
        = ops.max ops.zero (ops.abs (f (ibf + i))) := by
  intro n
  induction n with
  | zero => intro ish ibf i hi; omega
  | succ n ih =>
    intro ish ibf i hi
    unfold collapse_loop
    cases i with
    | zero => simp [collapse_shell, List.range_succ]
    | succ i =>
      rw [List.getD_cons_succ, ih (ish + 1) (ibf + 1) i (by omega)]
      congr 3
      omega

theorem significant_zero_bounds {R : Type} (ops : DoubleOps R) (F : Nat → R)
    (V_shell_max : Nat → R) (ldv : Nat) (eps_E eps_K max_bf_sum : R) (i j : Nat)
    (hmul : ∀ x, ops.mul ops.zero x = ops.zero)
    (hE : ops.lt eps_E ops.zero = false) (hK : ops.lt eps_K ops.zero = false)
    (hi : F i = ops.zero) (hj : F j = ops.zero) :
    significant ops F V_shell_max ldv eps_E eps_K max_bf_sum i j = false := by
  unfold significant DoubleOps.max
  simp only [hi, hj, ite_self, hmul, hE, hK, Bool.or_self]

/-- C17, amended: one basis function per shell, `|P|` diagonal with entries
`1, 0, 1, 0, ...` (shell `i` has entry one when `i` is even, counting from
zero), thresholds not below zero, in an arithmetic where zero annihilates
products and `0 + 0 = 0`.  For a task whose pair list is empty on entry, every
pair left by `exx_ek_screening` has at least one shell with diagonal entry
one; so a diagonal pair `(i, i)` in the list is on such a shell, and no pair of
two zero-entry shells survives. -/
theorem exx_ek_screening_diagonal_density {R : Type} (ops : DoubleOps R)
    (add : R → R → R) (nshells : Nat) (P_abs : Nat → R) (ldp : Nat)
    (V_shell_max : Nat → R) (ldv : Nat) (eps_E eps_K : R)
    (task_max_bfn : Nat → R) (task_max_bf_sum : Nat → R)
    (tasks : List CouScreening) (t : Nat) (ht : t < tasks.length) (one : R)
    (hmul : ∀ x, ops.mul ops.zero x = ops.zero) (hadd : add ops.zero ops.zero = ops.zero)
    (habs : ops.abs ops.zero = ops.zero)
    (hE : ops.lt eps_E ops.zero = false) (hK : ops.lt eps_K ops.zero = false)
    (hP : ∀ i j, i < nshells → j < nshells →
      P_abs (i + j * ldp) = if i = j ∧ i % 2 = 0 then one else ops.zero)
    (hempty : (tasks.get ⟨t, ht⟩).shell_pair_list = []) :
    ∃ c, (exx_ek_screening ops add (fun _ => 1) nshells nshells P_abs ldp V_shell_max ldv
            eps_E eps_K task_max_bfn task_max_bf_sum tasks)[t]? = some c ∧
      (∀ p ∈ c.shell_pair_list, p.1 % 2 = 0 ∨ p.2 % 2 = 0) ∧
      (∀ p ∈ c.shell_pair_list, p.1 = p.2 → p.1 % 2 = 0) := by
  have hF : ∀ i, i < nshells → i % 2 = 1 →
      (max_F_shells ops (fun _ => 1) nshells
        (fun k => task_approx_f ops add nshells P_abs ldp task_max_bfn (t * nshells + k))).getD
          i ops.zero = ops.zero := by
    intro i hi hodd
    unfold max_F_shells
    rw [collapse_loop_unit_shells ops _ nshells 0 0 i hi]
    have hidx1 : (t * nshells + (0 + i)) % nshells = i := by
      rw [Nat.zero_add, Nat.mul_comm, Nat.mul_add_mod, Nat.mod_eq_of_lt hi]
    have hz : task_approx_f ops add nshells P_abs ldp task_max_bfn (t * nshells + (0 + i))
        = ops.zero := by
      unfold task_approx_f
      rw [hidx1]
      apply gemm_entry_zero_row ops add nshells P_abs ldp task_max_bfn nshells i _ hmul hadd
      intro l hl
      rw [hP i l hi hl, if_neg]
      intro h
      omega
    simp only [hz, habs, DoubleOps.max, ite_self]
  have hall : ∀ p ∈ (exx_ek_select ops (fun _ => 1) nshells nshells V_shell_max ldv eps_E eps_K
      (task_approx_f ops add nshells P_abs ldp task_max_bfn) task_max_bf_sum tasks
        |>.getD t ⟨[], [], 0⟩).shell_pair_list, p.1 % 2 = 0 ∨ p.2 % 2 = 0 := by
    intro p hp
    rw [List.getD_eq_getElem?_getD, exx_ek_select_getElem ops (fun _ => 1) nshells nshells
      V_shell_max ldv eps_E eps_K _ task_max_bf_sum tasks t ht, Option.getD_some,
      ek_select_task_pair_list, hempty, List.nil_append, List.mem_filter] at hp
    have hin := (mem_all_shell_pairs nshells p).1 hp.1
    by_contra hcon
    have h1 : p.1 % 2 = 1 := by omega
    have h2 : p.2 % 2 = 1 := by omega
    have hp2 : p.2 < nshells := by omega
    have hs := significant_zero_bounds ops
      (fun s => (max_F_shells ops (fun _ => 1) nshells
        (fun k => task_approx_f ops add nshells P_abs ldp task_max_bfn (t * nshells + k))).getD
          s ops.zero)
      V_shell_max ldv eps_E eps_K (task_max_bf_sum t)
      p.1 p.2 hmul hE hK (hF p.1 hin.2 h1) (hF p.2 hp2 h2)
    rw [hs] at hp
    exact Bool.noConfusion hp.2
  have hget := exx_ek_select_getElem ops (fun _ => 1) nshells nshells V_shell_max ldv
    eps_E eps_K (task_approx_f ops add nshells P_abs ldp task_max_bfn) task_max_bf_sum tasks t ht
  rw [List.getD_eq_getElem?_getD, hget, Option.getD_some] at hall
  refine ⟨_, hget, hall, ?_⟩
  intro p hp heq
  have := hall p hp
  omega

/-- Witness for C17: the three-shell density `diag(1, 0, 1)` in exact integer
arithmetic, one task with an empty pair list. -/
theorem exx_ek_screening_diagonal_density_witness :
    ∃ c, (exx_ek_screening intOps (fun a b => a + b) (fun _ => 1) 3 3 P_abs_diag3 3
            (fun _ => 1) 3 0 0 (fun _ => 1) (fun _ => 1) [⟨[], [], 0⟩])[0]? = some c ∧
      (∀ p ∈ c.shell_pair_list, p.1 % 2 = 0 ∨ p.2 % 2 = 0) ∧
      (∀ p ∈ c.shell_pair_list, p.1 = p.2 → p.1 % 2 = 0) :=
  exx_ek_screening_diagonal_density intOps (fun a b => a + b) 3 P_abs_diag3 3
    (fun _ => 1) 3 0 0 (fun _ => 1) (fun _ => 1) [⟨[], [], 0⟩] 0 (by decide) 1
    (fun x => Int.zero_mul x) (by decide) (by decide) (by decide) (by decide)
    (by
      intro i j hi hj
      interval_cases i <;> interval_cases j <;> decide)
    rfl

namespace detail

/-! ### `exx_local_work_`: the recorded calls -/

theorem screening_thresholds_append {R : Type} (a b : List (DeviceCall R)) :
    screening_thresholds (a ++ b) = screening_thresholds a ++ screening_thresholds b := by
  induction a with
  | nil => rfl
  | cons c cs ih => cases c <;> simp [screening_thresholds, ih]

theorem dispatched_tasks_append {R : Type} (a b : List (DeviceCall R)) :
    dispatched_tasks (a ++ b) = dispatched_tasks a ++ dispatched_tasks b := by
  induction a with
  | nil => rfl
  | cons c cs ih =>
    cases c with
    | generate_buffers terms batch => cases terms <;> simp [dispatched_tasks, ih]
    | _ => simp [dispatched_tasks, ih]

theorem weights_loop_spec {R : Type} (env : EXXEnv R) :
    ∀ (fuel : Nat) (rem : List (XCTask R)) (st r : List (XCTask R) × List (DeviceCall R)),
      weights_loop env fuel rem st = some r →
      r.1 = st.1 ++ rem.map (store_weights env) ∧
        ∃ extra, r.2 = st.2 ++ extra ∧ screening_thresholds extra = [] ∧
          dispatched_tasks extra = [] ∧ DeviceCall.symmetrize_exx_k ∉ extra := by
  intro fuel
  induction fuel with
  | zero =>
    intro rem st r h
    cases rem with
    | nil =>
      simp only [weights_loop, Option.some.injEq] at h
      subst h
      exact ⟨by simp, [], by simp, rfl, rfl, by simp⟩
    | cons t rest => simp [weights_loop] at h
  | succ fuel ih =>
    intro rem st r h
    cases rem with
    | nil =>
      simp only [weights_loop, Option.some.injEq] at h
      subst h
      exact ⟨by simp, [], by simp, rfl, rfl, by simp⟩
    | cons t rest =>
      simp only [weights_loop] at h
      split at h
      · exact Option.noConfusion h
      · obtain ⟨h1, extra, h2, hq1, hq2, hq3⟩ := ih _ _ r h
        refine ⟨?_, DeviceCall.generate_buffers EnabledTerms.weights
          ((t :: rest).take (env.generate_buffers EnabledTerms.weights (t :: rest))) ::
            DeviceCall.partition_weights :: DeviceCall.copy_weights_to_tasks :: extra,
          ?_, ?_, ?_, ?_⟩
        · rw [h1, List.append_assoc, ← List.map_append, List.take_append_drop]
        · rw [h2]
          simp
        · simpa [screening_thresholds] using hq1
        · simpa [dispatched_tasks] using hq2
        · simpa using hq3

theorem weights_loop_total {R : Type} (env : EXXEnv R)
    (hgb : ∀ rem : List (XCTask R), rem ≠ [] →
      1 ≤ env.generate_buffers EnabledTerms.weights rem ∧
        env.generate_buffers EnabledTerms.weights rem ≤ rem.length) :
    ∀ (fuel : Nat) (rem : List (XCTask R)) (st : List (XCTask R) × List (DeviceCall R)),
      rem.length ≤ fuel → ∃ r, weights_loop env fuel rem st = some r := by
  intro fuel
  induction fuel with
  | zero =>
    intro rem st h
    cases rem with
    | nil => exact ⟨st, rfl⟩
    | cons t rest => simp at h
  | succ fuel ih =>
    intro rem st h
    cases rem with
    | nil => exact ⟨st, rfl⟩
    | cons t rest =>
      have hg := hgb (t :: rest) (by simp)
      simp only [weights_loop]
      rw [if_neg (by omega)]
      apply ih
      rw [List.length_drop]
      simp only [List.length_cons] at h hg ⊢
      omega

theorem dispatch_loop_spec {R : Type} (env : EXXEnv R) :
    ∀ (fuel : Nat) (rem : List (XCTask R)) (calls r : List (DeviceCall R)),
      dispatch_loop env fuel rem calls = some r →
      ∃ extra, r = calls ++ extra ∧ dispatched_tasks extra = rem ∧
        screening_thresholds extra = [] ∧ DeviceCall.symmetrize_exx_k ∉ extra ∧
        DeviceCall.retrieve_exx_integrands 0 ∉ extra ∧
        (extra = [] ∨ extra.getLast? = some DeviceCall.inc_exx_k) := by
  intro fuel
  induction fuel with
  | zero =>
    intro rem calls r h
    cases rem with
    | nil =>
      simp only [dispatch_loop, Option.some.injEq] at h
      subst h
      exact ⟨[], by simp, rfl, rfl, by simp, by simp, Or.inl rfl⟩
    | cons t rest => simp [dispatch_loop] at h
  | succ fuel ih =>
    intro rem calls r h
    cases rem with
    | nil =>
      simp only [dispatch_loop, Option.some.injEq] at h
      subst h
      exact ⟨[], by simp, rfl, rfl, by simp, by simp, Or.inl rfl⟩
    | cons t rest =>
      simp only [dispatch_loop] at h
      split at h
      · exact Option.noConfusion h
      · obtain ⟨extra, h1, h2, h3, h4, h5, h6⟩ := ih _ _ r h
        refine ⟨DeviceCall.generate_buffers EnabledTerms.exx
          ((t :: rest).take (env.generate_buffers EnabledTerms.exx (t :: rest))) ::
            DeviceCall.eval_collocation :: DeviceCall.eval_exx_fmat ::
            DeviceCall.eval_exx_gmat :: DeviceCall.inc_exx_k :: extra,
          ?_, ?_, ?_, ?_, ?_, Or.inr ?_⟩
        · rw [h1]
          simp
        · simp only [dispatched_tasks, h2, List.take_append_drop]
        · simpa [screening_thresholds] using h3
        · simpa using h4
        · simpa using h5
        · rcases h6 with h6 | h6
          · subst h6
            rfl
          · cases extra with
            | nil => simp at h6
            | cons e es =>
              simpa [List.getLast?_cons_cons] using h6

theorem dispatch_loop_total {R : Type} (env : EXXEnv R)
    (hgb : ∀ rem : List (XCTask R), rem ≠ [] →
      1 ≤ env.generate_buffers EnabledTerms.exx rem ∧
        env.generate_buffers EnabledTerms.exx rem ≤ rem.length) :
    ∀ (fuel : Nat) (rem : List (XCTask R)) (calls : List (DeviceCall R)),
      rem.length ≤ fuel → ∃ r, dispatch_loop env fuel rem calls = some r := by
  intro fuel
  induction fuel with
  | zero =>
    intro rem calls h
    cases rem with
    | nil => exact ⟨calls, rfl⟩
    | cons t rest => simp at h
  | succ fuel ih =>
    intro rem calls h
    cases rem with
    | nil => exact ⟨calls, rfl⟩
    | cons t rest =>
      have hg := hgb (t :: rest) (by simp)
      simp only [dispatch_loop]
      rw [if_neg (by omega)]
      apply ih
      rw [List.length_drop]
      simp only [List.length_cons] at h hg ⊢
      omega

end detail

namespace detail

/-! ### `exx_local_work_`: the phases -/

theorem modify_weights_spec {R : Type} (env : EXXEnv R) (tasks : List (XCTask R))
    (stored : Bool) (calls : List (DeviceCall R))
    (r : List (XCTask R) × Bool × List (DeviceCall R))
    (h : modify_weights env tasks stored calls = some r) :
    r.2.1 = true ∧
      r.1 = (if stored then tasks else tasks.map (store_weights env)) ∧
      ∃ extra, r.2.2 = calls ++ extra ∧ screening_thresholds extra = [] ∧
        dispatched_tasks extra = [] ∧ DeviceCall.symmetrize_exx_k ∉ extra := by
  unfold modify_weights at h
  cases stored with
  | true =>
    simp only [if_true, Option.some.injEq] at h
    subst h
    exact ⟨rfl, rfl, [], by simp, rfl, rfl, by simp⟩
  | false =>
    simp only [Bool.false_eq_true, if_false, Option.map_eq_some'] at h
    obtain ⟨r0, h0, rfl⟩ := h
    obtain ⟨h1, extra, h2, hq1, hq2, hq3⟩ := weights_loop_spec env _ _ _ _ h0
    refine ⟨rfl, by simpa using h1, DeviceCall.reset_allocations ::
      DeviceCall.allocate_static_data_weights :: DeviceCall.send_static_data_weights :: extra,
      ?_, ?_, ?_, ?_⟩
    · simp only [h2]
      simp
    · simpa [screening_thresholds] using hq1
    · simpa [dispatched_tasks] using hq2
    · simpa using hq3

theorem modify_weights_total {R : Type} (env : EXXEnv R)
    (hgb : ∀ rem : List (XCTask R), rem ≠ [] →
      1 ≤ env.generate_buffers EnabledTerms.weights rem ∧
        env.generate_buffers EnabledTerms.weights rem ≤ rem.length)
    (tasks : List (XCTask R)) (stored : Bool) (calls : List (DeviceCall R)) :
    ∃ r, modify_weights env tasks stored calls = some r := by
  unfold modify_weights
  cases stored with
  | true => exact ⟨_, rfl⟩
  | false =>
    obtain ⟨r, hr⟩ := weights_loop_total env hgb tasks.length tasks
      ([], calls ++ [DeviceCall.reset_allocations, DeviceCall.allocate_static_data_weights,
        DeviceCall.send_static_data_weights]) (Nat.le_refl _)
    exact ⟨(r.1, true, r.2), by simp [hr]⟩

theorem stable_partition_take {α : Type} (p : α → Bool) (l : List α) :
    (stable_partition p l).1.take (stable_partition p l).2 = l.filter p := by
  unfold stable_partition
  simp

/-- The shape of a completed call: the state after the weights block, the
partitioned task vector, the latch, and the calls in program order. -/
theorem exx_local_work_spec {R : Type} (env : EXXEnv R) (P : Nat → R) (ldp ldk : Int)
    (w w1 : EXXWorld R) (h : exx_local_work_ env P ldp ldk w = some w1) :
    ∃ (weighted : List (XCTask R)) (calls1 extra : List (DeviceCall R)),
      modify_weights env (env.std_sort w.tasks) w.modified_weights_are_stored w.device_calls
        = some (weighted, true, calls1) ∧
      w1.tasks = (screen_tasks env P weighted).filter has_cou_shells
        ++ (screen_tasks env P weighted).filter (fun t => !has_cou_shells t) ∧
      w1.modified_weights_are_stored = true ∧
      w1.device_calls = calls1 ++ [DeviceCall.ek_screening env.lit_1e_10 env.lit_1e_10,
          DeviceCall.populate_submat_maps ((screen_tasks env P weighted).filter has_cou_shells),
          DeviceCall.reset_allocations,
          DeviceCall.allocate_static_data_exx env.nbf env.nshells,
          DeviceCall.send_static_data_density_basis ldp,
          DeviceCall.send_static_data_shell_pairs, DeviceCall.zero_exx_integrands]
        ++ extra ++ [DeviceCall.retrieve_exx_integrands ldk] ∧
      dispatched_tasks extra = (screen_tasks env P weighted).filter has_cou_shells ∧
      screening_thresholds extra = [] ∧ DeviceCall.symmetrize_exx_k ∉ extra ∧
      (extra = [] ∨ extra.getLast? = some DeviceCall.inc_exx_k) := by
  unfold exx_local_work_ at h
  split at h
  · exact Option.noConfusion h
  · rename_i weighted stored calls1 hm
    have hst := (modify_weights_spec env _ _ _ _ hm).1
    simp only at hst
    subst hst
    simp only [stable_partition_take] at h
    split at h
    · exact Option.noConfusion h
    · rename_i calls2 hd
      obtain ⟨extra, h1, h2, h3, h4, _, h6⟩ := dispatch_loop_spec env _ _ _ _ hd
      simp only [Option.some.injEq] at h
      subst h
      refine ⟨weighted, calls1, extra, hm, rfl, rfl, ?_, h2, h3, h4, h6⟩
      simp only [h1]

theorem exx_local_work_total {R : Type} (env : EXXEnv R)
    (hgb : ∀ (terms : EnabledTerms) (rem : List (XCTask R)), rem ≠ [] →
      1 ≤ env.generate_buffers terms rem ∧ env.generate_buffers terms rem ≤ rem.length)
    (P : Nat → R) (ldp ldk : Int) (w : EXXWorld R) :
    ∃ w1, exx_local_work_ env P ldp ldk w = some w1 := by
  unfold exx_local_work_
  obtain ⟨r, hr⟩ := modify_weights_total env (hgb EnabledTerms.weights) (env.std_sort w.tasks)
    w.modified_weights_are_stored w.device_calls
  obtain ⟨weighted, stored, calls1⟩ := r
  rw [hr]
  simp only
  obtain ⟨c2, hc2⟩ := dispatch_loop_total env (hgb EnabledTerms.exx)
    (((stable_partition has_cou_shells (screen_tasks env P weighted)).1.take
      (stable_partition has_cou_shells (screen_tasks env P weighted)).2).length)
    ((stable_partition has_cou_shells (screen_tasks env P weighted)).1.take
      (stable_partition has_cou_shells (screen_tasks env P weighted)).2)
    (calls1 ++ [DeviceCall.ek_screening env.lit_1e_10 env.lit_1e_10,
          DeviceCall.populate_submat_maps
            ((stable_partition has_cou_shells (screen_tasks env P weighted)).1.take
              (stable_partition has_cou_shells (screen_tasks env P weighted)).2),
          DeviceCall.reset_allocations,
          DeviceCall.allocate_static_data_exx env.nbf env.nshells,
          DeviceCall.send_static_data_density_basis ldp,
          DeviceCall.send_static_data_shell_pairs, DeviceCall.zero_exx_integrands])
    (Nat.le_refl _)
  rw [hc2]
  exact ⟨_, rfl⟩

end detail

namespace detail

/-! ### The weights latch -/

theorem exx_ek_screening_length {R : Type} (ops : DoubleOps R) (add : R → R → R)
    (shell_size : Nat → Nat) (nbf nshells : Nat) (P_abs : Nat → R) (ldp : Nat)
    (V_shell_max : Nat → R) (ldv : Nat) (eps_E eps_K : R)
    (task_max_bfn : Nat → R) (task_max_bf_sum : Nat → R) (tasks : List CouScreening) :
    (exx_ek_screening ops add shell_size nbf nshells P_abs ldp V_shell_max ldv eps_E eps_K
      task_max_bfn task_max_bf_sum tasks).length = tasks.length := by
  unfold exx_ek_screening exx_ek_select
  rw [List.length_map, List.enum_length]

theorem zipWith_cou_task_data {R : Type} :
    ∀ (ts : List (XCTask R)) (cs : List CouScreening), cs.length = ts.length →
      (List.zipWith (fun t c => { t with cou_screening := c }) ts cs).map task_data
        = ts.map task_data := by
  intro ts
  induction ts with
  | nil => intro cs _; simp
  | cons t ts ih =>
    intro cs h
    cases cs with
    | nil => simp at h
    | cons c cs =>
      simp only [List.zipWith_cons_cons, List.map_cons, List.cons.injEq]
      exact ⟨rfl, ih cs (by simpa using h)⟩

theorem screen_tasks_task_data {R : Type} (env : EXXEnv R) (P : Nat → R)
    (tasks : List (XCTask R)) :
    (screen_tasks env P tasks).map task_data = tasks.map task_data := by
  unfold screen_tasks
  apply zipWith_cou_task_data
  rw [exx_ek_screening_length, List.length_map]

/-- One completed call: the latch is set afterwards; the tasks are those of
before, reordered, with the partition weights stored if the latch was not set
and with their weights untouched if it was. -/
theorem exx_local_work_task_data {R : Type} (env : EXXEnv R)
    (hsort : ∀ l, (env.std_sort l).Perm l) (P : Nat → R) (ldp ldk : Int)
    (w w1 : EXXWorld R) (h : exx_local_work_ env P ldp ldk w = some w1) :
    w1.modified_weights_are_stored = true ∧
      (w1.tasks.map task_data).Perm
        ((if w.modified_weights_are_stored then w.tasks
          else w.tasks.map (store_weights env)).map task_data) := by
  obtain ⟨weighted, calls1, extra, hm, ht, hl, _⟩ := exx_local_work_spec env P ldp ldk w w1 h
  refine ⟨hl, ?_⟩
  have hw := (modify_weights_spec env _ _ _ _ hm).2.1
  simp only at hw
  have h1 : (w1.tasks.map task_data).Perm (weighted.map task_data) := by
    rw [ht, ← screen_tasks_task_data env P weighted]
    exact (List.filter_append_perm has_cou_shells _).map task_data
  refine h1.trans ?_
  rw [hw]
  cases w.modified_weights_are_stored with
  | true => exact (hsort w.tasks).map task_data
  | false => exact ((hsort w.tasks).map (store_weights env)).map task_data

/-- C11: across a sequence of `exx_local_work_` calls that complete on one load
balancer, the latch is set after every completed call, a sequence entered with
the latch set leaves every task's points, weights and `bfn_screening` as they
were (the tasks are only reordered), and a sequence entered with the latch not
set stores the partition weights exactly once, in its first call. -/
theorem exx_local_work_weights_latch {R : Type} (env : EXXEnv R)
    (hsort : ∀ l, (env.std_sort l).Perm l)
    (calls : List ((Nat → R) × Int × Int)) (w w1 : EXXWorld R)
    (h : exx_local_work_calls env calls w = some w1) :
    (calls ≠ [] → w1.modified_weights_are_stored = true) ∧
      (w.modified_weights_are_stored = true →
        (w1.tasks.map task_data).Perm (w.tasks.map task_data)) ∧
      (w.modified_weights_are_stored = false → calls ≠ [] →
        (w1.tasks.map task_data).Perm ((w.tasks.map (store_weights env)).map task_data)) := by
  induction calls generalizing w with
  | nil =>
    simp only [exx_local_work_calls, Option.some.injEq] at h
    subst h
    exact ⟨fun hne => absurd rfl hne, fun _ => List.Perm.refl _, fun _ hne => absurd rfl hne⟩
  | cons c cs ih =>
    simp only [exx_local_work_calls] at h
    split at h
    · exact Option.noConfusion h
    · rename_i w2 hc
      obtain ⟨hl2, hp2⟩ := exx_local_work_task_data env hsort c.1 c.2.1 c.2.2 w w2 hc
      obtain ⟨ih1, ih2, _⟩ := ih w2 h
      have hp := ih2 hl2
      refine ⟨fun _ => ?_, fun hw => ?_, fun hw _ => ?_⟩
      · cases cs with
        | nil =>
          simp only [exx_local_work_calls, Option.some.injEq] at h
          rw [← h]
          exact hl2
        | cons c2 cs2 => exact ih1 (by simp)
      · rw [hw] at hp2
        exact hp.trans hp2
      · rw [hw] at hp2
        exact hp.trans hp2

/-- Witness for C11: two calls in a row on the small instance, entered with
the latch not set. -/
theorem exx_local_work_weights_latch_witness :
    ∃ w1, exx_local_work_calls test_env [(test_density, 2, 2), (test_density, 2, 2)] test_world
        = some w1 ∧
      ([(test_density, (2 : Int), (2 : Int)), (test_density, 2, 2)] ≠ [] →
        w1.modified_weights_are_stored = true) ∧
      (test_world.modified_weights_are_stored = true →
        (w1.tasks.map task_data).Perm (test_world.tasks.map task_data)) ∧
      (test_world.modified_weights_are_stored = false →
        [(test_density, (2 : Int), (2 : Int)), (test_density, 2, 2)] ≠ [] →
        (w1.tasks.map task_data).Perm
          ((test_world.tasks.map (store_weights test_env)).map task_data)) :=
  ⟨(exx_local_work_calls test_env [(test_density, 2, 2), (test_density, 2, 2)]
      test_world).getD test_world, by decide,
    exx_local_work_weights_latch test_env (fun l => List.perm_insertionSort _ l)
      [(test_density, 2, 2), (test_density, 2, 2)] test_world _ (by decide)⟩

end detail

namespace detail

/-! ### No symmetrization of `K` -/

/-- C12, counterexample: a completed call on the small instance, which
dispatches one batch of two tasks, makes no `symmetrize_exx_k` call; its last
two calls are `inc_exx_k` of the last batch and `retrieve_exx_integrands`. -/
theorem exx_local_work_never_symmetrizes :
    ∃ w1, exx_local_work_ test_env test_density 2 2 test_world = some w1 ∧
      w1.device_calls.count DeviceCall.symmetrize_exx_k = 0 ∧
      w1.device_calls.drop (w1.device_calls.length - 2)
        = [DeviceCall.inc_exx_k, DeviceCall.retrieve_exx_integrands 2] :=
  ⟨(exx_local_work_ test_env test_density 2 2 test_world).getD test_world,
    by decide, by decide, by decide⟩

/-- C12, amended: in every completed call of `exx_local_work_`, `K` is retrieved
from the device directly after the dispatch loop: the calls the run adds end
with `retrieve_exx_integrands`, the call before it is `inc_exx_k` of the last
batch (or `zero_exx_integrands` when no task was dispatched), and
`symmetrize_exx_k` is not among them. -/
theorem exx_local_work_retrieves_unsymmetrized {R : Type} (env : EXXEnv R) (P : Nat → R)
    (ldp ldk : Int) (w w1 : EXXWorld R) (h : exx_local_work_ env P ldp ldk w = some w1) :
    ∃ new, w1.device_calls = w.device_calls ++ new ++ [DeviceCall.retrieve_exx_integrands ldk] ∧
      DeviceCall.symmetrize_exx_k ∉ new ∧
      (new.getLast? = some DeviceCall.inc_exx_k ∨
        new.getLast? = some DeviceCall.zero_exx_integrands) := by
  obtain ⟨weighted, calls1, extra, hm, _, _, hc, _, _, hsym, hlast⟩ :=
    exx_local_work_spec env P ldp ldk w w1 h
  obtain ⟨_, _, extra0, h0, _, _, hsym0⟩ := modify_weights_spec env _ _ _ _ hm
  simp only at h0
  refine ⟨extra0 ++ [DeviceCall.ek_screening env.lit_1e_10 env.lit_1e_10,
      DeviceCall.populate_submat_maps ((screen_tasks env P weighted).filter has_cou_shells),
      DeviceCall.reset_allocations,
      DeviceCall.allocate_static_data_exx env.nbf env.nshells,
      DeviceCall.send_static_data_density_basis ldp,
      DeviceCall.send_static_data_shell_pairs, DeviceCall.zero_exx_integrands] ++ extra,
    ?_, ?_, ?_⟩
  · rw [hc, h0]
    simp only [List.append_assoc]
  · simp only [List.mem_append, List.mem_cons, List.mem_singleton, List.not_mem_nil, or_false,
      not_or]
    exact ⟨⟨hsym0, by simp⟩, hsym⟩
  · rcases hlast with he | he
    · right
      subst he
      simp
    · left
      cases extra with
      | nil => simp at he
      | cons e es =>
        rw [List.getLast?_append_of_ne_nil _ (by simp)]
        exact he

/-- Witness for C12: the call on the small instance. -/
theorem exx_local_work_retrieves_unsymmetrized_witness :
    ∃ w1, exx_local_work_ test_env test_density 2 2 test_world = some w1 ∧
      ∃ new, w1.device_calls
          = test_world.device_calls ++ new ++ [DeviceCall.retrieve_exx_integrands 2] ∧
        DeviceCall.symmetrize_exx_k ∉ new ∧
        (new.getLast? = some DeviceCall.inc_exx_k ∨
          new.getLast? = some DeviceCall.zero_exx_integrands) :=
  ⟨(exx_local_work_ test_env test_density 2 2 test_world).getD test_world, by decide,
    exx_local_work_retrieves_unsymmetrized test_env test_density 2 2 test_world _ (by decide)⟩

end detail

namespace detail

/-! ### The thresholds handed to the screening -/

theorem eval_exx_body_device {R : Type} (env : EXXEnv R) (P : Nat → R) (ldp ldk : Int)
    (ow : Option (EXXWorld R)) :
    eval_exx_body (device_collaborators env P ldp ldk) ow
      = (Except.ok (), ow.bind (exx_local_work_ env P ldp ldk)) := rfl

theorem eval_exx_device_completed {R : Type} (env : EXXEnv R) (m n : Int) (P : Nat → R)
    (ldp ldk : Int) (settings : IntegratorSettingsEXX R) (w w1 : EXXWorld R)
    (h : IncoreReplicatedXCDeviceIntegrator.eval_exx_ env m n P ldp ldk settings (some w)
      = (Except.ok (), some w1)) :
    exx_local_work_ env P ldp ldk w = some w1 := by
  unfold IncoreReplicatedXCDeviceIntegrator.eval_exx_ detail.eval_exx_ at h
  have herr : ∀ (msg : String) (x : Option (EXXWorld R)),
      ¬ (GAUXC_GENERIC_EXCEPTION msg (some w) = (Except.ok (), x)) := by
    intro msg x hx
    unfold GAUXC_GENERIC_EXCEPTION at hx
    have := (Prod.mk.inj hx).1
    exact Except.noConfusion this
  split at h
  · exact absurd h (herr _ _)
  · split at h
    · exact absurd h (herr _ _)
    · split at h
      · exact absurd h (herr _ _)
      · split at h
        · exact absurd h (herr _ _)
        · rw [eval_exx_body_device] at h
          exact (Prod.mk.inj h).2

/-- C13, counterexample: a configuration with `eps_E = eps_K = 1` on the small
instance, where the literal `1e-10` is `100`: the call completes and the
screening was handed `(100, 100)`, not the configured thresholds. -/
theorem eval_exx_ignores_configured_thresholds :
    ∃ w1, IncoreReplicatedXCDeviceIntegrator.eval_exx_ test_env 2 2 test_density 2 2
          ({ eps_E := 1, eps_K := 1 } : IntegratorSettingsEXX Int) (some test_world)
        = (Except.ok (), some w1) ∧
      screening_thresholds w1.device_calls = [(100, 100)] ∧
      screening_thresholds w1.device_calls
        ≠ [(({ eps_E := 1, eps_K := 1 } : IntegratorSettingsEXX Int).eps_E,
            ({ eps_E := 1, eps_K := 1 } : IntegratorSettingsEXX Int).eps_K)] :=
  ⟨(exx_local_work_ test_env test_density 2 2 test_world).getD test_world,
    by rfl, by decide, by decide⟩

/-- C13, amended: whatever configuration `eval_exx_` is given, a completed call
hands the screening the literals `1e-10`, `1e-10` exactly once, and the task
vector it leaves is the stable partition of the tasks screened with these
literals; the call does not depend on the configuration, and the thresholds
are the configured ones when the configuration is at its defaults. -/
theorem eval_exx_screening_thresholds {R : Type} (env : EXXEnv R) (m n : Int) (P : Nat → R)
    (ldp ldk : Int) (settings : IntegratorSettingsEXX R) (w w1 : EXXWorld R)
    (h : IncoreReplicatedXCDeviceIntegrator.eval_exx_ env m n P ldp ldk settings (some w)
      = (Except.ok (), some w1)) :
    screening_thresholds w1.device_calls
        = screening_thresholds w.device_calls ++ [(env.lit_1e_10, env.lit_1e_10)] ∧
      (∃ weighted : List (XCTask R),
        w1.tasks = (stable_partition has_cou_shells
          (List.zipWith (fun t c => { t with cou_screening := c }) weighted
            (exx_ek_screening env.ops env.add env.shell_size env.nbf env.nshells (P_abs env P)
              env.nbf (V_max env) env.nshells env.lit_1e_10 env.lit_1e_10
              (env.task_max_bfn weighted) (env.task_max_bf_sum weighted)
              (weighted.map fun t => t.cou_screening)))).1) ∧
      (∀ other : IntegratorSettingsEXX R,
        IncoreReplicatedXCDeviceIntegrator.eval_exx_ env m n P ldp ldk other (some w)
          = (Except.ok (), some w1)) ∧
      (settings = IntegratorSettingsEXX.defaults env →
        screening_thresholds w1.device_calls
          = screening_thresholds w.device_calls ++ [(settings.eps_E, settings.eps_K)]) := by
  have hl := eval_exx_device_completed env m n P ldp ldk settings w w1 h
  obtain ⟨weighted, calls1, extra, hm, ht, _, hc, _, hthr, _, _⟩ :=
    exx_local_work_spec env P ldp ldk w w1 hl
  obtain ⟨_, _, extra0, h0, hthr0, _, _⟩ := modify_weights_spec env _ _ _ _ hm
  simp only at h0
  have hfirst : screening_thresholds w1.device_calls
      = screening_thresholds w.device_calls ++ [(env.lit_1e_10, env.lit_1e_10)] := by
    rw [hc, h0]
    simp only [screening_thresholds_append, hthr0, hthr, screening_thresholds,
      List.append_nil]
  refine ⟨hfirst, ⟨weighted, ht⟩, fun other => h, ?_⟩
  intro hs
  rw [hfirst, hs]
  rfl

/-- Witness for C13: the call on the small instance with the thresholds
configured as `1`. -/
theorem eval_exx_screening_thresholds_witness :
    ∃ w1, IncoreReplicatedXCDeviceIntegrator.eval_exx_ test_env 2 2 test_density 2 2
          ({ eps_E := 1, eps_K := 1 } : IntegratorSettingsEXX Int) (some test_world)
        = (Except.ok (), some w1) ∧
      (screening_thresholds w1.device_calls
        = screening_thresholds test_world.device_calls
          ++ [(test_env.lit_1e_10, test_env.lit_1e_10)] ∧
      (∃ weighted : List (XCTask Int),
        w1.tasks = (stable_partition has_cou_shells
          (List.zipWith (fun t c => { t with cou_screening := c }) weighted
            (exx_ek_screening test_env.ops test_env.add test_env.shell_size test_env.nbf
              test_env.nshells (P_abs test_env test_density)
              test_env.nbf (V_max test_env) test_env.nshells test_env.lit_1e_10
              test_env.lit_1e_10
              (test_env.task_max_bfn weighted) (test_env.task_max_bf_sum weighted)
              (weighted.map fun t => t.cou_screening)))).1) ∧
      (∀ other : IntegratorSettingsEXX Int,
        IncoreReplicatedXCDeviceIntegrator.eval_exx_ test_env 2 2 test_density 2 2 other
            (some test_world)
          = (Except.ok (), some w1)) ∧
      (({ eps_E := 1, eps_K := 1 } : IntegratorSettingsEXX Int)
          = IntegratorSettingsEXX.defaults test_env →
        screening_thresholds w1.device_calls
          = screening_thresholds test_world.device_calls
            ++ [(({ eps_E := 1, eps_K := 1 } : IntegratorSettingsEXX Int).eps_E,
              ({ eps_E := 1, eps_K := 1 } : IntegratorSettingsEXX Int).eps_K)])) :=
  ⟨(exx_local_work_ test_env test_density 2 2 test_world).getD test_world, by rfl,
    eval_exx_screening_thresholds test_env 2 2 test_density 2 2 { eps_E := 1, eps_K := 1 }
      test_world _ (by rfl)⟩

end detail

namespace detail

/-! ### The task range handed to the dispatch loop -/

/-- C14: in a completed call of `exx_local_work_`, the tasks handed to the
dispatch loop, batch after batch, are exactly the tasks whose
`cou_screening.shell_list` is non-empty after the screening, in the order they
had before `std::stable_partition`; the task vector keeps the other tasks
behind them. -/
theorem exx_local_work_dispatches_screened {R : Type} (env : EXXEnv R) (P : Nat → R)
    (ldp ldk : Int) (w w1 : EXXWorld R) (h : exx_local_work_ env P ldp ldk w = some w1) :
    ∃ scr, screened_tasks env P w = some scr ∧
      dispatched_tasks w1.device_calls
        = dispatched_tasks w.device_calls ++ scr.filter has_cou_shells ∧
      w1.tasks = scr.filter has_cou_shells ++ scr.filter (fun t => !has_cou_shells t) ∧
      (scr.filter has_cou_shells).Sublist scr ∧
      (∀ t, t ∈ scr.filter has_cou_shells ↔ t ∈ scr ∧ t.cou_screening.shell_list ≠ []) := by
  obtain ⟨weighted, calls1, extra, hm, ht, _, hc, hd, _, _, _⟩ :=
    exx_local_work_spec env P ldp ldk w w1 h
  obtain ⟨_, _, extra0, h0, _, hd0, _⟩ := modify_weights_spec env _ _ _ _ hm
  simp only at h0
  refine ⟨screen_tasks env P weighted, ?_, ?_, ht, List.filter_sublist _, ?_⟩
  · unfold screened_tasks
    rw [hm]
    rfl
  · rw [hc, h0]
    simp only [dispatched_tasks_append, hd0, hd, dispatched_tasks, List.append_nil]
  · intro t
    rw [List.mem_filter]
    unfold has_cou_shells
    simp only [decide_eq_true_eq, List.length_pos]

/-- Witness for C14: the call on the small instance, where the task without
grid points gets an empty list and is not dispatched. -/
theorem exx_local_work_dispatches_screened_witness :
    ∃ w1, exx_local_work_ test_env test_density 2 2 test_world = some w1 ∧
      ∃ scr, screened_tasks test_env test_density test_world = some scr ∧
        dispatched_tasks w1.device_calls
          = dispatched_tasks test_world.device_calls ++ scr.filter has_cou_shells ∧
        w1.tasks = scr.filter has_cou_shells ++ scr.filter (fun t => !has_cou_shells t) ∧
        (scr.filter has_cou_shells).Sublist scr ∧
        (∀ t, t ∈ scr.filter has_cou_shells ↔ t ∈ scr ∧ t.cou_screening.shell_list ≠ []) :=
  ⟨(exx_local_work_ test_env test_density 2 2 test_world).getD test_world, by decide,
    exx_local_work_dispatches_screened test_env test_density 2 2 test_world _ (by decide)⟩

/-- The call on the small instance dispatches the two tasks that have grid
points, in sorted order, and leaves the third at the end of the vector. -/
theorem exx_local_work_small_instance_dispatch :
    (exx_local_work_ test_env test_density 2 2 test_world).map
        (fun w1 => ((dispatched_tasks w1.device_calls).map fun t => t.points.length,
          w1.tasks.map fun t => (t.points.length, t.cou_screening.shell_list)))
      = some ([2, 1], [(2, [0, 1]), (1, [0, 1]), (0, [])]) := by
  decide

end detail

namespace integrator.cuda

/-! ### The three branches of `integral_list_intersect` agree -/

/-- C23: for sorted, duplicate-free lists `A` and `B` (fewer than `2^32` entries
each) and every threshold `T ≥ 1`, `integral_list_intersect(A, B, T)` returns
`true` if and only if `A` and `B` are both non-empty and
`|A ∩ B| ≥ min(T, |A|, |B|)`; and on non-empty lists each of the three
size-ratio branches (search of `B` for the elements of `A`, search of `A` for
the elements of `B`, the merge loop) computes this same answer, so the result
does not depend on the branch taken. -/
theorem integral_list_intersect_branch_independent (A B : List Int) (T : Nat)
    (hA : A.Sorted (· < ·)) (hB : B.Sorted (· < ·))
    (hAl : A.length < 2 ^ 32) (hBl : B.length < 2 ^ 32) (hT : 1 ≤ T) :
    (∃ b, integral_list_intersect A B T = some b) ∧
    (integral_list_intersect A B T = some true ↔
      A ≠ [] ∧ B ≠ [] ∧ min T (min A.length B.length) ≤ (A.toFinset ∩ B.toFinset).card) ∧
    (A ≠ [] → B ≠ [] →
      intersect_search_loop B (overlap_threshold A B T) A 0
          = decide (min T (min A.length B.length) ≤ (A.toFinset ∩ B.toFinset).card) ∧
        intersect_search_loop A (overlap_threshold A B T) B 0
          = decide (min T (min A.length B.length) ≤ (A.toFinset ∩ B.toFinset).card) ∧
        intersect_merge_loop (overlap_threshold A B T) (A.length + B.length + 1) A B 0
          = some (decide (min T (min A.length B.length)
              ≤ (A.toFinset ∩ B.toFinset).card))) := by
  have hchar := integral_list_intersect_char hA hB hAl hBl hT
  have hcard := common_eq_card hA.nodup B
  refine ⟨⟨_, hchar⟩, ?_, ?_⟩
  · rw [hchar, hcard]
    simp only [Option.some.injEq, decide_eq_true_eq]
  · intro hAne hBne
    have hthr : overlap_threshold A B T = min T (min A.length B.length) := by
      unfold overlap_threshold
      rw [Nat.mod_eq_of_lt (by omega), Nat.min_comm]
    have hApos : 0 < A.length := List.length_pos.2 hAne
    have hBpos : 0 < B.length := List.length_pos.2 hBne
    have hpos : 0 < min T (min A.length B.length) := by omega
    rw [hthr, ← hcard]
    refine ⟨?_, ?_, ?_⟩
    · rw [intersect_search_loop_spec hB _ A 0 (by omega) hpos, Nat.zero_add]
    · rw [intersect_search_loop_spec hA _ B 0 (by omega) hpos, Nat.zero_add,
        common_comm hB.nodup hA.nodup]
    · rw [intersect_merge_loop_spec _ _ A B 0 hA hB (by omega) (by omega) hpos, Nat.zero_add]

/-- Witness for C23: `[1,2,3]` and `[2,3,4]` at threshold `2`. -/
theorem integral_list_intersect_branch_independent_witness :
    (∃ b, integral_list_intersect [1, 2, 3] [2, 3, 4] 2 = some b) ∧
    (integral_list_intersect [1, 2, 3] [2, 3, 4] 2 = some true ↔
      ([1, 2, 3] : List Int) ≠ [] ∧ ([2, 3, 4] : List Int) ≠ [] ∧
        min 2 (min ([1, 2, 3] : List Int).length ([2, 3, 4] : List Int).length)
          ≤ (([1, 2, 3] : List Int).toFinset ∩ ([2, 3, 4] : List Int).toFinset).card) ∧
    (([1, 2, 3] : List Int) ≠ [] → ([2, 3, 4] : List Int) ≠ [] →
      intersect_search_loop [2, 3, 4] (overlap_threshold [1, 2, 3] [2, 3, 4] 2) [1, 2, 3] 0
          = decide (min 2 (min ([1, 2, 3] : List Int).length ([2, 3, 4] : List Int).length)
              ≤ (([1, 2, 3] : List Int).toFinset ∩ ([2, 3, 4] : List Int).toFinset).card) ∧
        intersect_search_loop [1, 2, 3] (overlap_threshold [1, 2, 3] [2, 3, 4] 2) [2, 3, 4] 0
          = decide (min 2 (min ([1, 2, 3] : List Int).length ([2, 3, 4] : List Int).length)
              ≤ (([1, 2, 3] : List Int).toFinset ∩ ([2, 3, 4] : List Int).toFinset).card) ∧
        intersect_merge_loop (overlap_threshold [1, 2, 3] [2, 3, 4] 2)
            (([1, 2, 3] : List Int).length + ([2, 3, 4] : List Int).length + 1)
            [1, 2, 3] [2, 3, 4] 0
          = some (decide (min 2 (min ([1, 2, 3] : List Int).length
              ([2, 3, 4] : List Int).length)
              ≤ (([1, 2, 3] : List Int).toFinset ∩ ([2, 3, 4] : List Int).toFinset).card))) :=
  integral_list_intersect_branch_independent [1, 2, 3] [2, 3, 4] 2
    (by decide) (by decide) (by decide) (by decide) (by decide)

end integrator.cuda

namespace integrator.cuda

/-! ### The rewritten shell list -/

theorem reset_shell_list_getElem (union_shell_list : List Int) :
    ∀ (js cs : List Int), reset_shell_list union_shell_list js = some cs →
      js.length = cs.length ∧
        ∀ (j : Nat) (k : Int), js[j]? = some k →
          0 ≤ k ∧ k.toNat < union_shell_list.length ∧
            union_shell_list[k.toNat]? = cs[j]? := by
  intro js
  induction js with
  | nil =>
    intro cs h
    simp only [reset_shell_list, Option.some.injEq] at h
    subst h
    exact ⟨rfl, fun j k hk => by simp at hk⟩
  | cons k0 ks ih =>
    intro cs h
    rw [reset_shell_list] at h
    split at h
    · rename_i hk0
      split at h
      · rename_i s rest hs hrest
        simp only [Option.some.injEq] at h
        subst h
        obtain ⟨hl, hget⟩ := ih rest hrest
        refine ⟨by simp [hl], ?_⟩
        intro j k hk
        cases j with
        | zero =>
          simp only [List.getElem?_cons_zero, Option.some.injEq] at hk
          subst hk
          refine ⟨hk0, ?_, by simpa using hs⟩
          exact (List.getElem?_eq_some_iff.1 hs).1
        | succ j =>
          simp only [List.getElem?_cons_succ] at hk ⊢
          exact hget j k hk
      · exact Option.noConfusion h
    · exact Option.noConfusion h

theorem sorted_getElem?_le {l : List Int} (hl : l.Sorted (· ≤ ·)) {a b : Nat} {x y : Int}
    (hab : a ≤ b) (hx : l[a]? = some x) (hy : l[b]? = some y) : x ≤ y := by
  obtain ⟨ha, hxa⟩ := List.getElem?_eq_some_iff.1 hx
  obtain ⟨hb, hyb⟩ := List.getElem?_eq_some_iff.1 hy
  rcases Nat.lt_or_eq_of_le hab with h | h
  · rw [← hxa, ← hyb]
    exact (List.pairwise_iff_getElem.1 hl) a b ha hb h
  · subst h
    rw [hx] at hy
    exact le_of_eq (Option.some.inj hy)

/-- C29: when a task's `shell_list` is sorted and contained in the sorted union
shell list (of at most `2^31` entries), the rewrite loop of
`device_execute_shellbatched` completes without reading the union list out of
bounds; the rewritten list has the length of the original, its entry `j` is an
index `i` with `0 ≤ i < |union_shell_list|` and `union_shell_list[i]` equal to
the original shell `j`; and it is strictly increasing when the original is. -/
theorem recalc_shell_list_in_bounds (union_shell_list cur : List Int)
    (hlen : union_shell_list.length ≤ 2 ^ 31)
    (hu : union_shell_list.Sorted (· ≤ ·)) (hc : cur.Sorted (· ≤ ·))
    (hsub : ∀ c ∈ cur, c ∈ union_shell_list) :
    ∃ js, recalc_shell_list union_shell_list cur = some js ∧
      js.length = cur.length ∧
      (∀ (j : Nat) (k : Int), js[j]? = some k →
        0 ≤ k ∧ k.toNat < union_shell_list.length ∧ union_shell_list[k.toNat]? = cur[j]?) ∧
      (cur.Sorted (· < ·) → js.Sorted (· < ·)) := by
  obtain ⟨js, hrec, hreset⟩ := recalc_reset_shell_list union_shell_list cur hlen hu hc hsub
  obtain ⟨hl, hget⟩ := reset_shell_list_getElem union_shell_list js cur hreset
  refine ⟨js, hrec, hl, hget, ?_⟩
  intro hstrict
  unfold List.Sorted
  rw [List.pairwise_iff_getElem]
  intro i j hi hj hij
  have h1 := hget i js[i] (List.getElem?_eq_getElem hi)
  have h2 := hget j js[j] (List.getElem?_eq_getElem hj)
  have hci : cur[i]? = some cur[i] := List.getElem?_eq_getElem (by omega)
  have hcj : cur[j]? = some cur[j] := List.getElem?_eq_getElem (by omega)
  have hlt : cur[i] < cur[j] :=
    (List.pairwise_iff_getElem.1 hstrict) i j (by omega) (by omega) hij
  by_contra hcon
  have hle : (js[j]).toNat ≤ (js[i]).toNat := by
    have := h1.1
    have := h2.1
    omega
  have := sorted_getElem?_le hu hle (h2.2.2.trans hcj) (h1.2.2.trans hci)
  omega

/-- Witness for C29: the shell list `[2, 7, 9]` in the union list
`[2, 5, 7, 9]`. -/
theorem recalc_shell_list_in_bounds_witness :
    ∃ js, recalc_shell_list [2, 5, 7, 9] [2, 7, 9] = some js ∧
      js.length = ([2, 7, 9] : List Int).length ∧
      (∀ (j : Nat) (k : Int), js[j]? = some k →
        0 ≤ k ∧ k.toNat < ([2, 5, 7, 9] : List Int).length ∧
          ([2, 5, 7, 9] : List Int)[k.toNat]? = ([2, 7, 9] : List Int)[j]?) ∧
      (([2, 7, 9] : List Int).Sorted (· < ·) → js.Sorted (· < ·)) :=
  recalc_shell_list_in_bounds [2, 5, 7, 9] [2, 7, 9] (by decide) (by decide) (by decide)
    (by decide)

end integrator.cuda

namespace detail

/-! ### The `MGGA NYI` error of the host dispatcher -/

/-- C30: the run-time dispatcher `process_batches_host_replicated_p( n_deriv, ... )`
raises `MGGA NYI` if and only if `n_deriv` is neither `0` nor `1` (and raises
nothing else), while `eval_exc_vxc_` passes `n_deriv = 1` when the functional
is GGA and `0` otherwise: whatever the functional answers to `is_gga()`, a
meta-GGA functional included, `eval_exc_vxc_` does not raise. -/
theorem eval_exc_vxc_never_reaches_mgga_nyi {F D I : Type}
    (inst0 inst1 : I → BatchOutput F D) (nbf : Nat) (args : I) :
    (∀ n_deriv : Nat,
      (process_batches_host_replicated_p inst0 inst1 n_deriv args = Except.error "MGGA NYI"
        ↔ n_deriv ≠ 0 ∧ n_deriv ≠ 1) ∧
      (∀ e, process_batches_host_replicated_p inst0 inst1 n_deriv args = Except.error e →
        e = "MGGA NYI")) ∧
    (∀ is_gga : Bool,
      eval_exc_vxc_ inst0 inst1 nbf is_gga args
        = Except.ok ((if is_gga then inst1 args else inst0 args).exc,
            { rows := nbf, cols := nbf,
              data := (if is_gga then inst1 args else inst0 args).VXC }) ∧
      ∀ e, eval_exc_vxc_ inst0 inst1 nbf is_gga args ≠ Except.error e) := by
  constructor
  · intro n_deriv
    unfold process_batches_host_replicated_p
    by_cases h0 : n_deriv = 0
    · simp [h0]
    · by_cases h1 : n_deriv = 1
      · simp [h1]
      · simp [h0, h1]
  · intro is_gga
    cases is_gga
    · exact ⟨rfl, fun e h => Except.noConfusion h⟩
    · exact ⟨rfl, fun e h => Except.noConfusion h⟩

end detail

namespace integrator.cuda

/-! ### `generate_dev_batch` makes progress and only reorders -/

theorem list_subset_of_mem :
    ∀ (A B : List Int), A.Sorted (· < ·) → B.Sorted (· < ·) → (∀ x ∈ B, x ∈ A) →
      list_subset A B = true := by
  intro A
  induction A with
  | nil =>
    intro B _ _ h
    cases B with
    | nil => rfl
    | cons b bs => exact absurd (h b (List.mem_cons_self _ _)) (List.not_mem_nil _)
  | cons a as ih =>
    intro B hA hB h
    cases B with
    | nil => rfl
    | cons b bs =>
      have hab : a ≤ b := by
        rcases List.mem_cons.1 (h b (List.mem_cons_self _ _)) with hb | hb
        · exact le_of_eq hb.symm
        · exact le_of_lt (List.rel_of_sorted_cons hA b hb)
      rw [list_subset, if_neg (by omega)]
      by_cases hlt : a < b
      · rw [if_pos hlt]
        apply ih _ hA.of_cons hB
        intro x hx
        have hbx : b ≤ x := by
          rcases List.mem_cons.1 hx with hxb | hxb
          · exact le_of_eq hxb.symm
          · exact le_of_lt (List.rel_of_sorted_cons hB x hxb)
        rcases List.mem_cons.1 (h x hx) with hxa | hxa
        · omega
        · exact hxa
      · rw [if_neg hlt]
        apply ih _ hA.of_cons hB.of_cons
        intro x hx
        have hbx : b < x := List.rel_of_sorted_cons hB x hx
        rcases List.mem_cons.1 (h x (List.mem_cons_of_mem _ hx)) with hxa | hxa
        · omega
        · exact hxa

/-- On a non-empty range of tasks with increasing shell lists, `generate_dev_batch`
returns a batch that starts at `task_begin`, is not empty and holds a task of
largest `nbe`; the range is permuted and the tasks before it stay in place. -/
theorem generate_dev_batch_progress (nbf_threshold : Nat)
    (overlap_threshold_of : Nat → Nat → Nat) (nbf_subset : List Int → Nat)
    (tasks : List XCTask) (task_begin : Nat) (hlt : task_begin < tasks.length)
    (hgood : ∀ t ∈ tasks.drop task_begin, GoodList t.shell_list)
    (hpos : ∀ n i, 1 ≤ overlap_threshold_of n i)
    (hmono : ∀ n i j, i ≤ j → overlap_threshold_of n i ≤ overlap_threshold_of n j) :
    ∃ batch tasks1 m,
      generate_dev_batch nbf_threshold overlap_threshold_of nbf_subset tasks task_begin
        = some (batch, tasks1) ∧
      batch.task_begin = task_begin ∧ task_begin < batch.task_end ∧
      batch.task_end ≤ tasks.length ∧
      (tasks1.drop task_begin).Perm (tasks.drop task_begin) ∧
      tasks1.take task_begin = tasks.take task_begin ∧
      tasks1.length = tasks.length ∧
      m ∈ (tasks1.take batch.task_end).drop task_begin ∧
      m ∈ tasks.drop task_begin ∧ (∀ t ∈ tasks.drop task_begin, t.nbe ≤ m.nbe) := by
  obtain ⟨t0, rest, hdrop⟩ : ∃ t0 rest, tasks.drop task_begin = t0 :: rest := by
    cases h : tasks.drop task_begin with
    | nil =>
      have := congrArg List.length h
      rw [List.length_drop] at this
      simp only [List.length_nil] at this
      omega
    | cons t0 rest => exact ⟨t0, rest, rfl⟩
  obtain ⟨idxp, U, A, A1, B1, hgen, hperm, _, hU, hA, hAB, _, hMU, _, hB1, _, _⟩ :=
    generate_dev_batch_spec nbf_threshold overlap_threshold_of nbf_subset tasks task_begin
      t0 rest hdrop hgood hpos hmono
  have hmaxmem : max_element_loop t0 rest ∈ tasks.drop task_begin := by
    rw [hdrop]
    exact max_element_loop_mem rest t0
  have hMgood := hgood _ hmaxmem
  have hUs : U.Sorted (· < ·) := by
    rw [hU]
    exact insert_shell_lists_sorted _ _ (set_insert_range_sorted _ _ (by simp))
  have hsubset : list_subset U (max_element_loop t0 rest).shell_list = true :=
    list_subset_of_mem U _ hUs hMgood.1 hMU
  have hmemAA1 : max_element_loop t0 rest ∈ A ++ A1 := by
    have hm : max_element_loop t0 rest ∈ A ++ A1 ++ B1 := hperm.mem_iff.2 hmaxmem
    rcases List.mem_append.1 hm with h | h
    · exact h
    · rw [hB1 _ h] at hsubset
      exact Bool.noConfusion hsubset
  have hlen_take : (tasks.take task_begin).length = task_begin := by
    rw [List.length_take]
    omega
  have hlenperm := hperm.length_eq
  rw [List.length_drop] at hlenperm
  simp only [List.length_append] at hlenperm
  have hpos_len : 0 < (A ++ A1).length := List.length_pos_of_mem hmemAA1
  simp only [List.length_append] at hpos_len
  refine ⟨_, _, max_element_loop t0 rest, hgen, rfl, ?_, ?_, ?_, ?_, ?_, ?_, hmaxmem, ?_⟩
  · simp only
    omega
  · simp only
    omega
  · rw [List.drop_left' hlen_take]
    exact hperm
  · rw [List.take_left' hlen_take]
  · simp only [List.length_append, hlen_take]
    omega
  · simp only
    have h1 : (tasks.take task_begin ++ (A ++ A1 ++ B1)).take
        (task_begin + (A.length + A1.length)) = tasks.take task_begin ++ (A ++ A1) := by
      rw [← List.append_assoc, List.take_left']
      simp only [List.length_append, hlen_take]
    rw [h1, List.drop_left' hlen_take]
    exact hmemAA1
  · intro t ht
    rw [hdrop] at ht
    exact max_element_loop_ge rest t0 t ht

/-- C25: on a non-empty range `[task_begin, local_work_end)` of tasks with
increasing shell lists, `generate_dev_batch` returns and only reorders: the
tasks of the range are afterwards a permutation of those that were there, the
tasks before `task_begin` are untouched and the vector keeps its length. -/
theorem generate_dev_batch_only_reorders (nbf_threshold : Nat)
    (overlap_threshold_of : Nat → Nat → Nat) (nbf_subset : List Int → Nat)
    (tasks : List XCTask) (task_begin : Nat) (hlt : task_begin < tasks.length)
    (hgood : ∀ t ∈ tasks.drop task_begin, GoodList t.shell_list)
    (hpos : ∀ n i, 1 ≤ overlap_threshold_of n i)
    (hmono : ∀ n i j, i ≤ j → overlap_threshold_of n i ≤ overlap_threshold_of n j) :
    ∃ batch tasks1,
      generate_dev_batch nbf_threshold overlap_threshold_of nbf_subset tasks task_begin
        = some (batch, tasks1) ∧
      (tasks1.drop task_begin).Perm (tasks.drop task_begin) ∧
      tasks1.take task_begin = tasks.take task_begin ∧
      tasks1.length = tasks.length := by
  obtain ⟨batch, tasks1, _, hgen, _, _, _, hperm, htake, hlen, _⟩ :=
    generate_dev_batch_progress nbf_threshold overlap_threshold_of nbf_subset tasks task_begin
      hlt hgood hpos hmono
  exact ⟨batch, tasks1, hgen, hperm, htake, hlen⟩

/-- Witness for C25: four tasks, the range starting at position one. -/
theorem generate_dev_batch_only_reorders_witness :
    ∃ batch tasks1,
      generate_dev_batch 8000 overlap_threshold_exact (fun l => l.length)
          [⟨1, [7]⟩, ⟨2, [0, 3]⟩, ⟨1, [9]⟩, ⟨3, [0, 1, 2]⟩] 1
        = some (batch, tasks1) ∧
      (tasks1.drop 1).Perm
        (([⟨1, [7]⟩, ⟨2, [0, 3]⟩, ⟨1, [9]⟩, ⟨3, [0, 1, 2]⟩] : List XCTask).drop 1) ∧
      tasks1.take 1 = ([⟨1, [7]⟩, ⟨2, [0, 3]⟩, ⟨1, [9]⟩, ⟨3, [0, 1, 2]⟩] : List XCTask).take 1 ∧
      tasks1.length = ([⟨1, [7]⟩, ⟨2, [0, 3]⟩, ⟨1, [9]⟩, ⟨3, [0, 1, 2]⟩] : List XCTask).length :=
  generate_dev_batch_only_reorders 8000 overlap_threshold_exact (fun l => l.length)
    [⟨1, [7]⟩, ⟨2, [0, 3]⟩, ⟨1, [9]⟩, ⟨3, [0, 1, 2]⟩] 1 (by decide)
    (by
      intro t ht
      simp only [List.drop_succ_cons, List.drop_zero, List.mem_cons, List.mem_singleton,
        List.not_mem_nil, or_false] at ht
      rcases ht with rfl | rfl | rfl <;> exact ⟨by decide, by decide⟩)
    (fun n i => overlap_threshold_exact_pos n i)
    (fun n i j h => overlap_threshold_exact_mono n i j h)

end integrator.cuda

namespace integrator.cuda

/-! ### The producer loop terminates and covers the task range -/

theorem consecutive_batches_snoc :
    ∀ (ds : List dev_ex_task) (b e : Nat) (d : dev_ex_task),
      consecutive_batches b ds e → d.task_begin = e → e < d.task_end →
      consecutive_batches b (ds ++ [d]) d.task_end := by
  intro ds
  induction ds with
  | nil =>
    intro b e d h hb he
    simp only [consecutive_batches] at h
    subst h
    exact ⟨hb, he, rfl⟩
  | cons x xs ih =>
    intro b e d h hb he
    obtain ⟨h1, h2, h3⟩ := h
    exact ⟨h1, h2, ih _ _ d h3 hb he⟩

theorem consecutive_batches_length :
    ∀ (ds : List dev_ex_task) (b e : Nat), consecutive_batches b ds e → b + ds.length ≤ e := by
  intro ds
  induction ds with
  | nil =>
    intro b e h
    simp only [consecutive_batches] at h
    simp [h]
  | cons x xs ih =>
    intro b e h
    obtain ⟨_, h2, h3⟩ := h
    have := ih _ _ h3
    simp only [List.length_cons]
    omega

theorem worker_run_frame (device_ok : dev_ex_task → Bool) (s : PipelineState) :
    (worker_run device_ok s).tasks = s.tasks ∧
      (worker_run device_ok s).task_begin = s.task_begin ∧
      (worker_run device_ok s).produced = s.produced := by
  unfold worker_run
  split <;> exact ⟨rfl, rfl, rfl⟩

theorem worker_finish_frame (device_ok : dev_ex_task → Bool) (s : PipelineState) :
    (worker_finish device_ok s).tasks = s.tasks ∧
      (worker_finish device_ok s).task_begin = s.task_begin ∧
      (worker_finish device_ok s).produced = s.produced := by
  unfold worker_finish
  split
  · exact worker_run_frame device_ok s
  · exact ⟨rfl, rfl, rfl⟩

theorem drain_queue_frame (device_ok : dev_ex_task → Bool) :
    ∀ (q : List dev_ex_task) (s : PipelineState),
      drain_queue device_ok q s ≠ Outcome.out_of_fuel ∧
        ∀ r, drain_queue device_ok q s = Outcome.returned r →
          r.tasks = s.tasks ∧ r.task_begin = s.task_begin ∧ r.produced = s.produced := by
  intro q
  induction q with
  | nil =>
    intro s
    refine ⟨fun h => Outcome.noConfusion h, ?_⟩
    intro r hr
    simp only [drain_queue, Outcome.returned.injEq] at hr
    subst hr
    exact ⟨rfl, rfl, rfl⟩
  | cons b q ih =>
    intro s
    rw [drain_queue]
    by_cases hok : device_ok b = true
    · simp only [hok, if_true]
      obtain ⟨h1, h2⟩ := ih { s with dev_tasks := q, executed := s.executed ++ [b] }
      exact ⟨h1, fun r hr => h2 r hr⟩
    · simp only [hok]
      exact ⟨fun h => Outcome.noConfusion h, fun r hr => Outcome.noConfusion hr⟩

theorem finish_pipeline_frame (device_ok : dev_ex_task → Bool) (s : PipelineState) :
    finish_pipeline device_ok s ≠ Outcome.out_of_fuel ∧
      ∀ r, finish_pipeline device_ok s = Outcome.returned r →
        r.tasks = s.tasks ∧ r.task_begin = s.task_begin ∧ r.produced = s.produced := by
  unfold finish_pipeline
  by_cases hv : s.dev_future = Future.invalid
  · simp only [hv, if_true]
    exact drain_queue_frame device_ok _ s
  · simp only [hv, if_false]
    obtain ⟨h1, h2⟩ := drain_queue_frame device_ok (worker_finish device_ok s).dev_tasks
      (worker_finish device_ok s)
    obtain ⟨f1, f2, f3⟩ := worker_finish_frame device_ok s
    refine ⟨h1, fun r hr => ?_⟩
    obtain ⟨g1, g2, g3⟩ := h2 r hr
    exact ⟨g1.trans f1, g2.trans f2, g3.trans f3⟩

theorem launch_or_poll_frame (device_ok : dev_ex_task → Bool) (ready : Nat → Bool)
    (s s1 : PipelineState) (hs : launch_or_poll device_ok ready s = Except.ok s1) :
    s1.tasks = s.tasks ∧ s1.task_begin = s.task_begin ∧ s1.produced = s.produced := by
  unfold launch_or_poll at hs
  split at hs
  · have := Except.ok.inj hs
    subst this
    exact ⟨rfl, rfl, rfl⟩
  · split at hs
    · simp only at hs
      split at hs
      · exact Except.noConfusion hs
      · have := Except.ok.inj hs
        subst this
        exact worker_finish_frame device_ok s
    · have := Except.ok.inj hs
      subst this
      exact ⟨rfl, rfl, rfl⟩

theorem worker_may_run_frame (device_ok : dev_ex_task → Bool) (early : Nat → Bool)
    (s : PipelineState) :
    (worker_may_run device_ok early s).tasks = s.tasks ∧
      (worker_may_run device_ok early s).task_begin = s.task_begin ∧
      (worker_may_run device_ok early s).produced = s.produced := by
  unfold worker_may_run
  split
  · exact worker_finish_frame device_ok s
  · exact ⟨rfl, rfl, rfl⟩

theorem advance_task_begin_spec (s s1 : PipelineState)
    (h : s.produced = s.executed ++ s.dev_tasks) (hs : advance_task_begin s = some s1) :
    s1.tasks = s.tasks ∧ s1.produced = s.produced ∧
      ∃ last, s.produced.getLast? = some last ∧ s1.task_begin = last.task_end := by
  unfold advance_task_begin at hs
  split at hs
  · exact Option.noConfusion hs
  · rename_i last hlast
    have := Option.some.inj hs
    subst this
    refine ⟨rfl, rfl, last, ?_, rfl⟩
    rw [h]
    cases hq : s.dev_tasks with
    | nil => simp [hq] at hlast
    | cons d ds =>
      rw [List.getLast?_append_of_ne_nil _ (by simp), ← hq]
      exact hlast

end integrator.cuda

namespace integrator.cuda

theorem producer_loop_progress (overlap_threshold_of : Nat → Nat → Nat)
    (nbf_subset : List Int → Nat) (device_ok : dev_ex_task → Bool) (ready early : Nat → Bool)
    (tasks0 : List XCTask) (hgood : ∀ t ∈ tasks0, GoodList t.shell_list)
    (hpos : ∀ n i, 1 ≤ overlap_threshold_of n i)
    (hmono : ∀ n i j, i ≤ j → overlap_threshold_of n i ≤ overlap_threshold_of n j) :
    ∀ (fuel : Nat) (s : PipelineState),
      s.produced = s.executed ++ s.dev_tasks →
      consecutive_batches 0 s.produced s.task_begin →
      s.task_begin ≤ s.tasks.length → s.tasks.Perm tasks0 →
      s.tasks.length - s.task_begin < fuel →
      producer_loop overlap_threshold_of nbf_subset device_ok ready early fuel s
          ≠ Outcome.out_of_fuel ∧
        ∀ r, producer_loop overlap_threshold_of nbf_subset device_ok ready early fuel s
            = Outcome.returned r →
          consecutive_batches 0 r.produced tasks0.length ∧ r.tasks.Perm tasks0 := by
  intro fuel
  induction fuel with
  | zero => intro s _ _ _ _ hf; omega
  | succ fuel ih =>
    intro s hq hcons hle hperm hf
    rw [producer_loop]
    by_cases hend : s.task_begin = s.tasks.length
    · simp only [hend, if_true]
      obtain ⟨h1, h2⟩ := finish_pipeline_frame device_ok s
      refine ⟨h1, fun r hr => ?_⟩
      obtain ⟨g1, _, g3⟩ := h2 r hr
      rw [g1, g3, ← hperm.length_eq, ← hend]
      exact ⟨hcons, hperm⟩
    · simp only [hend, if_false]
      have hlt : s.task_begin < s.tasks.length := by omega
      have hgood1 : ∀ t ∈ s.tasks.drop s.task_begin, GoodList t.shell_list :=
        fun t ht => hgood t (hperm.mem_iff.1 (List.mem_of_mem_drop ht))
      obtain ⟨batch, tasks1, _, hgen, hb, hbe, hte, hp1, htake, hlen, _⟩ :=
        generate_dev_batch_progress 8000 overlap_threshold_of nbf_subset s.tasks s.task_begin
          hlt hgood1 hpos hmono
      have hperm1 : tasks1.Perm s.tasks := by
        rw [← List.take_append_drop s.task_begin tasks1,
          ← List.take_append_drop s.task_begin s.tasks, htake]
        exact List.Perm.append_left _ hp1
      simp only [hgen]
      have h1 : (emplace_batch s batch tasks1).produced
          = (emplace_batch s batch tasks1).executed
            ++ (emplace_batch s batch tasks1).dev_tasks := by
        simp only [emplace_batch]
        rw [hq, List.append_assoc]
      cases hl : launch_or_poll device_ok ready (emplace_batch s batch tasks1) with
      | error se =>
        exact ⟨fun h => Outcome.noConfusion h, fun r hr => Outcome.noConfusion hr⟩
      | ok s1 =>
        simp only
        have h2 := launch_or_poll_inv device_ok ready _ s1 h1 hl
        obtain ⟨f1, _, f3⟩ := launch_or_poll_frame device_ok ready _ s1 hl
        have h3 := worker_may_run_inv device_ok early s1 h2
        obtain ⟨w1, _, w3⟩ := worker_may_run_frame device_ok early s1
        cases ha : advance_task_begin (worker_may_run device_ok early s1) with
        | none =>
          exact ⟨fun h => Outcome.noConfusion h, fun r hr => Outcome.noConfusion hr⟩
        | some s2 =>
          simp only
          obtain ⟨a1, a3, last, hlast, hbegin⟩ := advance_task_begin_spec _ s2 h3 ha
          have hprod : s2.produced = s.produced ++ [batch] := by
            rw [a3, w3, f3]
            rfl
          have htasks : s2.tasks = tasks1 := by
            rw [a1, w1, f1]
            rfl
          have hlastb : last = batch := by
            rw [w3, f3] at hlast
            simp only [emplace_batch] at hlast
            rw [List.getLast?_append_of_ne_nil _ (by simp), List.getLast?_singleton] at hlast
            exact (Option.some.inj hlast).symm
          rw [hlastb] at hbegin
          apply ih s2 (advance_task_begin_inv _ s2 h3 ha)
          · rw [hprod, hbegin]
            exact consecutive_batches_snoc _ _ _ batch hcons hb (by omega)
          · rw [htasks, hbegin, hlen]
            exact hte
          · rw [htasks]
            exact hperm1.trans hperm
          · rw [htasks, hbegin, hlen]
            omega

theorem drain_queue_returns (device_ok : dev_ex_task → Bool)
    (hok : ∀ b, device_ok b = true) :
    ∀ (q : List dev_ex_task) (s : PipelineState),
      ∃ r, drain_queue device_ok q s = Outcome.returned r := by
  intro q
  induction q with
  | nil => intro s; exact ⟨s, rfl⟩
  | cons b q ih =>
    intro s
    rw [drain_queue]
    simp only [hok b, if_true]
    exact ih _

theorem finish_pipeline_returns (device_ok : dev_ex_task → Bool)
    (hok : ∀ b, device_ok b = true) (s : PipelineState) :
    ∃ r, finish_pipeline device_ok s = Outcome.returned r := by
  unfold finish_pipeline
  exact drain_queue_returns device_ok hok _ _

theorem launch_or_poll_returns (device_ok : dev_ex_task → Bool)
    (hok : ∀ b, device_ok b = true) (ready : Nat → Bool) (s : PipelineState)
    (h : (s.dev_future = Future.invalid ∧ s.dev_tasks ≠ []) ∨
      (s.dev_future = Future.pending ∧ 2 ≤ s.dev_tasks.length)) :
    ∃ s1, launch_or_poll device_ok ready s = Except.ok s1 ∧
      s1.dev_future = Future.pending ∧ s1.dev_tasks ≠ [] := by
  unfold launch_or_poll
  rcases h with ⟨hinv, hne⟩ | ⟨hpend, hlen⟩
  · rw [if_pos hinv]
    exact ⟨_, rfl, rfl, hne⟩
  · have hni : ¬ s.dev_future = Future.invalid := by
      rw [hpend]
      exact fun h => Future.noConfusion h
    rw [if_neg hni]
    by_cases hr : ready s.iter = true
    · rw [if_pos hr]
      obtain ⟨b, c, q, hq⟩ : ∃ b c q, s.dev_tasks = b :: c :: q := by
        cases hs : s.dev_tasks with
        | nil => rw [hs] at hlen; simp at hlen
        | cons b rest =>
          cases rest with
          | nil => rw [hs] at hlen; simp at hlen
          | cons c q => exact ⟨b, c, q, rfl⟩
      have hwf : worker_finish device_ok s
          = { s with dev_tasks := c :: q, executed := s.executed ++ [b],
                     dev_future := Future.done true } := by
        unfold worker_finish
        rw [if_pos hpend]
        unfold worker_run
        rw [hq]
        simp only [hok b]
      simp only [hwf]
      rw [if_neg (by simp)]
      exact ⟨_, rfl, rfl, by simp⟩
    · rw [if_neg hr]
      refine ⟨s, rfl, hpend, ?_⟩
      intro hnil
      rw [hnil] at hlen
      simp at hlen

theorem advance_task_begin_some (s : PipelineState) (hne : s.dev_tasks ≠ []) :
    ∃ s1, advance_task_begin s = some s1 ∧ s1.dev_future = s.dev_future ∧
      s1.dev_tasks = s.dev_tasks := by
  unfold advance_task_begin
  cases hl : s.dev_tasks.getLast? with
  | none => exact absurd (List.getLast?_eq_none_iff.1 hl) hne
  | some last => exact ⟨_, rfl, rfl, rfl⟩

/-- When every execution succeeds and the worker never takes its batch before
the master has read `dev_tasks.back()`, the producer loop and the drain loop
run to the end and the call returns, whatever the polls answer. -/
theorem producer_loop_returns (overlap_threshold_of : Nat → Nat → Nat)
    (nbf_subset : List Int → Nat) (device_ok : dev_ex_task → Bool) (ready early : Nat → Bool)
    (hok : ∀ b, device_ok b = true) (hearly : ∀ i, early i = false)
    (tasks0 : List XCTask) (hgood : ∀ t ∈ tasks0, GoodList t.shell_list)
    (hpos : ∀ n i, 1 ≤ overlap_threshold_of n i)
    (hmono : ∀ n i j, i ≤ j → overlap_threshold_of n i ≤ overlap_threshold_of n j) :
    ∀ (fuel : Nat) (s : PipelineState),
      s.produced = s.executed ++ s.dev_tasks →
      s.task_begin ≤ s.tasks.length → s.tasks.Perm tasks0 →
      (s.dev_future = Future.invalid ∨ (s.dev_future = Future.pending ∧ s.dev_tasks ≠ [])) →
      s.tasks.length - s.task_begin < fuel →
      ∃ r, producer_loop overlap_threshold_of nbf_subset device_ok ready early fuel s
        = Outcome.returned r := by
  intro fuel
  induction fuel with
  | zero => intro s _ _ _ _ hf; omega
  | succ fuel ih =>
    intro s hq hle hperm hfut hf
    rw [producer_loop]
    by_cases hend : s.task_begin = s.tasks.length
    · simp only [hend, if_true]
      exact finish_pipeline_returns device_ok hok s
    · simp only [hend, if_false]
      have hlt : s.task_begin < s.tasks.length := by omega
      have hgood1 : ∀ t ∈ s.tasks.drop s.task_begin, GoodList t.shell_list :=
        fun t ht => hgood t (hperm.mem_iff.1 (List.mem_of_mem_drop ht))
      obtain ⟨batch, tasks1, _, hgen, hb, hbe, hte, hp1, htake, hlen, _⟩ :=
        generate_dev_batch_progress 8000 overlap_threshold_of nbf_subset s.tasks s.task_begin
          hlt hgood1 hpos hmono
      have hperm1 : tasks1.Perm s.tasks := by
        rw [← List.take_append_drop s.task_begin tasks1,
          ← List.take_append_drop s.task_begin s.tasks, htake]
        exact List.Perm.append_left _ hp1
      simp only [hgen]
      have h1 : (emplace_batch s batch tasks1).produced
          = (emplace_batch s batch tasks1).executed
            ++ (emplace_batch s batch tasks1).dev_tasks := by
        simp only [emplace_batch]
        rw [hq, List.append_assoc]
      have hfut1 : ((emplace_batch s batch tasks1).dev_future = Future.invalid ∧
            (emplace_batch s batch tasks1).dev_tasks ≠ []) ∨
          ((emplace_batch s batch tasks1).dev_future = Future.pending ∧
            2 ≤ (emplace_batch s batch tasks1).dev_tasks.length) := by
        simp only [emplace_batch]
        rcases hfut with hinv | ⟨hpend, hne⟩
        · exact Or.inl ⟨hinv, by simp⟩
        · refine Or.inr ⟨hpend, ?_⟩
          have := List.length_pos.2 hne
          simp only [List.length_append, List.length_singleton]
          omega
      obtain ⟨s1, hl, hs1f, hs1q⟩ :=
        launch_or_poll_returns device_ok hok ready (emplace_batch s batch tasks1) hfut1
      rw [hl]
      simp only
      have h2 := launch_or_poll_inv device_ok ready _ s1 h1 hl
      obtain ⟨f1, _, f3⟩ := launch_or_poll_frame device_ok ready _ s1 hl
      have hw : worker_may_run device_ok early s1 = s1 := by
        unfold worker_may_run
        rw [hearly]
        rfl
      rw [hw]
      obtain ⟨s2, ha, hs2f, hs2q⟩ := advance_task_begin_some s1 hs1q
      rw [ha]
      simp only
      obtain ⟨a1, a3, last, hlast, hbegin⟩ := advance_task_begin_spec s1 s2 h2 ha
      have htasks : s2.tasks = tasks1 := by
        rw [a1, f1]
        rfl
      have hlastb : last = batch := by
        rw [f3] at hlast
        simp only [emplace_batch] at hlast
        rw [List.getLast?_append_of_ne_nil _ (by simp), List.getLast?_singleton] at hlast
        exact (Option.some.inj hlast).symm
      rw [hlastb] at hbegin
      apply ih s2 (advance_task_begin_inv _ s2 h2 ha)
      · rw [htasks, hbegin, hlen]
        exact hte
      · rw [htasks]
        exact hperm1.trans hperm
      · exact Or.inr ⟨by rw [hs2f, hs1f], by rw [hs2q]; exact hs1q⟩
      · rw [htasks, hbegin, hlen]
        omega

/-- C24: on every non-empty range of tasks with increasing shell lists the
batch returned by `generate_dev_batch` starts at `task_begin`, is not empty
(`task_end` is after `task_begin`) and holds a task of largest `nbe`; hence the
producer loop of `process_batches_cuda_replicated_density_shellbatched_p` ends
after at most `ntasks` iterations, whatever the timing of the worker, and when
the call returns the batches it produced are consecutive non-empty ranges from
the first task to the last, at most `ntasks` of them.  The call does return,
with such batches and all of them executed, whenever every execution succeeds
and the worker never takes its batch before the master has read
`dev_tasks.back()`, whatever the polls answer. -/
theorem producer_loop_terminates_and_covers (overlap_threshold_of : Nat → Nat → Nat)
    (nbf_subset : List Int → Nat) (tasks : List XCTask)
    (hgood : ∀ t ∈ tasks, GoodList t.shell_list)
    (hpos : ∀ n i, 1 ≤ overlap_threshold_of n i)
    (hmono : ∀ n i j, i ≤ j → overlap_threshold_of n i ≤ overlap_threshold_of n j) :
    (∀ (nbf_threshold task_begin : Nat), task_begin < tasks.length →
      ∃ batch tasks1 m,
        generate_dev_batch nbf_threshold overlap_threshold_of nbf_subset tasks task_begin
          = some (batch, tasks1) ∧
        batch.task_begin = task_begin ∧ task_begin < batch.task_end ∧
        batch.task_end ≤ tasks.length ∧
        m ∈ (tasks1.take batch.task_end).drop task_begin ∧
        m ∈ tasks.drop task_begin ∧ (∀ t ∈ tasks.drop task_begin, t.nbe ≤ m.nbe)) ∧
    (∀ (device_ok : dev_ex_task → Bool) (ready early : Nat → Bool),
      process_batches_cuda_replicated_density_shellbatched_p overlap_threshold_of nbf_subset
          device_ok ready early (tasks.length + 1) tasks ≠ Outcome.out_of_fuel ∧
      ∀ r, process_batches_cuda_replicated_density_shellbatched_p overlap_threshold_of
          nbf_subset device_ok ready early (tasks.length + 1) tasks = Outcome.returned r →
        consecutive_batches 0 r.produced tasks.length ∧
          r.produced.length ≤ tasks.length ∧ r.tasks.Perm tasks) ∧
    (∀ (device_ok : dev_ex_task → Bool) (ready early : Nat → Bool),
      (∀ b, device_ok b = true) → (∀ i, early i = false) →
      ∃ r, process_batches_cuda_replicated_density_shellbatched_p overlap_threshold_of
          nbf_subset device_ok ready early (tasks.length + 1) tasks = Outcome.returned r ∧
        consecutive_batches 0 r.produced tasks.length ∧
        r.produced.length ≤ tasks.length ∧ r.tasks.Perm tasks ∧
        r.executed = r.produced ∧ r.dev_tasks = []) := by
  have hloop : ∀ (device_ok : dev_ex_task → Bool) (ready early : Nat → Bool),
      process_batches_cuda_replicated_density_shellbatched_p overlap_threshold_of nbf_subset
          device_ok ready early (tasks.length + 1) tasks ≠ Outcome.out_of_fuel ∧
      ∀ r, process_batches_cuda_replicated_density_shellbatched_p overlap_threshold_of
          nbf_subset device_ok ready early (tasks.length + 1) tasks = Outcome.returned r →
        consecutive_batches 0 r.produced tasks.length ∧
          r.produced.length ≤ tasks.length ∧ r.tasks.Perm tasks := by
    intro device_ok ready early
    obtain ⟨h1, h2⟩ := producer_loop_progress overlap_threshold_of nbf_subset device_ok ready
      early tasks hgood hpos hmono (tasks.length + 1)
      { tasks := tasks, task_begin := 0, dev_tasks := [], dev_future := Future.invalid,
        executed := [], produced := [], iter := 0 }
      rfl rfl (Nat.zero_le _) (List.Perm.refl _) (by simp)
    refine ⟨h1, fun r hr => ?_⟩
    obtain ⟨g1, g2⟩ := h2 r hr
    have := consecutive_batches_length _ _ _ g1
    exact ⟨g1, by omega, g2⟩
  refine ⟨?_, hloop, ?_⟩
  · intro nbf_threshold task_begin hlt
    obtain ⟨batch, tasks1, m, hgen, hb, hbe, hte, _, _, _, hm1, hm2, hm3⟩ :=
      generate_dev_batch_progress nbf_threshold overlap_threshold_of nbf_subset tasks
        task_begin hlt (fun t ht => hgood t (List.mem_of_mem_drop ht)) hpos hmono
    exact ⟨batch, tasks1, m, hgen, hb, hbe, hte, hm1, hm2, hm3⟩
  · intro device_ok ready early hok hearly
    obtain ⟨r, hr⟩ := producer_loop_returns overlap_threshold_of nbf_subset device_ok ready
      early hok hearly tasks hgood hpos hmono (tasks.length + 1)
      { tasks := tasks, task_begin := 0, dev_tasks := [], dev_future := Future.invalid,
        executed := [], produced := [], iter := 0 }
      rfl (Nat.zero_le _) (List.Perm.refl _) (Or.inl rfl) (by simp)
    obtain ⟨g1, g2, g3⟩ := (hloop device_ok ready early).2 r hr
    obtain ⟨e1, e2⟩ := producer_loop_returned overlap_threshold_of nbf_subset device_ok ready
      early (tasks.length + 1) _ r rfl hr
    exact ⟨r, hr, g1, g2, g3, e1, e2⟩

end integrator.cuda

namespace integrator.cuda

/-- Witness for C24: four tasks that make three batches. -/
theorem producer_loop_terminates_and_covers_witness :
    (∀ (nbf_threshold task_begin : Nat),
      task_begin < ([⟨3, [0, 1, 2]⟩, ⟨2, [0, 3]⟩, ⟨1, [7]⟩, ⟨1, [9]⟩] : List XCTask).length →
      ∃ batch tasks1 m,
        generate_dev_batch nbf_threshold overlap_threshold_exact (fun l => l.length)
            [⟨3, [0, 1, 2]⟩, ⟨2, [0, 3]⟩, ⟨1, [7]⟩, ⟨1, [9]⟩] task_begin
          = some (batch, tasks1) ∧
        batch.task_begin = task_begin ∧ task_begin < batch.task_end ∧
        batch.task_end
          ≤ ([⟨3, [0, 1, 2]⟩, ⟨2, [0, 3]⟩, ⟨1, [7]⟩, ⟨1, [9]⟩] : List XCTask).length ∧
        m ∈ (tasks1.take batch.task_end).drop task_begin ∧
        m ∈ ([⟨3, [0, 1, 2]⟩, ⟨2, [0, 3]⟩, ⟨1, [7]⟩, ⟨1, [9]⟩] : List XCTask).drop task_begin ∧
        (∀ t ∈ ([⟨3, [0, 1, 2]⟩, ⟨2, [0, 3]⟩, ⟨1, [7]⟩, ⟨1, [9]⟩] : List XCTask).drop
          task_begin, t.nbe ≤ m.nbe)) ∧
    (∀ (device_ok : dev_ex_task → Bool) (ready early : Nat → Bool),
      process_batches_cuda_replicated_density_shellbatched_p overlap_threshold_exact
          (fun l => l.length) device_ok ready early
          (([⟨3, [0, 1, 2]⟩, ⟨2, [0, 3]⟩, ⟨1, [7]⟩, ⟨1, [9]⟩] : List XCTask).length + 1)
          [⟨3, [0, 1, 2]⟩, ⟨2, [0, 3]⟩, ⟨1, [7]⟩, ⟨1, [9]⟩] ≠ Outcome.out_of_fuel ∧
      ∀ r, process_batches_cuda_replicated_density_shellbatched_p overlap_threshold_exact
          (fun l => l.length) device_ok ready early
          (([⟨3, [0, 1, 2]⟩, ⟨2, [0, 3]⟩, ⟨1, [7]⟩, ⟨1, [9]⟩] : List XCTask).length + 1)
          [⟨3, [0, 1, 2]⟩, ⟨2, [0, 3]⟩, ⟨1, [7]⟩, ⟨1, [9]⟩] = Outcome.returned r →
        consecutive_batches 0 r.produced
            ([⟨3, [0, 1, 2]⟩, ⟨2, [0, 3]⟩, ⟨1, [7]⟩, ⟨1, [9]⟩] : List XCTask).length ∧
          r.produced.length
            ≤ ([⟨3, [0, 1, 2]⟩, ⟨2, [0, 3]⟩, ⟨1, [7]⟩, ⟨1, [9]⟩] : List XCTask).length ∧
          r.tasks.Perm [⟨3, [0, 1, 2]⟩, ⟨2, [0, 3]⟩, ⟨1, [7]⟩, ⟨1, [9]⟩]) ∧
    (∀ (device_ok : dev_ex_task → Bool) (ready early : Nat → Bool),
      (∀ b, device_ok b = true) → (∀ i, early i = false) →
      ∃ r, process_batches_cuda_replicated_density_shellbatched_p overlap_threshold_exact
          (fun l => l.length) device_ok ready early
          (([⟨3, [0, 1, 2]⟩, ⟨2, [0, 3]⟩, ⟨1, [7]⟩, ⟨1, [9]⟩] : List XCTask).length + 1)
          [⟨3, [0, 1, 2]⟩, ⟨2, [0, 3]⟩, ⟨1, [7]⟩, ⟨1, [9]⟩] = Outcome.returned r ∧
        consecutive_batches 0 r.produced
          ([⟨3, [0, 1, 2]⟩, ⟨2, [0, 3]⟩, ⟨1, [7]⟩, ⟨1, [9]⟩] : List XCTask).length ∧
        r.produced.length
          ≤ ([⟨3, [0, 1, 2]⟩, ⟨2, [0, 3]⟩, ⟨1, [7]⟩, ⟨1, [9]⟩] : List XCTask).length ∧
        r.tasks.Perm [⟨3, [0, 1, 2]⟩, ⟨2, [0, 3]⟩, ⟨1, [7]⟩, ⟨1, [9]⟩] ∧
        r.executed = r.produced ∧ r.dev_tasks = []) :=
  producer_loop_terminates_and_covers overlap_threshold_exact (fun l => l.length)
    [⟨3, [0, 1, 2]⟩, ⟨2, [0, 3]⟩, ⟨1, [7]⟩, ⟨1, [9]⟩]
    (by
      intro t ht
      simp only [List.mem_cons, List.mem_singleton, List.not_mem_nil, or_false] at ht
      rcases ht with rfl | rfl | rfl | rfl <;> exact ⟨by decide, by decide⟩)
    (fun n i => overlap_threshold_exact_pos n i)
    (fun n i j h => overlap_threshold_exact_mono n i j h)

/-- The call on the four tasks of the witness, with no poll ever ready and the
worker never early, returns with three batches: `[0, 2)`, `[2, 3)` and
`[3, 4)`. -/
theorem producer_loop_three_batches :
    (match process_batches_cuda_replicated_density_shellbatched_p overlap_threshold_exact
        (fun l => l.length) (fun _ => true) (fun _ => false) (fun _ => false) 5
        [⟨3, [0, 1, 2]⟩, ⟨2, [0, 3]⟩, ⟨1, [7]⟩, ⟨1, [9]⟩] with
      | Outcome.returned r => r.produced.map (fun d => (d.task_begin, d.task_end))
      | _ => [])
      = [(0, 2), (2, 3), (3, 4)] := by
  decide

end integrator.cuda

namespace integrator.cuda

/-! ### The read of `dev_tasks.back()` races with the worker -/

/-- C26 fails on the code: with a single task, the worker launched at line 523
takes the only batch from the queue before the master reads
`dev_tasks.back().task_end` at line 533; the queue is then empty and `back()`
is undefined. -/
theorem producer_reads_back_of_emptied_queue :
    process_batches_cuda_replicated_density_shellbatched_p overlap_threshold_exact
        (fun l => l.length) (fun _ => true) (fun _ => false) (fun _ => true) 3 [⟨1, [0]⟩]
      = Outcome.undefined_behaviour
          { tasks := [⟨1, [0]⟩], task_begin := 0, dev_tasks := [],
            dev_future := Future.done true,
            executed := [⟨0, 1, [0]⟩], produced := [⟨0, 1, [0]⟩], iter := 0 } := by
  decide

end integrator.cuda

/-! ### A second run of the screening doubles the pair lists -/

theorem ek_select_task_again {R : Type} (ops : DoubleOps R) (shell_size : Nat → Nat)
    (nshells : Nat) (V_shell_max : Nat → R) (ldv : Nat) (eps_E eps_K : R)
    (max_F_approx_bfn : Nat → R) (max_bf_sum : R) (cou : CouScreening) :
    ek_select_task ops shell_size nshells V_shell_max ldv eps_E eps_K max_F_approx_bfn max_bf_sum
        (ek_select_task ops shell_size nshells V_shell_max ldv eps_E eps_K max_F_approx_bfn
          max_bf_sum cou)
      = { ek_select_task ops shell_size nshells V_shell_max ldv eps_E eps_K max_F_approx_bfn
            max_bf_sum cou with
          shell_pair_list :=
            (ek_select_task ops shell_size nshells V_shell_max ldv eps_E eps_K max_F_approx_bfn
              max_bf_sum cou).shell_pair_list
            ++ (all_shell_pairs nshells).filter (fun p =>
                significant ops
                  (fun s => (max_F_shells ops shell_size nshells max_F_approx_bfn).getD s
                    ops.zero)
                  V_shell_max ldv eps_E eps_K max_bf_sum p.1 p.2) } := by
  unfold ek_select_task
  simp only [ek_pair_loop_eq]

/-- C27 fails on the code: two shells, the identity density, all bounds one and
both thresholds zero.  One run leaves the pair list `(0,0), (1,0), (1,1)`; a
second run with the same inputs appends the three pairs again, while
`shell_list` and `nbe` stay as they were. -/
theorem exx_ek_screening_second_run_appends :
    exx_ek_screening intOps (fun a b => a + b) (fun _ => 1) 2 2
        (fun i => if i = 0 ∨ i = 3 then 1 else 0) 2 (fun _ => 1) 2 0 0 (fun _ => 1) (fun _ => 1)
        [⟨[], [], 0⟩]
      = [⟨[0, 1], [(0, 0), (1, 0), (1, 1)], 2⟩] ∧
    exx_ek_screening intOps (fun a b => a + b) (fun _ => 1) 2 2
        (fun i => if i = 0 ∨ i = 3 then 1 else 0) 2 (fun _ => 1) 2 0 0 (fun _ => 1) (fun _ => 1)
        (exx_ek_screening intOps (fun a b => a + b) (fun _ => 1) 2 2
          (fun i => if i = 0 ∨ i = 3 then 1 else 0) 2 (fun _ => 1) 2 0 0 (fun _ => 1)
          (fun _ => 1) [⟨[], [], 0⟩])
      = [⟨[0, 1], [(0, 0), (1, 0), (1, 1), (0, 0), (1, 0), (1, 1)], 2⟩] := by
  decide

namespace detail

/-! ### The leading dimension of the density is not used for `P_abs` -/

/-- Whatever the caller's leading dimension, the entry `(k, j)` the screening
reads from `P_abs` (leading dimension `nbf`) is `|P[k + j * nbf]|`. -/
theorem P_abs_entry {R : Type} (env : EXXEnv R) (P : Nat → R) (k j : Nat)
    (hk : k < env.nbf) (hj : j < env.nbf) :
    P_abs env P (k + j * env.nbf) = env.ops.abs (P (k + j * env.nbf)) := by
  unfold P_abs
  rw [if_pos]
  calc k + j * env.nbf < env.nbf + j * env.nbf := by omega
    _ = (j + 1) * env.nbf := by ring
    _ ≤ env.nbf * env.nbf := by
      rw [Nat.mul_comm]
      exact Nat.mul_le_mul_left _ hj

/-- C28 fails on the code: `nbf = 2` and the identity density stored with
`ldp = 3`.  The screening reads `P_abs(0,1) = 7` and `P_abs(1,1) = 0` where
`|P(0,1)| = 0` and `|P(1,1)| = 1`, and the call leaves other pair lists than
the call with the same matrix stored with `ldp = 2`. -/
theorem exx_local_work_ignores_ldp :
    (P_abs test_env test_density_padded (0 + 1 * test_env.nbf) = 7 ∧
      test_env.ops.abs (test_density_padded (0 + 1 * 3)) = 0) ∧
    (P_abs test_env test_density_padded (1 + 1 * test_env.nbf) = 0 ∧
      test_env.ops.abs (test_density_padded (1 + 1 * 3)) = 1) ∧
    (∀ k j, k < 2 → j < 2 → test_density_padded (k + j * 3) = test_density (k + j * 2)) ∧
    (exx_local_work_ test_env test_density_padded 3 2 test_world).map
        (fun w => w.tasks.map fun t => t.cou_screening.shell_pair_list)
      = some [[(0, 0), (1, 0)], [(0, 0), (1, 0)], []] ∧
    (exx_local_work_ test_env test_density 2 2 test_world).map
        (fun w => w.tasks.map fun t => t.cou_screening.shell_pair_list)
      = some [[(0, 0), (1, 0), (1, 1)], [(0, 0), (1, 0), (1, 1)], []] := by
  refine ⟨by decide, by decide, ?_, by decide, by decide⟩
  intro k j hk hj
  interval_cases k <;> interval_cases j <;> decide

end detail

/-! ### The kernel launches of `eval_exx_gmat` -/

theorem run_gmat_kernels_actions (device_error : Nat → Bool)
    (h : ∀ k, device_error k = false) :
    ∀ (ks : List (Bool × GmatAction)) (k : Nat) (done : List GmatAction),
      (run_gmat_kernels device_error ks k done).2
        = done ++ ((ks.filter fun x => x.1).map fun x => x.2)
          ++ [GmatAction.sync_master_with_blas_pool] := by
  intro ks
  induction ks with
  | nil => intro k done; simp [run_gmat_kernels]
  | cons a ks ih =>
    intro k done
    obtain ⟨guard, act⟩ := a
    rw [run_gmat_kernels]
    cases guard with
    | true =>
      simp only [if_true, h k, Bool.false_eq_true, if_false]
      rw [ih]
      simp
    | false =>
      simp only [Bool.false_eq_true, if_false]
      rw [ih]
      simp

theorem eval_exx_gmat_actions (inp : GmatInput) (hexx : inp.enable_exx = true)
    (hcast : inp.data_cast_ok = true) (hbackend : inp.backend_initialised = true)
    (hcart : ∀ i, i < inp.nshells → inp.shell_pure i = false) (hL : inp.max_l ≤ 2)
    (hdev : ∀ k, inp.device_error k = false) :
    eval_exx_gmat inp
      = (Except.ok (),
          (List.range inp.ntasks).map GmatAction.zero_G
            ++ (GmatAction.sync_blas_pool_with_master :: launched_kernels inp.max_l
              ++ [GmatAction.sync_master_with_blas_pool])) := by
  have hp : ¬ (List.range inp.nshells).any inp.shell_pure = true := by
    simp only [List.any_eq_true, List.mem_range, not_exists, not_and]
    intro i hi
    rw [hcart i hi]
    exact Bool.false_ne_true
  have hl : ¬ inp.max_l > 2 := by omega
  unfold eval_exx_gmat
  simp only [hexx, hcast, hbackend, Bool.not_true, Bool.false_eq_true, if_false]
  rw [if_neg hp, if_neg hl]
  apply Prod.ext
  · exact run_gmat_kernels_no_error inp.device_error hdev _ _ _
  · rw [run_gmat_kernels_actions inp.device_error hdev]
    simp [launched_kernels]

theorem launched_kernels_buckets (L : Nat) (hL : L ≤ 2) :
    (∀ a, a ≤ L → ∀ b, b ≤ L → (launched_kernels L).count (bucket_launch L a b) = 1) ∧
    (∀ x ∈ launched_kernels L, x.is_pair_launch = true → x ∈ expected_launches L) ∧
    (∀ l, l ≤ L → (launched_kernels L).count (GmatAction.launch_diag l l) = 1) ∧
    (∀ x ∈ launched_kernels L, x.is_diag_launch = true →
      x ∈ (List.range (L + 1)).map fun l => GmatAction.launch_diag l l) ∧
    (∀ x ∈ launched_kernels L, x.is_pair_launch = true ∨ x.is_diag_launch = true) := by
  interval_cases L <;> decide

theorem mem_gmat_actions (x : GmatAction)
    (hx : x.is_pair_launch = true ∨ x.is_diag_launch = true) (n : Nat) (K : List GmatAction) :
    x ∈ (List.range n).map GmatAction.zero_G
        ++ (GmatAction.sync_blas_pool_with_master :: K
          ++ [GmatAction.sync_master_with_blas_pool]) ↔ x ∈ K := by
  cases x <;>
    simp [GmatAction.is_pair_launch, GmatAction.is_diag_launch] at hx ⊢

theorem count_gmat_actions (x : GmatAction)
    (hx : x.is_pair_launch = true ∨ x.is_diag_launch = true) (n : Nat) (K : List GmatAction) :
    ((List.range n).map GmatAction.zero_G
        ++ (GmatAction.sync_blas_pool_with_master :: K
          ++ [GmatAction.sync_master_with_blas_pool])).count x = K.count x := by
  have hz : ((List.range n).map GmatAction.zero_G).count x = 0 := by
    rw [List.count_eq_zero]
    cases x <;> simp [GmatAction.is_pair_launch, GmatAction.is_diag_launch] at hx ⊢
  rw [List.count_append, hz, Nat.zero_add, List.cons_append, List.count_cons,
    List.count_append, List.count_singleton]
  cases x <;> simp [GmatAction.is_pair_launch, GmatAction.is_diag_launch] at hx ⊢

/-- C21: for a Cartesian basis with `max_l = L ≤ 2` (EXX compiled in, valid data,
initialised backend, no device error reported), `eval_exx_gmat` completes and
launches the two-index task-batched kernels over exactly the buckets
`(lA, lB)` with `lA, lB ≤ L`, each ordered pair once, on bucket index
`lA * (L + 1) + lB` (distinct for distinct pairs, below `(L + 1)²`), with kernel
`integral_{max}_{min}` and `swap = true` exactly when `lA < lB`; the one-index
kernels run once for each `l ≤ L` on bucket `l`, and no kernel for an `l > L` is
launched. -/
theorem eval_exx_gmat_kernel_buckets (inp : GmatInput) (hexx : inp.enable_exx = true)
    (hcast : inp.data_cast_ok = true) (hbackend : inp.backend_initialised = true)
    (hcart : ∀ i, i < inp.nshells → inp.shell_pure i = false) (hL : inp.max_l ≤ 2)
    (hdev : ∀ k, inp.device_error k = false) :
    ∃ acts, eval_exx_gmat inp = (Except.ok (), acts) ∧
      (∀ a b, a ≤ inp.max_l → b ≤ inp.max_l →
        acts.count (GmatAction.launch (max a b) (min a b)
          (if a = b then none else some (decide (a < b))) (a * (inp.max_l + 1) + b)) = 1) ∧
      (∀ lA lB sw bk, GmatAction.launch lA lB sw bk ∈ acts →
        ∃ a b, a ≤ inp.max_l ∧ b ≤ inp.max_l ∧ lA = max a b ∧ lB = min a b ∧
          sw = (if a = b then none else some (decide (a < b))) ∧
          bk = a * (inp.max_l + 1) + b) ∧
      (∀ a b c d, a ≤ inp.max_l → b ≤ inp.max_l → c ≤ inp.max_l → d ≤ inp.max_l →
        SP_LBATCH_IDX inp.max_l a b = SP_LBATCH_IDX inp.max_l c d → a = c ∧ b = d) ∧
      (∀ a b, a ≤ inp.max_l → b ≤ inp.max_l →
        SP_LBATCH_IDX inp.max_l a b < (inp.max_l + 1) * (inp.max_l + 1)) ∧
      (∀ l, l ≤ inp.max_l → acts.count (GmatAction.launch_diag l l) = 1) ∧
      (∀ l bk, GmatAction.launch_diag l bk ∈ acts → l ≤ inp.max_l ∧ bk = l) := by
  obtain ⟨h1, h2, h3, h4, _⟩ := launched_kernels_buckets inp.max_l hL
  refine ⟨_, eval_exx_gmat_actions inp hexx hcast hbackend hcart hL hdev, ?_, ?_, ?_, ?_, ?_, ?_⟩
  · intro a b ha hb
    have := h1 a ha b hb
    rw [count_gmat_actions (GmatAction.launch _ _ _ _) (Or.inl rfl)]
    exact this
  · intro lA lB sw bk hmem
    rw [mem_gmat_actions (GmatAction.launch _ _ _ _) (Or.inl rfl)] at hmem
    have hx := h2 _ hmem rfl
    unfold expected_launches at hx
    simp only [List.mem_flatMap, List.mem_map, List.mem_range] at hx
    obtain ⟨a, ha, b, hb, heq⟩ := hx
    unfold bucket_launch SP_LBATCH_IDX at heq
    simp only [GmatAction.launch.injEq] at heq
    exact ⟨a, b, by omega, by omega, heq.1.symm, heq.2.1.symm, heq.2.2.1.symm, heq.2.2.2.symm⟩
  · intro a b c d ha hb hc hd h
    unfold SP_LBATCH_IDX at h
    generalize inp.max_l = L at *
    interval_cases L <;> omega
  · intro a b ha hb
    unfold SP_LBATCH_IDX
    generalize inp.max_l = L at *
    interval_cases L <;> omega
  · intro l hl
    rw [count_gmat_actions (GmatAction.launch_diag _ _) (Or.inr rfl)]
    exact h3 l hl
  · intro l bk hmem
    rw [mem_gmat_actions (GmatAction.launch_diag _ _) (Or.inr rfl)] at hmem
    have hx := h4 _ hmem rfl
    simp only [List.mem_map, List.mem_range, GmatAction.launch_diag.injEq] at hx
    obtain ⟨l1, hl1, h5, h6⟩ := hx
    omega

/-- Witness for C21: two tasks, three Cartesian shells, `max_l = 2`, no device
error. -/
theorem eval_exx_gmat_kernel_buckets_witness :
    ∃ acts, eval_exx_gmat
          { enable_exx := true, data_cast_ok := true, backend_initialised := true,
            nshells := 3, ntasks := 2, shell_pure := fun _ => false, max_l := 2,
            device_error := fun _ => false } = (Except.ok (), acts) ∧
      (∀ a b, a ≤ 2 → b ≤ 2 →
        acts.count (GmatAction.launch (max a b) (min a b)
          (if a = b then none else some (decide (a < b))) (a * (2 + 1) + b)) = 1) ∧
      (∀ lA lB sw bk, GmatAction.launch lA lB sw bk ∈ acts →
        ∃ a b, a ≤ 2 ∧ b ≤ 2 ∧ lA = max a b ∧ lB = min a b ∧
          sw = (if a = b then none else some (decide (a < b))) ∧
          bk = a * (2 + 1) + b) ∧
      (∀ a b c d, a ≤ 2 → b ≤ 2 → c ≤ 2 → d ≤ 2 →
        SP_LBATCH_IDX 2 a b = SP_LBATCH_IDX 2 c d → a = c ∧ b = d) ∧
      (∀ a b, a ≤ 2 → b ≤ 2 → SP_LBATCH_IDX 2 a b < (2 + 1) * (2 + 1)) ∧
      (∀ l, l ≤ 2 → acts.count (GmatAction.launch_diag l l) = 1) ∧
      (∀ l bk, GmatAction.launch_diag l bk ∈ acts → l ≤ 2 ∧ bk = l) :=
  eval_exx_gmat_kernel_buckets
    { enable_exx := true, data_cast_ok := true, backend_initialised := true,
      nshells := 3, ntasks := 2, shell_pure := fun _ => false, max_l := 2,
      device_error := fun _ => false } rfl rfl rfl (fun _ _ => rfl) (by decide) (fun _ => rfl)

/-! ### Interleaving of the spin channels -/

theorem cudaMemcpy2D_succ {R : Type} (dst : Nat → R) (doff dpitch : Nat) (src : Nat → R)
    (soff spitch height : Nat) :
    cudaMemcpy2D dst doff dpitch src soff spitch (height + 1)
      = Function.update (cudaMemcpy2D dst doff dpitch src soff spitch height)
          (doff + height * dpitch) (src (soff + height * spitch)) := by
  unfold cudaMemcpy2D
  rw [List.range_succ, List.foldl_append]
  rfl

theorem cudaMemcpy2D_hit {R : Type} (dst : Nat → R) (doff dpitch : Nat) (src : Nat → R)
    (soff spitch : Nat) (hp : 1 ≤ dpitch) :
    ∀ (height i : Nat), i < height →
      cudaMemcpy2D dst doff dpitch src soff spitch height (doff + i * dpitch)
        = src (soff + i * spitch) := by
  intro height
  induction height with
  | zero => intro i hi; omega
  | succ h ih =>
    intro i hi
    rw [cudaMemcpy2D_succ]
    by_cases hih : i = h
    · subst hih
      exact Function.update_same _ _ _
    · have hlt : i < h := by omega
      have hne : doff + i * dpitch ≠ doff + h * dpitch := by
        have := Nat.mul_lt_mul_of_pos_right hlt (by omega : 0 < dpitch)
        omega
      rw [Function.update_noteq hne]
      exact ih i hlt

theorem cudaMemcpy2D_miss {R : Type} (dst : Nat → R) (doff dpitch : Nat) (src : Nat → R)
    (soff spitch : Nat) (k : Nat) :
    ∀ (height : Nat), (∀ r, r < height → k ≠ doff + r * dpitch) →
      cudaMemcpy2D dst doff dpitch src soff spitch height k = dst k := by
  intro height
  induction height with
  | zero => intro _; rfl
  | succ h ih =>
    intro hk
    rw [cudaMemcpy2D_succ, Function.update_noteq (hk h (by omega))]
    exact ih (fun r hr => hk r (by omega))

/-- Packing with stride two: after the two copies of lines 607-610 the buffer
holds the first channel at the even and the second at the odd positions. -/
theorem interleave_two {R : Type} (buf a b : Nat → R) (n i : Nat) (hi : i < n) :
    cudaMemcpy2D (cudaMemcpy2D buf 0 2 a 0 1 n) 1 2 b 0 1 n (2 * i) = a i ∧
      cudaMemcpy2D (cudaMemcpy2D buf 0 2 a 0 1 n) 1 2 b 0 1 n (2 * i + 1) = b i := by
  constructor
  · rw [cudaMemcpy2D_miss _ 1 2 b 0 1 (2 * i) n (fun r _ => by omega)]
    have h := cudaMemcpy2D_hit buf 0 2 a 0 1 (by omega) n i hi
    have e1 : 0 + i * 2 = 2 * i := by omega
    have e2 : 0 + i * 1 = i := by omega
    rw [e1, e2] at h
    exact h
  · have h := cudaMemcpy2D_hit (cudaMemcpy2D buf 0 2 a 0 1 n) 1 2 b 0 1 (by omega) n i hi
    have e1 : 1 + i * 2 = 2 * i + 1 := by omega
    have e2 : 0 + i * 1 = i := by omega
    rw [e1, e2] at h
    exact h

/-- Packing with stride three, lines 672-677. -/
theorem interleave_three {R : Type} (buf a b c : Nat → R) (n i : Nat) (hi : i < n) :
    cudaMemcpy2D (cudaMemcpy2D (cudaMemcpy2D buf 0 3 a 0 1 n) 1 3 b 0 1 n) 2 3 c 0 1 n (3 * i)
        = a i ∧
      cudaMemcpy2D (cudaMemcpy2D (cudaMemcpy2D buf 0 3 a 0 1 n) 1 3 b 0 1 n) 2 3 c 0 1 n
        (3 * i + 1) = b i ∧
      cudaMemcpy2D (cudaMemcpy2D (cudaMemcpy2D buf 0 3 a 0 1 n) 1 3 b 0 1 n) 2 3 c 0 1 n
        (3 * i + 2) = c i := by
  have e2 : 0 + i * 1 = i := by omega
  refine ⟨?_, ?_, ?_⟩
  · rw [cudaMemcpy2D_miss _ 2 3 c 0 1 (3 * i) n (fun r _ => by omega),
      cudaMemcpy2D_miss _ 1 3 b 0 1 (3 * i) n (fun r _ => by omega)]
    have h := cudaMemcpy2D_hit buf 0 3 a 0 1 (by omega) n i hi
    have e1 : 0 + i * 3 = 3 * i := by omega
    rw [e1, e2] at h
    exact h
  · rw [cudaMemcpy2D_miss _ 2 3 c 0 1 (3 * i + 1) n (fun r _ => by omega)]
    have h := cudaMemcpy2D_hit (cudaMemcpy2D buf 0 3 a 0 1 n) 1 3 b 0 1 (by omega) n i hi
    have e1 : 1 + i * 3 = 3 * i + 1 := by omega
    rw [e1, e2] at h
    exact h
  · have h := cudaMemcpy2D_hit (cudaMemcpy2D (cudaMemcpy2D buf 0 3 a 0 1 n) 1 3 b 0 1 n)
      2 3 c 0 1 (by omega) n i hi
    have e1 : 2 + i * 3 = 3 * i + 2 := by omega
    rw [e1, e2] at h
    exact h

/-- Unpacking: the copy `cudaMemcpy2D( dst, 1, src + off, pitch, ..., n )` leaves
`dst[i] = src[pitch * i + off]` for `i < n`. -/
theorem deinterleave {R : Type} (dst src : Nat → R) (off pitch n i : Nat) (hi : i < n) :
    cudaMemcpy2D dst 0 1 src off pitch n i = src (pitch * i + off) := by
  have h := cudaMemcpy2D_hit dst 0 1 src off pitch (by omega) n i hi
  have e1 : 0 + i * 1 = i := by omega
  have e2 : off + i * pitch = pitch * i + off := by rw [Nat.mul_comm]; omega
  rw [e1, e2] at h
  exact h

theorem eval_kern_exc_vxc_lda_2C {R : Type} (mul : R → R → R)
    (kern : Nat → (Nat → R) → (Nat → R) → (Nat → R) → (Nat → R) × (Nat → R))
    (ks_scheme : KSScheme) (hks : ks_scheme = KSScheme.UKS ∨ ks_scheme = KSScheme.GKS)
    (npts : Nat) (st : BaseStack R) :
    ∃ out, eval_kern_exc_vxc_lda mul kern true true true ks_scheme npts st = Except.ok out ∧
      out.weights_device = st.weights_device ∧
      out.den_eval_device
        = cudaMemcpy2D (cudaMemcpy2D st.den_eval_device 0 2 st.den_s_eval_device 0 1 npts)
            1 2 st.den_z_eval_device 0 1 npts ∧
      out.vrho_eval_device
        = (kern npts out.den_eval_device st.eps_eval_device st.vrho_eval_device).2 ∧
      out.vrho_pos_eval_device
        = hadamard_product mul npts st.weights_device
            (cudaMemcpy2D st.vrho_pos_eval_device 0 1 out.vrho_eval_device 0 2 npts) ∧
      out.vrho_neg_eval_device
        = hadamard_product mul npts st.weights_device
            (cudaMemcpy2D st.vrho_neg_eval_device 0 1 out.vrho_eval_device 1 2 npts) := by
  rcases hks with rfl | rfl <;> exact ⟨_, rfl, rfl, rfl, rfl, rfl, rfl⟩

theorem eval_kern_exc_vxc_gga_2C {R : Type} (mul : R → R → R)
    (kern : Nat → (Nat → R) → (Nat → R) → (Nat → R) → (Nat → R) → (Nat → R) →
      (Nat → R) × (Nat → R) × (Nat → R))
    (ks_scheme : KSScheme) (hks : ks_scheme = KSScheme.UKS ∨ ks_scheme = KSScheme.GKS)
    (npts : Nat) (st : BaseStack R) :
    ∃ out, eval_kern_exc_vxc_gga mul kern true true true ks_scheme npts st = Except.ok out ∧
      out.weights_device = st.weights_device ∧
      out.den_eval_device
        = cudaMemcpy2D (cudaMemcpy2D st.den_eval_device 0 2 st.den_s_eval_device 0 1 npts)
            1 2 st.den_z_eval_device 0 1 npts ∧
      out.gamma_eval_device
        = cudaMemcpy2D
            (cudaMemcpy2D
              (cudaMemcpy2D st.gamma_eval_device 0 3 st.gamma_pp_eval_device 0 1 npts)
              1 3 st.gamma_pm_eval_device 0 1 npts)
            2 3 st.gamma_mm_eval_device 0 1 npts ∧
      out.vrho_eval_device
        = (kern npts out.den_eval_device out.gamma_eval_device st.eps_eval_device
            st.vrho_eval_device st.vgamma_eval_device).2.1 ∧
      out.vgamma_eval_device
        = (kern npts out.den_eval_device out.gamma_eval_device st.eps_eval_device
            st.vrho_eval_device st.vgamma_eval_device).2.2 ∧
      out.vrho_pos_eval_device
        = hadamard_product mul npts st.weights_device
            (cudaMemcpy2D st.vrho_pos_eval_device 0 1 out.vrho_eval_device 0 2 npts) ∧
      out.vrho_neg_eval_device
        = hadamard_product mul npts st.weights_device
            (cudaMemcpy2D st.vrho_neg_eval_device 0 1 out.vrho_eval_device 1 2 npts) ∧
      out.vgamma_pp_eval_device
        = hadamard_product mul npts st.weights_device
            (cudaMemcpy2D st.vgamma_pp_eval_device 0 1 out.vgamma_eval_device 0 3 npts) ∧
      out.vgamma_pm_eval_device
        = hadamard_product mul npts st.weights_device
            (cudaMemcpy2D st.vgamma_pm_eval_device 0 1 out.vgamma_eval_device 1 3 npts) ∧
      out.vgamma_mm_eval_device
        = hadamard_product mul npts st.weights_device
            (cudaMemcpy2D st.vgamma_mm_eval_device 0 1 out.vgamma_eval_device 2 3 npts) := by
  rcases hks with rfl | rfl <;>
    exact ⟨_, rfl, rfl, rfl, rfl, rfl, rfl, rfl, rfl, rfl, rfl, rfl⟩

theorem hadamard_deinterleave {R : Type} (mul : R → R → R) (w dst src : Nat → R)
    (off pitch n i : Nat) (hi : i < n) :
    hadamard_product mul n w (cudaMemcpy2D dst 0 1 src off pitch n) i
      = mul (w i) (src (pitch * i + off)) := by
  unfold hadamard_product
  rw [if_pos hi, deinterleave dst src off pitch n i hi]

/-- C22: in the UKS/GKS branch of `eval_kern_exc_vxc_lda` and
`eval_kern_exc_vxc_gga`, for `npts` points the functional is handed
`den[2i] = den_s[i]`, `den[2i+1] = den_z[i]` and
`gamma[3i], gamma[3i+1], gamma[3i+2] = gamma_pp[i], gamma_pm[i], gamma_mm[i]`;
its outputs are unpacked with the same strides (the copies leave
`vrho_pos[i] = vrho[2i]`, `vrho_neg[i] = vrho[2i+1]` and
`vgamma_pp/pm/mm[i] = vgamma[3i], [3i+1], [3i+2]`, and the methods return these
values times the weights); and unpacking a packed block gives back the
channels. -/
theorem eval_kern_exc_vxc_interleaving {R : Type} (mul : R → R → R)
    (kern_lda : Nat → (Nat → R) → (Nat → R) → (Nat → R) → (Nat → R) × (Nat → R))
    (kern_gga : Nat → (Nat → R) → (Nat → R) → (Nat → R) → (Nat → R) → (Nat → R) →
      (Nat → R) × (Nat → R) × (Nat → R))
    (ks_scheme : KSScheme) (hks : ks_scheme = KSScheme.UKS ∨ ks_scheme = KSScheme.GKS)
    (npts : Nat) (st : BaseStack R) :
    (∃ out, eval_kern_exc_vxc_lda mul kern_lda true true true ks_scheme npts st
        = Except.ok out ∧
      out.vrho_eval_device
        = (kern_lda npts out.den_eval_device st.eps_eval_device st.vrho_eval_device).2 ∧
      ∀ i, i < npts →
        out.den_eval_device (2 * i) = st.den_s_eval_device i ∧
        out.den_eval_device (2 * i + 1) = st.den_z_eval_device i ∧
        out.vrho_pos_eval_device i
          = mul (st.weights_device i) (out.vrho_eval_device (2 * i)) ∧
        out.vrho_neg_eval_device i
          = mul (st.weights_device i) (out.vrho_eval_device (2 * i + 1))) ∧
    (∃ out, eval_kern_exc_vxc_gga mul kern_gga true true true ks_scheme npts st
        = Except.ok out ∧
      out.vrho_eval_device
        = (kern_gga npts out.den_eval_device out.gamma_eval_device st.eps_eval_device
            st.vrho_eval_device st.vgamma_eval_device).2.1 ∧
      out.vgamma_eval_device
        = (kern_gga npts out.den_eval_device out.gamma_eval_device st.eps_eval_device
            st.vrho_eval_device st.vgamma_eval_device).2.2 ∧
      ∀ i, i < npts →
        out.den_eval_device (2 * i) = st.den_s_eval_device i ∧
        out.den_eval_device (2 * i + 1) = st.den_z_eval_device i ∧
        out.gamma_eval_device (3 * i) = st.gamma_pp_eval_device i ∧
        out.gamma_eval_device (3 * i + 1) = st.gamma_pm_eval_device i ∧
        out.gamma_eval_device (3 * i + 2) = st.gamma_mm_eval_device i ∧
        out.vrho_pos_eval_device i
          = mul (st.weights_device i) (out.vrho_eval_device (2 * i)) ∧
        out.vrho_neg_eval_device i
          = mul (st.weights_device i) (out.vrho_eval_device (2 * i + 1)) ∧
        out.vgamma_pp_eval_device i
          = mul (st.weights_device i) (out.vgamma_eval_device (3 * i)) ∧
        out.vgamma_pm_eval_device i
          = mul (st.weights_device i) (out.vgamma_eval_device (3 * i + 1)) ∧
        out.vgamma_mm_eval_device i
          = mul (st.weights_device i) (out.vgamma_eval_device (3 * i + 2))) ∧
    (∀ (dst src : Nat → R) (i : Nat), i < npts →
      cudaMemcpy2D dst 0 1 src 0 2 npts i = src (2 * i) ∧
      cudaMemcpy2D dst 0 1 src 1 2 npts i = src (2 * i + 1) ∧
      cudaMemcpy2D dst 0 1 src 0 3 npts i = src (3 * i) ∧
      cudaMemcpy2D dst 0 1 src 1 3 npts i = src (3 * i + 1) ∧
      cudaMemcpy2D dst 0 1 src 2 3 npts i = src (3 * i + 2)) ∧
    (∀ (buf dst a b c : Nat → R) (i : Nat), i < npts →
      cudaMemcpy2D dst 0 1
          (cudaMemcpy2D (cudaMemcpy2D buf 0 2 a 0 1 npts) 1 2 b 0 1 npts) 0 2 npts i = a i ∧
      cudaMemcpy2D dst 0 1
          (cudaMemcpy2D (cudaMemcpy2D buf 0 2 a 0 1 npts) 1 2 b 0 1 npts) 1 2 npts i = b i ∧
      cudaMemcpy2D dst 0 1
          (cudaMemcpy2D (cudaMemcpy2D (cudaMemcpy2D buf 0 3 a 0 1 npts) 1 3 b 0 1 npts)
            2 3 c 0 1 npts) 0 3 npts i = a i ∧
      cudaMemcpy2D dst 0 1
          (cudaMemcpy2D (cudaMemcpy2D (cudaMemcpy2D buf 0 3 a 0 1 npts) 1 3 b 0 1 npts)
            2 3 c 0 1 npts) 1 3 npts i = b i ∧
      cudaMemcpy2D dst 0 1
          (cudaMemcpy2D (cudaMemcpy2D (cudaMemcpy2D buf 0 3 a 0 1 npts) 1 3 b 0 1 npts)
            2 3 c 0 1 npts) 2 3 npts i = c i) := by
  refine ⟨?_, ?_, ?_, ?_⟩
  · obtain ⟨out, hout, _, hden, hvrho, hpos, hneg⟩ :=
      eval_kern_exc_vxc_lda_2C mul kern_lda ks_scheme hks npts st
    refine ⟨out, hout, hvrho, fun i hi => ?_⟩
    rw [hden, hpos, hneg]
    exact ⟨(interleave_two _ _ _ npts i hi).1, (interleave_two _ _ _ npts i hi).2,
      hadamard_deinterleave mul _ _ _ 0 2 npts i hi,
      hadamard_deinterleave mul _ _ _ 1 2 npts i hi⟩
  · obtain ⟨out, hout, _, hden, hgamma, hvrho, hvgamma, hpos, hneg, hpp, hpm, hmm⟩ :=
      eval_kern_exc_vxc_gga_2C mul kern_gga ks_scheme hks npts st
    refine ⟨out, hout, hvrho, hvgamma, fun i hi => ?_⟩
    rw [hden, hgamma, hpos, hneg, hpp, hpm, hmm]
    exact ⟨(interleave_two _ _ _ npts i hi).1, (interleave_two _ _ _ npts i hi).2,
      (interleave_three _ _ _ _ npts i hi).1, (interleave_three _ _ _ _ npts i hi).2.1,
      (interleave_three _ _ _ _ npts i hi).2.2,
      hadamard_deinterleave mul _ _ _ 0 2 npts i hi,
      hadamard_deinterleave mul _ _ _ 1 2 npts i hi,
      hadamard_deinterleave mul _ _ _ 0 3 npts i hi,
      hadamard_deinterleave mul _ _ _ 1 3 npts i hi,
      hadamard_deinterleave mul _ _ _ 2 3 npts i hi⟩
  · intro dst src i hi
    exact ⟨deinterleave dst src 0 2 npts i hi, deinterleave dst src 1 2 npts i hi,
      deinterleave dst src 0 3 npts i hi, deinterleave dst src 1 3 npts i hi,
      deinterleave dst src 2 3 npts i hi⟩
  · intro buf dst a b c i hi
    rw [deinterleave dst _ 0 2 npts i hi, deinterleave dst _ 1 2 npts i hi,
      deinterleave dst _ 0 3 npts i hi, deinterleave dst _ 1 3 npts i hi,
      deinterleave dst _ 2 3 npts i hi]
    exact ⟨(interleave_two buf a b npts i hi).1, (interleave_two buf a b npts i hi).2,
      (interleave_three buf a b c npts i hi).1, (interleave_three buf a b c npts i hi).2.1,
      (interleave_three buf a b c npts i hi).2.2⟩

/-- The LDA method on the small stack, UKS, two points: the packed density is
`10, 20, 11, 21` and the weighted outputs are `2 * 10, 3 * 11` and
`2 * 20, 3 * 21`. -/
theorem eval_kern_exc_vxc_lda_small_stack :
    (match eval_kern_exc_vxc_lda (fun a b => a * b) test_kern_lda true true true
        KSScheme.UKS 2 test_stack with
      | Except.ok out =>
        ((List.range 4).map out.den_eval_device, (List.range 2).map out.vrho_pos_eval_device,
          (List.range 2).map out.vrho_neg_eval_device)
      | Except.error _ => ([], [], []))
      = ([10, 20, 11, 21], [20, 33], [40, 63]) := by
  decide

/-- Witness for C22: the small stack, UKS, two points. -/
theorem eval_kern_exc_vxc_interleaving_witness :
    (∃ out, eval_kern_exc_vxc_lda (fun a b : Int => a * b) test_kern_lda true true true KSScheme.UKS 2 test_stack
        = Except.ok out ∧
      out.vrho_eval_device
        = (test_kern_lda 2 out.den_eval_device test_stack.eps_eval_device test_stack.vrho_eval_device).2 ∧
      ∀ i, i < 2 →
        out.den_eval_device (2 * i) = test_stack.den_s_eval_device i ∧
        out.den_eval_device (2 * i + 1) = test_stack.den_z_eval_device i ∧
        out.vrho_pos_eval_device i
          = (fun a b : Int => a * b) (test_stack.weights_device i) (out.vrho_eval_device (2 * i)) ∧
        out.vrho_neg_eval_device i
          = (fun a b : Int => a * b) (test_stack.weights_device i) (out.vrho_eval_device (2 * i + 1))) ∧
    (∃ out, eval_kern_exc_vxc_gga (fun a b : Int => a * b) test_kern_gga true true true KSScheme.UKS 2 test_stack
        = Except.ok out ∧
      out.vrho_eval_device
        = (test_kern_gga 2 out.den_eval_device out.gamma_eval_device test_stack.eps_eval_device
            test_stack.vrho_eval_device test_stack.vgamma_eval_device).2.1 ∧
      out.vgamma_eval_device
        = (test_kern_gga 2 out.den_eval_device out.gamma_eval_device test_stack.eps_eval_device
            test_stack.vrho_eval_device test_stack.vgamma_eval_device).2.2 ∧
      ∀ i, i < 2 →
        out.den_eval_device (2 * i) = test_stack.den_s_eval_device i ∧
        out.den_eval_device (2 * i + 1) = test_stack.den_z_eval_device i ∧
        out.gamma_eval_device (3 * i) = test_stack.gamma_pp_eval_device i ∧
        out.gamma_eval_device (3 * i + 1) = test_stack.gamma_pm_eval_device i ∧
        out.gamma_eval_device (3 * i + 2) = test_stack.gamma_mm_eval_device i ∧
        out.vrho_pos_eval_device i
          = (fun a b : Int => a * b) (test_stack.weights_device i) (out.vrho_eval_device (2 * i)) ∧
        out.vrho_neg_eval_device i
          = (fun a b : Int => a * b) (test_stack.weights_device i) (out.vrho_eval_device (2 * i + 1)) ∧
        out.vgamma_pp_eval_device i
          = (fun a b : Int => a * b) (test_stack.weights_device i) (out.vgamma_eval_device (3 * i)) ∧
        out.vgamma_pm_eval_device i
          = (fun a b : Int => a * b) (test_stack.weights_device i) (out.vgamma_eval_device (3 * i + 1)) ∧
        out.vgamma_mm_eval_device i
          = (fun a b : Int => a * b) (test_stack.weights_device i) (out.vgamma_eval_device (3 * i + 2))) ∧
    (∀ (dst src : Nat → Int) (i : Nat), i < 2 →
      cudaMemcpy2D dst 0 1 src 0 2 2 i = src (2 * i) ∧
      cudaMemcpy2D dst 0 1 src 1 2 2 i = src (2 * i + 1) ∧
      cudaMemcpy2D dst 0 1 src 0 3 2 i = src (3 * i) ∧
      cudaMemcpy2D dst 0 1 src 1 3 2 i = src (3 * i + 1) ∧
      cudaMemcpy2D dst 0 1 src 2 3 2 i = src (3 * i + 2)) ∧
    (∀ (buf dst a b c : Nat → Int) (i : Nat), i < 2 →
      cudaMemcpy2D dst 0 1
          (cudaMemcpy2D (cudaMemcpy2D buf 0 2 a 0 1 2) 1 2 b 0 1 2) 0 2 2 i = a i ∧
      cudaMemcpy2D dst 0 1
          (cudaMemcpy2D (cudaMemcpy2D buf 0 2 a 0 1 2) 1 2 b 0 1 2) 1 2 2 i = b i ∧
      cudaMemcpy2D dst 0 1
          (cudaMemcpy2D (cudaMemcpy2D (cudaMemcpy2D buf 0 3 a 0 1 2) 1 3 b 0 1 2)
            2 3 c 0 1 2) 0 3 2 i = a i ∧
      cudaMemcpy2D dst 0 1
          (cudaMemcpy2D (cudaMemcpy2D (cudaMemcpy2D buf 0 3 a 0 1 2) 1 3 b 0 1 2)
            2 3 c 0 1 2) 1 3 2 i = b i ∧
      cudaMemcpy2D dst 0 1
          (cudaMemcpy2D (cudaMemcpy2D (cudaMemcpy2D buf 0 3 a 0 1 2) 1 3 b 0 1 2)
            2 3 c 0 1 2) 2 3 2 i = c i) :=
  eval_kern_exc_vxc_interleaving (fun a b : Int => a * b) test_kern_lda test_kern_gga
    KSScheme.UKS (Or.inl rfl) 2 test_stack

end GauXC

